import Mathlib

/-!
# nomad-event-logger: the watch / dedup / fan-out engine

A shallow embedding of the Go package `agent` (manager.go, the five
`*_manager.go` files, agent.go, event.go, sink.go) and theorems about it.

Conventions of the embedding
* `uint64` indices are `Nat`, `int64` times and `time.Duration` are `Int`
  (only compared, or subtracted with explicit saturation).
* A pointer to a decoded API record is the record itself; a Go slice is a
  `List`; a possibly-nil map or slice that the code tests against `nil` is an
  `Option`; a Go map is the list of its entries in the order in which the
  `range` statement visits them.
* `error` is `Option String` (`none` is `nil`).
* Mutable receivers are passed and returned explicitly.
-/

namespace NomadEventLogger

/-! ## Records of the Nomad API client that the managers read -/

namespace api

/-- The `QueryMeta` returned next to a list result; only `LastIndex` is read. -/
structure QueryMeta where
  LastIndex : Nat
deriving DecidableEq, Repr

structure JobListStub where
  ID : String
  ModifyIndex : Nat
deriving DecidableEq, Repr

structure NodeListStub where
  ID : String
  ModifyIndex : Nat
deriving DecidableEq, Repr

structure Evaluation where
  ID : String
  ModifyIndex : Nat
  SnapshotIndex : Nat
deriving DecidableEq, Repr

structure Deployment where
  ID : String
  ModifyIndex : Nat
deriving DecidableEq, Repr

/-- One entry of `TaskState.Events`; `Time` is the `int64` event time. -/
structure TaskEvent where
  Typ : String
  Time : Int
deriving DecidableEq, Repr

structure TaskState where
  State : String
  Failed : Bool
  Restarts : Nat
  LastRestart : Int
  StartedAt : Int
  FinishedAt : Int
  Events : Option (List TaskEvent)
deriving DecidableEq, Repr

/-- An allocation stub. `TaskStates` is the map from task name to task state,
as the list of entries in `range` order, or `none` for a nil map. -/
structure AllocationListStub where
  ID : String
  Name : String
  NodeID : String
  EvalID : String
  DesiredStatus : String
  DesiredDescription : String
  ClientStatus : String
  ClientDescription : String
  JobID : String
  TaskGroup : String
  TaskStates : Option (List (String × TaskState))
deriving DecidableEq, Repr

end api

/-- The result of a blocking list query: an error, or records and meta. -/
abbrev QueryResult (α : Type) := Except String (List α × Option api.QueryMeta)

/-! ## event.go -/

def EventTypeAllocation : String := "allocation"
def EventTypeEvaluation : String := "evaluation"
def EventTypeNode : String := "node"
def EventTypeJob : String := "job"
def EventTypeDeployment : String := "deployment"
def EventTypeTask : String := "task"

/-- The `taskStateMap` literal built in `processAllocationTaskEvents`. -/
structure TaskInfo where
  State : String
  Failed : Bool
  Restarts : Nat
  LastRestart : Int
  StartedAt : Int
  FinishedAt : Int
deriving DecidableEq, Repr

set_option linter.dupNamespace false in
/-- The flattened allocation + task composite (`agent.TaskEvent`). -/
structure TaskEvent where
  AllocationName : String
  AllocationID : String
  NodeID : String
  EvalID : String
  DesiredStatus : String
  DesiredDescription : String
  ClientStatus : String
  ClientDescription : String
  JobID : String
  TaskGroup : String
  TaskName : String
  TaskEvent : api.TaskEvent
  TaskInfo : TaskInfo
deriving DecidableEq, Repr

/-- The values stored in `Event.Data` (declared `any` in the source). -/
inductive Payload where
  | job (r : api.JobListStub)
  | node (r : api.NodeListStub)
  | evaluation (r : api.Evaluation)
  | deployment (r : api.Deployment)
  | task (r : TaskEvent)
deriving DecidableEq, Repr

/-- The envelope. `Time` is the capture time, `Typ` the field `Type`. -/
structure Event where
  Time : Int
  Typ : String
  Data : Payload
deriving DecidableEq, Repr

/-- `NewEvent`; `now` is the reading that `time.Now()` returns. -/
def NewEvent (now : Int) (eventType : String) (data : Payload) : Event :=
  { Time := now, Typ := eventType, Data := data }

def NewTaskEvent (allocation : api.AllocationListStub) (taskName : String)
    (taskEvent : api.TaskEvent) (taskInfo : TaskInfo) : TaskEvent :=
  { AllocationName := allocation.Name
    AllocationID := allocation.ID
    NodeID := allocation.NodeID
    EvalID := allocation.EvalID
    DesiredStatus := allocation.DesiredStatus
    DesiredDescription := allocation.DesiredDescription
    ClientStatus := allocation.ClientStatus
    ClientDescription := allocation.ClientDescription
    JobID := allocation.JobID
    TaskGroup := allocation.TaskGroup
    TaskName := taskName
    TaskEvent := taskEvent
    TaskInfo := taskInfo }

/-- Type tag and payload of an envelope (everything but the capture time). -/
def Event.body (e : Event) : String × Payload := (e.Typ, e.Data)

/-! ## sink.go: the `Sink` interface -/

/-- A value of the interface `Sink`. A sink is a deterministic object: the
error its next `Write` returns is a function `writeErr` of the events it was
given before and of the new event. `received` is that history, `closeErr`
the error its `Close` returns, `closeCalls` how often `Close` was called. -/
structure Sink where
  writeErr : List Event → Event → Option String
  received : List Event
  closeErr : Option String
  closeCalls : Nat

def Sink.Write (s : Sink) (event : Event) : Sink × Option String :=
  ({ s with received := s.received ++ [event] }, s.writeErr s.received event)

def Sink.Close (s : Sink) : Sink × Option String :=
  ({ s with closeCalls := s.closeCalls + 1 }, s.closeErr)

/-! ## manager.go -/

/-- The zero `time.Time` (1 January of year 1, UTC) in nanoseconds relative to
the Unix epoch. -/
def zeroTime : Int := -62135596800 * 1000000000

/-- The struct `BaseManager` without client, wait group and mutex. `stopChan`
is `true` once the channel is closed; `logger` holds the lines logged so far.
Two fields are instrumentation: `emitted` lists the arguments of the
`WriteEvent` calls made so far, `sinkWrites` lists the `Write` calls made on
sinks so far as (position of the sink in `sinks`, event). -/
structure BaseManager where
  sinks : List Sink
  eventType : String
  stopChan : Bool
  lastIndex : Nat
  logger : List String
  firstRun : Bool
  lastCallTime : Int
  rateLimit : Int
  emitted : List Event
  sinkWrites : List (Nat × Event)

/-- `NewBaseManager`; `clientErr` is the error of `nomadapi.NewClient`. -/
def NewBaseManager (clientErr : Option String) (sinks : List Sink) (eventType : String)
    (rateLimit : Int) : Except String BaseManager :=
  match clientErr with
  | some err => .error ("failed to create Nomad client: " ++ err)
  | none =>
    .ok { sinks := sinks
          eventType := eventType
          stopChan := false
          lastIndex := 0
          logger := []
          firstRun := true
          lastCallTime := zeroTime
          rateLimit := rateLimit
          emitted := []
          sinkWrites := [] }

def BaseManager.GetEventType (m : BaseManager) : String := m.eventType

def BaseManager.logError (m : BaseManager) (msg : String) : BaseManager :=
  { m with logger := m.logger ++ ["ERROR " ++ msg] }

def BaseManager.logInfo (m : BaseManager) (msg : String) : BaseManager :=
  { m with logger := m.logger ++ ["INFO " ++ msg] }

/-- Body of the `for _, sink := range m.sinks` loop of `WriteEvent`; `done`
holds the sinks already visited, in their new state. -/
def BaseManager.WriteEvent.loop (event : Event) (acc : BaseManager × List Sink) (sink : Sink) :
    BaseManager × List Sink :=
  let m := acc.1
  let done := acc.2
  let r := sink.Write event
  let m := { m with sinkWrites := m.sinkWrites ++ [(done.length, event)] }
  let m := match r.2 with
    | some _ => m.logError "Failed to write event to sink"
    | none => m
  (m, done ++ [r.1])

/-- `WriteEvent` writes an event to all configured sinks. -/
def BaseManager.WriteEvent (m : BaseManager) (event : Event) : BaseManager × Option String :=
  let m := { m with emitted := m.emitted ++ [event] }
  let r := m.sinks.foldl (BaseManager.WriteEvent.loop event) (m, [])
  ({ r.1 with sinks := r.2 }, none)

/-- `Stop` closes the stop channel. -/
def BaseManager.Stop (m : BaseManager) : BaseManager × Option String :=
  ({ m with stopChan := true }, none)

def BaseManager.markFirstRunComplete (m : BaseManager) : BaseManager :=
  if m.firstRun then
    { m.logInfo "First run completed, events will be processed on subsequent runs" with
      firstRun := false }
  else m

def BaseManager.isFirstRun (m : BaseManager) : Bool := m.firstRun

/-! ## job_manager.go -/

structure JobManager extends BaseManager

def NewJobManager (clientErr : Option String) (sinks : List Sink) : Except String JobManager :=
  match NewBaseManager clientErr sinks EventTypeJob 0 with
  | .error err => .error err
  | .ok baseManager => .ok { toBaseManager := baseManager }

/-- Body of the `for _, job := range jobs` loop of `watchJobs`; the state is
the manager and the local `maxModifyIndex`. `clock k` is the reading of the
`time.Now()` call made by `NewEvent` when `k` events were built before. -/
def JobManager.watchJobs.loop (clock : Nat → Int) (st : JobManager × Nat)
    (job : api.JobListStub) : JobManager × Nat :=
  let m := st.1
  let maxModifyIndex := st.2
  if job.ModifyIndex ≤ m.lastIndex then (m, maxModifyIndex)
  else
    let maxModifyIndex :=
      if job.ModifyIndex > maxModifyIndex then job.ModifyIndex else maxModifyIndex
    if m.isFirstRun then (m, maxModifyIndex)
    else
      let nomadEvent := NewEvent (clock m.emitted.length) EventTypeJob (.job job)
      let r := m.WriteEvent nomadEvent
      let b := match r.2 with
        | some _ => r.1.logError "Failed to write job event"
        | none => r.1
      ({ toBaseManager := b }, maxModifyIndex)

/-- `watchJobs`: one poll cycle of the job manager on the query result `q`. -/
def JobManager.watchJobs (clock : Nat → Int) (m : JobManager)
    (q : QueryResult api.JobListStub) : JobManager × Option String :=
  match q with
  | .error err => (m, some ("failed to get jobs: " ++ err))
  | .ok (jobs, _) =>
    let maxModifyIndex := m.lastIndex
    let st := jobs.foldl (JobManager.watchJobs.loop clock) (m, maxModifyIndex)
    let m := st.1
    let maxModifyIndex := st.2
    let m : JobManager :=
      if maxModifyIndex > m.lastIndex then { m with lastIndex := maxModifyIndex } else m
    ({ toBaseManager := m.markFirstRunComplete }, none)

/-! ## node_manager.go -/

structure NodeManager extends BaseManager

def NewNodeManager (clientErr : Option String) (sinks : List Sink) : Except String NodeManager :=
  match NewBaseManager clientErr sinks EventTypeNode 0 with
  | .error err => .error err
  | .ok baseManager => .ok { toBaseManager := baseManager }

/-- Body of the `for _, node := range nodes` loop of `watchNodes`. -/
def NodeManager.watchNodes.loop (clock : Nat → Int) (m : NodeManager)
    (node : api.NodeListStub) : NodeManager :=
  if m.isFirstRun then m
  else if node.ModifyIndex ≤ m.lastIndex then m
  else
    let nomadEvent := NewEvent (clock m.emitted.length) EventTypeNode (.node node)
    let r := m.WriteEvent nomadEvent
    let b := match r.2 with
      | some _ => r.1.logError "Failed to write node event"
      | none => r.1
    { toBaseManager := b }

/-- `watchNodes`: one poll cycle of the node manager on the query result `q`. -/
def NodeManager.watchNodes (clock : Nat → Int) (m : NodeManager)
    (q : QueryResult api.NodeListStub) : NodeManager × Option String :=
  match q with
  | .error err => (m, some ("failed to get nodes: " ++ err))
  | .ok (nodes, qmeta) =>
    let m := nodes.foldl (NodeManager.watchNodes.loop clock) m
    let m : NodeManager :=
      match qmeta with
      | some mt => if mt.LastIndex > m.lastIndex then { m with lastIndex := mt.LastIndex } else m
      | none => m
    ({ toBaseManager := m.markFirstRunComplete }, none)

/-! ## evaluation_manager.go -/

structure EvaluationManager extends BaseManager

def NewEvaluationManager (clientErr : Option String) (sinks : List Sink) :
    Except String EvaluationManager :=
  match NewBaseManager clientErr sinks EventTypeEvaluation 0 with
  | .error err => .error err
  | .ok baseManager => .ok { toBaseManager := baseManager }

/-- Body of the `for _, eval := range evaluations` loop of `watchEvaluations`. -/
def EvaluationManager.watchEvaluations.loop (clock : Nat → Int) (m : EvaluationManager)
    (eval : api.Evaluation) : EvaluationManager :=
  if m.isFirstRun then m
  else if eval.ModifyIndex ≤ m.lastIndex then m
  else if eval.SnapshotIndex = 0 then m
  else
    let nomadEvent := NewEvent (clock m.emitted.length) EventTypeEvaluation (.evaluation eval)
    let r := m.WriteEvent nomadEvent
    let b := match r.2 with
      | some _ => r.1.logError "Failed to write evaluation event"
      | none => r.1
    { toBaseManager := b }

/-- `watchEvaluations`: one poll cycle of the evaluation manager. -/
def EvaluationManager.watchEvaluations (clock : Nat → Int) (m : EvaluationManager)
    (q : QueryResult api.Evaluation) : EvaluationManager × Option String :=
  match q with
  | .error err => (m, some ("failed to get evaluations: " ++ err))
  | .ok (evaluations, qmeta) =>
    let m := evaluations.foldl (EvaluationManager.watchEvaluations.loop clock) m
    let m : EvaluationManager :=
      match qmeta with
      | some mt => if mt.LastIndex > m.lastIndex then { m with lastIndex := mt.LastIndex } else m
      | none => m
    ({ toBaseManager := m.markFirstRunComplete }, none)

/-! ## deployment_manager.go -/

structure DeploymentManager extends BaseManager

def NewDeploymentManager (clientErr : Option String) (sinks : List Sink) :
    Except String DeploymentManager :=
  match NewBaseManager clientErr sinks EventTypeDeployment 0 with
  | .error err => .error err
  | .ok baseManager => .ok { toBaseManager := baseManager }

/-- Body of the `for _, deployment := range deployments` loop. -/
def DeploymentManager.watchDeployments.loop (clock : Nat → Int) (m : DeploymentManager)
    (deployment : api.Deployment) : DeploymentManager :=
  if m.isFirstRun then m
  else if deployment.ModifyIndex ≤ m.lastIndex then m
  else
    let nomadEvent := NewEvent (clock m.emitted.length) EventTypeDeployment (.deployment deployment)
    let r := m.WriteEvent nomadEvent
    let b := match r.2 with
      | some _ => r.1.logError "Failed to write deployment event"
      | none => r.1
    { toBaseManager := b }

/-- `watchDeployments`: one poll cycle of the deployment manager. -/
def DeploymentManager.watchDeployments (clock : Nat → Int) (m : DeploymentManager)
    (q : QueryResult api.Deployment) : DeploymentManager × Option String :=
  match q with
  | .error err => (m, some ("failed to get deployments: " ++ err))
  | .ok (deployments, qmeta) =>
    let m := deployments.foldl (DeploymentManager.watchDeployments.loop clock) m
    let m : DeploymentManager :=
      match qmeta with
      | some mt => if mt.LastIndex > m.lastIndex then { m with lastIndex := mt.LastIndex } else m
      | none => m
    ({ toBaseManager := m.markFirstRunComplete }, none)

/-! ## allocation_manager.go -/

structure AllocationManager extends BaseManager where
  lastSeenTime : Int

def NewAllocationManager (clientErr : Option String) (sinks : List Sink) (rateLimit : Int) :
    Except String AllocationManager :=
  match NewBaseManager clientErr sinks EventTypeAllocation rateLimit with
  | .error err => .error err
  | .ok baseManager => .ok { toBaseManager := baseManager, lastSeenTime := 0 }

/-- Body of the inner loop `for _, event := range taskState.Events`; the state
is the manager and the local `maxEventTime` of `processAllocationTaskEvents`. -/
def AllocationManager.processAllocationTaskEvents.events (clock : Nat → Int)
    (alloc : api.AllocationListStub) (taskName : String) (taskState : api.TaskState)
    (st : AllocationManager × Int) (event : api.TaskEvent) : AllocationManager × Int :=
  let m := st.1
  let maxEventTime := st.2
  let eventTime := event.Time
  if eventTime < m.lastSeenTime then (m, maxEventTime)
  else
    let maxEventTime := if eventTime > maxEventTime then eventTime else maxEventTime
    if m.isFirstRun then (m, maxEventTime)
    else
      let taskStateMap : TaskInfo :=
        { State := taskState.State
          Failed := taskState.Failed
          Restarts := taskState.Restarts
          LastRestart := taskState.LastRestart
          StartedAt := taskState.StartedAt
          FinishedAt := taskState.FinishedAt }
      let taskEvent := NewTaskEvent alloc taskName event taskStateMap
      let nomadEvent := NewEvent (clock m.emitted.length) EventTypeTask (.task taskEvent)
      let r := m.WriteEvent nomadEvent
      let b := match r.2 with
        | some _ => r.1.logError "Failed to write task event"
        | none => r.1
      ({ m with toBaseManager := b }, maxEventTime)

/-- Body of the outer loop `for taskName, taskState := range alloc.TaskStates`. -/
def AllocationManager.processAllocationTaskEvents.tasks (clock : Nat → Int)
    (alloc : api.AllocationListStub) (st : AllocationManager × Int)
    (entry : String × api.TaskState) : AllocationManager × Int :=
  let taskName := entry.1
  let taskState := entry.2
  match taskState.Events with
  | none => st
  | some events =>
    events.foldl
      (AllocationManager.processAllocationTaskEvents.events clock alloc taskName taskState) st

/-- `processAllocationTaskEvents` returns the manager, the maximum event time
found for the allocation and the (always nil) error. -/
def AllocationManager.processAllocationTaskEvents (clock : Nat → Int) (m : AllocationManager)
    (alloc : api.AllocationListStub) : AllocationManager × Int × Option String :=
  match alloc.TaskStates with
  | none => (m, m.lastSeenTime, none)
  | some taskStates =>
    let maxEventTime := m.lastSeenTime
    let st := taskStates.foldl
      (AllocationManager.processAllocationTaskEvents.tasks clock alloc) (m, maxEventTime)
    (st.1, st.2, none)

/-- Body of the `for _, allocStub := range allocations` loop. -/
def AllocationManager.watchAllocations.loop (clock : Nat → Int) (st : AllocationManager × Int)
    (allocStub : api.AllocationListStub) : AllocationManager × Int :=
  let m := st.1
  let maxEventTime := st.2
  let r := m.processAllocationTaskEvents clock allocStub
  let m := r.1
  let allocationMaxTime := r.2.1
  let m : AllocationManager := match r.2.2 with
    | some _ =>
      { m with toBaseManager := m.logError "Failed to process allocation task events" }
    | none => m
  let maxEventTime := if allocationMaxTime > maxEventTime then allocationMaxTime else maxEventTime
  (m, maxEventTime)

/-- `watchAllocations`: one poll cycle of the allocation manager. -/
def AllocationManager.watchAllocations (clock : Nat → Int) (m : AllocationManager)
    (q : QueryResult api.AllocationListStub) : AllocationManager × Option String :=
  match q with
  | .error err => (m, some ("failed to get allocations: " ++ err))
  | .ok (allocations, qmeta) =>
    let m : AllocationManager :=
      match qmeta with
      | some mt => if mt.LastIndex > m.lastIndex then { m with lastIndex := mt.LastIndex } else m
      | none => m
    let maxEventTime := m.lastSeenTime
    let st := allocations.foldl (AllocationManager.watchAllocations.loop clock) (m, maxEventTime)
    let m := st.1
    let maxEventTime := st.2
    let m : AllocationManager :=
      if maxEventTime > m.lastSeenTime then { m with lastSeenTime := maxEventTime } else m
    ({ m with toBaseManager := m.markFirstRunComplete }, none)

/-! ## manager.go: the watcher loop -/

def maxDuration : Int := 2 ^ 63 - 1
def minDuration : Int := -(2 ^ 63)

/-- `time.Second` as a `time.Duration` (nanoseconds). -/
def Second : Int := 1000000000

/-- Two's complement wrap-around of `int64` arithmetic. -/
def wrapInt64 (x : Int) : Int := (x + 2 ^ 63) % 2 ^ 64 - 2 ^ 63

/-- `now.Sub(t)`: the difference of two instants, saturating at the largest
and smallest `time.Duration`. -/
def timeSub (now t : Int) : Int :=
  if now - t > maxDuration then maxDuration
  else if now - t < minDuration then minDuration
  else now - t

/-- A manager type embeds `*BaseManager`: `base` reads the embedded value and
`withBase` stores a new one. -/
class Manager (μ : Type) where
  base : μ → BaseManager
  withBase : μ → BaseManager → μ

instance : Manager JobManager where
  base m := m.toBaseManager
  withBase _ b := { toBaseManager := b }

instance : Manager NodeManager where
  base m := m.toBaseManager
  withBase _ b := { toBaseManager := b }

instance : Manager EvaluationManager where
  base m := m.toBaseManager
  withBase _ b := { toBaseManager := b }

instance : Manager DeploymentManager where
  base m := m.toBaseManager
  withBase _ b := { toBaseManager := b }

instance : Manager AllocationManager where
  base m := m.toBaseManager
  withBase m b := { m with toBaseManager := b }

/-- What one iteration of the `for` loop of `runWatcherWithRateLimit` did:
it returned (the stop channel was closed), it slept for the rest of the rate
limit and continued, or it called `watchFunc` (followed by the 5 second sleep
when `watchFunc` returned an error). -/
inductive WatcherStep (μ : Type) where
  | returned (m : μ)
  | rateLimited (m : μ) (sleepDuration : Int)
  | polled (m : μ) (err : Option String) (backoff : Option Int)

def WatcherStep.calledWatchFunc {μ : Type} : WatcherStep μ → Bool
  | .polled _ _ _ => true
  | _ => false

/-- One iteration of the `for` loop of `runWatcherWithRateLimit`. `ctx` is
`true` when the context passed to `Start` is cancelled, `now` is the reading
of `time.Now()`, and `watchFunc` receives the context. -/
def runWatcherWithRateLimit.iteration {μ : Type} [Manager μ] (m : μ) (ctx : Bool) (now : Int)
    (watchFunc : Bool → μ → μ × Option String) : WatcherStep μ :=
  if (Manager.base m).stopChan then .returned m
  else if timeSub now (Manager.base m).lastCallTime < (Manager.base m).rateLimit then
    let sleepDuration :=
      wrapInt64 ((Manager.base m).rateLimit - timeSub now (Manager.base m).lastCallTime)
    .rateLimited m sleepDuration
  else
    let m := Manager.withBase m { Manager.base m with lastCallTime := now }
    let r := watchFunc ctx m
    match r.2 with
    | some _ =>
      .polled
        (Manager.withBase r.1
          ((Manager.base r.1).logError "Watcher error, retrying in 5 seconds"))
        r.2 (some (5 * Second))
    | none => .polled r.1 none none

/-- The closure `runJobWatcher` passes to `runWatcherWithRateLimit`; `q` is
the result of the query the call makes. The context is not used. -/
def JobManager.runJobWatcher.watchFunc (clock : Nat → Int) (q : QueryResult api.JobListStub)
    (_ctx : Bool) (m : JobManager) : JobManager × Option String :=
  m.watchJobs clock q

/-! ## agent.go -/

/-- The values of the interface `EventManager`. -/
inductive EventManager where
  | allocation (m : AllocationManager)
  | evaluation (m : EvaluationManager)
  | node (m : NodeManager)
  | job (m : JobManager)
  | deployment (m : DeploymentManager)

def EventManager.base : EventManager → BaseManager
  | .allocation m => m.toBaseManager
  | .evaluation m => m.toBaseManager
  | .node m => m.toBaseManager
  | .job m => m.toBaseManager
  | .deployment m => m.toBaseManager

/-- The struct `Agent`; `ctx` is `true` once `cancel` was called. -/
structure Agent where
  managers : List EventManager
  sinks : List Sink
  ctx : Bool
  logger : List String

/-- Body of the `for _, sink := range a.sinks` loop of `Agent.Stop`. -/
def Agent.Stop.loop (acc : List Sink × List String) (sink : Sink) : List Sink × List String :=
  let r := sink.Close
  match r.2 with
  | some _ => (acc.1 ++ [r.1], acc.2 ++ ["ERROR Failed to close sink"])
  | none => (acc.1 ++ [r.1], acc.2)

/-- `Agent.Stop`: cancel the context, wait on `a.wg`, close the sinks. The
wait group `a.wg` counts the goroutines launched by `Agent.Start`; each of
them only runs `m.Start(a.ctx)`, which launches the watcher goroutine and
returns, so the wait changes no state of the model. No manager is touched. -/
def Agent.Stop (a : Agent) : Agent × Option String :=
  let a := { a with logger := a.logger ++ ["INFO Stopping Nomad event collection agent"] }
  let a := { a with ctx := true }
  let r := a.sinks.foldl Agent.Stop.loop ([], a.logger)
  let a := { a with sinks := r.1, logger := r.2 }
  ({ a with logger := a.logger ++ ["INFO Agent stopped successfully"] }, none)

/-- The state reached from `m` by the poll cycles `cycle` run one after the
other on the query results `qs`. -/
def pollCycles {μ ρ : Type} (cycle : μ → ρ → μ × Option String) (m : μ) (qs : List ρ) : μ :=
  qs.foldl (fun m q => (cycle m q).1) m

/-! ## Vocabulary for stating properties of the allocation manager -/

/-- The task events of one entry of `TaskStates`, in slice order, each with
the task name and task state of the entry. -/
def taskEntryEvents (entry : String × api.TaskState) :
    List (String × api.TaskState × api.TaskEvent) :=
  match entry.2.Events with
  | none => []
  | some events => events.map (fun event => (entry.1, entry.2, event))

/-- The task events of one allocation, in the order the loops visit them. -/
def allocTaskEvents (alloc : api.AllocationListStub) :
    List (String × api.TaskState × api.TaskEvent) :=
  match alloc.TaskStates with
  | none => []
  | some taskStates => taskStates.flatMap taskEntryEvents

/-- The task events of a whole query result with their allocation, in the
order the loops visit them. -/
def resultTaskEvents (allocations : List api.AllocationListStub) :
    List (api.AllocationListStub × String × api.TaskState × api.TaskEvent) :=
  allocations.flatMap (fun alloc => (allocTaskEvents alloc).map (fun x => (alloc, x)))

/-- Type tag and payload of the envelope the allocation manager builds for
one task event. -/
def taskEnvelope (x : api.AllocationListStub × String × api.TaskState × api.TaskEvent) :
    String × Payload :=
  (EventTypeTask,
    Payload.task (NewTaskEvent x.1 x.2.1 x.2.2.2
      { State := x.2.2.1.State
        Failed := x.2.2.1.Failed
        Restarts := x.2.2.1.Restarts
        LastRestart := x.2.2.1.LastRestart
        StartedAt := x.2.2.1.StartedAt
        FinishedAt := x.2.2.1.FinishedAt }))

/-- The loop invariant of one allocation-manager poll cycle: the watch state
read by the filter is fixed, and the local maximum is at least the watermark. -/
def AllocInv (L : Nat) (f : Bool) (T : Int) (st : AllocationManager × Int) : Prop :=
  st.1.lastIndex = L ∧ st.1.firstRun = f ∧ st.1.lastSeenTime = T ∧ T ≤ st.2

instance (L : Nat) (f : Bool) (T : Int) (st : AllocationManager × Int) :
    Decidable (AllocInv L f T st) := by
  unfold AllocInv
  infer_instance

/-- The envelopes passed to `WriteEvent` between the states `before` and
`after` of one manager. -/
def emittedDuring (before after : BaseManager) : List Event :=
  after.emitted.drop before.emitted.length

/-! ## config.go -/

/-- The struct `FileConfig`. -/
structure FileConfig where
  Path : String
deriving DecidableEq, Repr

/-- The struct `Config`; `RateLimit` is a `time.Duration`. -/
structure Config where
  NomadAddr : String
  NomadToken : String
  Sinks : List String
  EventTypes : List String
  RateLimit : Int
  FileConfig : FileConfig
deriving DecidableEq, Repr

/-- The map literal `validEventTypes` of `Validate`, as its lookup function:
`validEventTypes[eventType]` is `true` for the six keys and `false` (the zero
value) for every other string. -/
def validEventTypes (eventType : String) : Bool :=
  eventType = EventTypeAllocation || eventType = EventTypeEvaluation
    || eventType = EventTypeNode || eventType = EventTypeJob
    || eventType = EventTypeDeployment || eventType = EventTypeTask

/-- The loop `for _, sink := range c.Sinks` of `Validate`, run on the entries
still to visit: the error it returns with, or `none` when it runs to the end. -/
def Config.Validate.sinks (c : Config) : List String → Option String
  | [] => none
  | sink :: rest =>
    if sink = "stdout" then Config.Validate.sinks c rest
    else if sink = "file" then
      if c.FileConfig.Path = "" then some "file path is required when using file sink"
      else Config.Validate.sinks c rest
    else some ("unknown sink type: " ++ sink)

/-- The loop `for _, eventType := range c.EventTypes` of `Validate`. -/
def Config.Validate.eventTypes : List String → Option String
  | [] => none
  | eventType :: rest =>
    if !validEventTypes eventType then some ("unknown event type: " ++ eventType)
    else Config.Validate.eventTypes rest

/-- `Validate` checks if the configuration is valid. -/
def Config.Validate (c : Config) : Option String :=
  if c.NomadAddr = "" then some "nomad address is required"
  else if c.Sinks.length = 0 then some "at least one sink must be specified"
  else
    match Config.Validate.sinks c c.Sinks with
    | some err => some err
    | none =>
      if c.EventTypes.length > 0 then Config.Validate.eventTypes c.EventTypes
      else none

/-! ## agent.go: `New` -/

/-- The errors `New` returns, one constructor for each `fmt.Errorf` call. -/
inductive NewError where
  | unknownSinkType (sinkType : String)
  | sinkCreate (sinkType : String) (err : String)
  | unknownEventType (eventType : String)
  | managerCreate (eventType : String) (err : String)
deriving DecidableEq, Repr

/-- The message of an error of `New`. -/
def NewError.Error : NewError → String
  | .unknownSinkType sinkType => "unknown sink type: " ++ sinkType
  | .sinkCreate sinkType err => "failed to create " ++ sinkType ++ " sink: " ++ err
  | .unknownEventType eventType => "unknown event type: " ++ eventType
  | .managerCreate eventType err => "failed to create " ++ eventType ++ " manager: " ++ err

/-- What `New` obtains from outside the package: the interface value of the
sink `NewStdoutSink()` returns, the result of `NewFileSink(path)`, and the
error of `nomadapi.NewClient` for an address and a token (`none` is nil). -/
structure NewEnv where
  NewStdoutSink : Sink
  NewFileSink : String → Except String Sink
  NewClient : String → String → Option String

/-- The loop `for _, sinkType := range config.Sinks` of `New`, run on the
entries still to visit with the sinks created so far. -/
def New.sinks (env : NewEnv) (config : Config) : List String → List Sink →
    Except NewError (List Sink)
  | [], sinks => .ok sinks
  | sinkType :: rest, sinks =>
    if sinkType = "stdout" then New.sinks env config rest (sinks ++ [env.NewStdoutSink])
    else if sinkType = "file" then
      match env.NewFileSink config.FileConfig.Path with
      | .error err => .error (.sinkCreate sinkType err)
      | .ok sink => New.sinks env config rest (sinks ++ [sink])
    else .error (.unknownSinkType sinkType)

/-- The event types `New` monitors: `config.EventTypes`, or all six types when
none is specified. -/
def New.eventTypes (config : Config) : List String :=
  if config.EventTypes.length = 0 then
    [EventTypeAllocation, EventTypeEvaluation, EventTypeNode, EventTypeJob,
      EventTypeDeployment, EventTypeTask]
  else config.EventTypes

/-- Lift the result of a manager constructor to the interface `EventManager`,
wrapping its error as `New` does. -/
def New.wrap {μ : Type} (eventType : String) (inj : μ → EventManager) (r : Except String μ) :
    Except NewError EventManager :=
  match r with
  | .error err => .error (.managerCreate eventType err)
  | .ok manager => .ok (inj manager)

/-- The `switch eventType` of `New` with the error check that follows it. -/
def New.manager (env : NewEnv) (config : Config) (sinks : List Sink) (eventType : String) :
    Except NewError EventManager :=
  let clientErr := env.NewClient config.NomadAddr config.NomadToken
  if eventType = EventTypeAllocation then
    New.wrap eventType .allocation (NewAllocationManager clientErr sinks config.RateLimit)
  else if eventType = EventTypeEvaluation then
    New.wrap eventType .evaluation (NewEvaluationManager clientErr sinks)
  else if eventType = EventTypeNode then
    New.wrap eventType .node (NewNodeManager clientErr sinks)
  else if eventType = EventTypeJob then
    New.wrap eventType .job (NewJobManager clientErr sinks)
  else if eventType = EventTypeDeployment then
    New.wrap eventType .deployment (NewDeploymentManager clientErr sinks)
  else if eventType = EventTypeTask then
    New.wrap eventType .allocation (NewAllocationManager clientErr sinks config.RateLimit)
  else .error (.unknownEventType eventType)

/-- The loop `for _, eventType := range eventTypes` of `New`. -/
def New.managers (env : NewEnv) (config : Config) (sinks : List Sink) :
    List String → List EventManager → Except NewError (List EventManager)
  | [], managers => .ok managers
  | eventType :: rest, managers =>
    match New.manager env config sinks eventType with
    | .error err => .error err
    | .ok manager => New.managers env config sinks rest (managers ++ [manager])

/-- `New` creates a new agent with the given configuration. -/
def New (env : NewEnv) (config : Config) : Except NewError Agent :=
  match New.sinks env config config.Sinks [] with
  | .error err => .error err
  | .ok sinks =>
    match New.managers env config sinks (New.eventTypes config) [] with
    | .error err => .error err
    | .ok managers => .ok { managers := managers, sinks := sinks, ctx := false, logger := [] }

/-- The manager `m` is the one `New` builds for the entry `eventType`: the
entries "allocation" and "task" give an allocation manager that reports the
event type "allocation" and has the configured rate limit; the entries
"evaluation", "node", "job" and "deployment" give the manager of that kind,
which reports the entry as its event type and has rate limit 0. -/
def managerMatches (config : Config) (eventType : String) (m : EventManager) : Prop :=
  match m with
  | .allocation am =>
    (eventType = "allocation" ∨ eventType = "task") ∧ am.GetEventType = "allocation"
      ∧ am.rateLimit = config.RateLimit
  | .evaluation em =>
    eventType = "evaluation" ∧ em.GetEventType = "evaluation" ∧ em.rateLimit = 0
  | .node nm => eventType = "node" ∧ nm.GetEventType = "node" ∧ nm.rateLimit = 0
  | .job jm => eventType = "job" ∧ jm.GetEventType = "job" ∧ jm.rateLimit = 0
  | .deployment dm =>
    eventType = "deployment" ∧ dm.GetEventType = "deployment" ∧ dm.rateLimit = 0

/-! ## manager.go: running the watcher loop -/

/-- The embedding of `*BaseManager` is a field: reading it after storing a
value gives that value. -/
class LawfulManager (μ : Type) [Manager μ] : Prop where
  base_withBase : ∀ (m : μ) (b : BaseManager), Manager.base (Manager.withBase m b) = b

instance : LawfulManager JobManager := ⟨fun _ _ => rfl⟩
instance : LawfulManager NodeManager := ⟨fun _ _ => rfl⟩
instance : LawfulManager EvaluationManager := ⟨fun _ _ => rfl⟩
instance : LawfulManager DeploymentManager := ⟨fun _ _ => rfl⟩
instance : LawfulManager AllocationManager := ⟨fun _ _ => rfl⟩

/-- The steps a run of `runWatcherWithRateLimit` performs, in order: a
rate-limit sleep (with the clock reading of that iteration and the duration
passed to `time.Sleep`), a call of `watchFunc` (with the clock reading taken
in that iteration before the call, and the error the call returned), the
sleep after a failed call, and the `return`. -/
inductive LoopEvent where
  | rateLimitSleep (now : Int) (sleepDuration : Int)
  | poll (now : Int) (err : Option String)
  | backoffSleep (d : Int)
  | returned
deriving DecidableEq, Repr

/-- The surroundings of a running watcher loop. `stopClosed i` tells whether
the stop channel is found closed when iteration `i` begins (another goroutine
may close it at any time). `watchFunc i` is the behaviour of the call of
`watchFunc` made in iteration `i` (it depends on what the query returns).
`lag i` is the time in nanoseconds that passes during iteration `i` beyond the
durations passed to `time.Sleep`: the duration of the poll, oversleeping,
scheduling; it may be 0. -/
structure WatcherEnv (μ : Type) where
  stopClosed : Nat → Bool
  watchFunc : Nat → Bool → μ → μ × Option String
  lag : Nat → Nat

/-- The outcome of running the loop for a bounded number of iterations: the
steps performed, whether the function returned (`false`: the loop is still
running), the number of iterations begun, the manager and the clock. -/
structure LoopRun (μ : Type) where
  trace : List LoopEvent
  returned : Bool
  iterations : Nat
  m : μ
  clock : Int

/-- `runWatcherWithRateLimit`, run for at most `fuel` iterations of its `for`
loop, starting with iteration number `i` at clock reading `t`. The clock is
monotone: a call `time.Sleep(d)` advances it by at least `d` (by nothing when
`d` is not positive), and every reading `time.Now()` of an iteration is the
clock value at which the iteration begins. -/
def runWatcherWithRateLimit {μ : Type} [Manager μ] (env : WatcherEnv μ) (ctx : Bool) :
    Nat → Nat → Int → μ → LoopRun μ
  | 0, _, t, m => { trace := [], returned := false, iterations := 0, m := m, clock := t }
  | fuel + 1, i, t, m =>
    let m :=
      if env.stopClosed i then Manager.withBase m { Manager.base m with stopChan := true }
      else m
    match runWatcherWithRateLimit.iteration m ctx t (env.watchFunc i) with
    | .returned m => { trace := [.returned], returned := true, iterations := 1, m := m, clock := t }
    | .rateLimited m sleepDuration =>
      let r := runWatcherWithRateLimit env ctx fuel (i + 1)
        (t + max sleepDuration 0 + env.lag i) m
      { r with trace := .rateLimitSleep t sleepDuration :: r.trace,
               iterations := r.iterations + 1 }
    | .polled m err backoff =>
      let r := runWatcherWithRateLimit env ctx fuel (i + 1)
        (t + max (backoff.getD 0) 0 + env.lag i) m
      { r with trace := .poll t err :: ((match backoff with
                                         | some d => [LoopEvent.backoffSleep d]
                                         | none => []) ++ r.trace),
               iterations := r.iterations + 1 }

/-- The clock readings taken before the calls of `watchFunc`, in order. -/
def pollReadings : List LoopEvent → List Int
  | [] => []
  | .poll now _ :: rest => now :: pollReadings rest
  | _ :: rest => pollReadings rest

/-- Whether a step is a rate-limit sleep. -/
def LoopEvent.isRateLimitSleep : LoopEvent → Bool
  | .rateLimitSleep _ _ => true
  | _ => false

/-- Whether in a trace every failed call of `watchFunc` is directly followed
by a sleep of 5 seconds, and no other step is followed by such a sleep. -/
def backoffAfterErrorsOnly : List LoopEvent → Bool
  | [] => true
  | .poll _ (some _) :: .backoffSleep d :: rest =>
    decide (d = 5 * Second) && backoffAfterErrorsOnly rest
  | .poll _ (some _) :: _ => false
  | .backoffSleep _ :: _ => false
  | _ :: rest => backoffAfterErrorsOnly rest

/-- The function `watchFunc` leaves the fields the loop itself reads and
writes alone: the stop channel, `lastCallTime` and `rateLimit`. -/
def PreservesLoopControl {μ : Type} [Manager μ] (watchFunc : Bool → μ → μ × Option String) :
    Prop :=
  ∀ (ctx : Bool) (m : μ),
    (Manager.base (watchFunc ctx m).1).stopChan = (Manager.base m).stopChan
    ∧ (Manager.base (watchFunc ctx m).1).lastCallTime = (Manager.base m).lastCallTime
    ∧ (Manager.base (watchFunc ctx m).1).rateLimit = (Manager.base m).rateLimit

/-- The fields of a manager that the watcher loop itself reads and writes. -/
def loopControl (b : BaseManager) : Bool × Int × Int :=
  (b.stopChan, b.lastCallTime, b.rateLimit)

/-- What holds of a run of the watcher loop bounded by `fuel` iterations that
starts with iteration `i` at clock reading `t`, on a manager with rate limit
`R`, last call time `L` and an open stop channel.
* The function has returned exactly when one of the iterations began found the
  stop channel closed; it then returned in the first such iteration, and its
  `return` is the last step. Otherwise all `fuel` iterations ran and the loop
  goes on.
* Every failed call of `watchFunc` is followed by a 5 second sleep, and no
  other step is.
* Starting from `L`, every clock reading taken before a call of `watchFunc` is
  at least `R` (in the saturating difference `Sub`) after the previous one, and
  `lastCallTime` ends as the last of these readings.
* With rate limit 0 and a clock not behind `L`, no step is a rate-limit sleep. -/
structure RunSpec {μ : Type} [Manager μ] (env : WatcherEnv μ) (R : Int) (fuel i : Nat)
    (t L : Int) (r : LoopRun μ) : Prop where
  returned_iff : r.returned = true ↔ ∃ j, j < fuel ∧ env.stopClosed (i + j) = true
  running : r.returned = false → r.iterations = fuel ∧ LoopEvent.returned ∉ r.trace
  returned_first : r.returned = true →
    1 ≤ r.iterations ∧ r.iterations ≤ fuel
      ∧ env.stopClosed (i + (r.iterations - 1)) = true
      ∧ (∀ k, k + 1 < r.iterations → env.stopClosed (i + k) = false)
      ∧ r.trace.getLast? = some LoopEvent.returned
  backoff : backoffAfterErrorsOnly r.trace = true
  chain : List.Chain (fun a b => R ≤ timeSub b a) L (pollReadings r.trace)
  lastCallTime : (Manager.base r.m).lastCallTime = (pollReadings r.trace).getLast?.getD L
  noSleep : R = 0 → L ≤ t → ∀ e ∈ r.trace, e.isRateLimitSleep = false

/-- The closure `runAllocationWatcher` passes to `runWatcherWithRateLimit`; `q`
is the result of the query the call makes. The context is not used. -/
def AllocationManager.runAllocationWatcher.watchFunc (clock : Nat → Int)
    (q : QueryResult api.AllocationListStub) (_ctx : Bool) (m : AllocationManager) :
    AllocationManager × Option String :=
  m.watchAllocations clock q

/-! ## event.go: `ToJSON`

`ToJSON` is `json.Marshal(e)`. The encoder (Go's packages `encoding/json` and
`time`) is not part of the sources; the definitions of this section model it
from the specification of the wire format. Texts are lists of characters. -/

/-- The line feed character. -/
def newline : Char := Char.ofNat 10

/-- The double quote character. -/
def dquote : Char := Char.ofNat 34

/-- The backslash character. -/
def backslash : Char := Char.ofNat 92

/-- The decimal digit of `n` modulo 10. -/
def digitChar (n : Nat) : Char :=
  match n % 10 with
  | 0 => '0' | 1 => '1' | 2 => '2' | 3 => '3' | 4 => '4'
  | 5 => '5' | 6 => '6' | 7 => '7' | 8 => '8' | _ => '9'

/-- The lower-case hexadecimal digit of `n` modulo 16. -/
def hexDigit (n : Nat) : Char :=
  match n % 16 with
  | 0 => '0' | 1 => '1' | 2 => '2' | 3 => '3' | 4 => '4' | 5 => '5' | 6 => '6' | 7 => '7'
  | 8 => '8' | 9 => '9' | 10 => 'a' | 11 => 'b' | 12 => 'c' | 13 => 'd' | 14 => 'e'
  | _ => 'f'

/-- The last `width` decimal digits of `n`, padded with zeros. -/
def padDigits : Nat → Nat → List Char
  | 0, _ => []
  | width + 1, n => padDigits width (n / 10) ++ [digitChar n]

/-- Remove the zeros at the end of a digit string. -/
def trimTrailingZeros (digits : List Char) : List Char :=
  (digits.reverse.dropWhile (fun c => c = '0')).reverse

/-- Modelled from the spec: whether `year` is a leap year of the Gregorian
calendar. -/
def isLeap (year : Int) : Bool :=
  year % 4 = 0 ∧ (year % 100 ≠ 0 ∨ year % 400 = 0)

/-- Modelled from the spec: the year and the day of the year (from 0) of a day
given as a number of days since 1 January 1970, computed by cutting off cycles
of 400, 100, 4 and 1 years from the days since 1 January of the year 1; the
last cycle of 100 years and the last year of 4 are one day longer, hence the
two corrections. -/
def yearDayFromDays (days : Int) : Int × Int :=
  let d := days + 719162
  let n400 := d / 146097
  let d := d - 146097 * n400
  let n100 := d / 36524
  let n100 := n100 - n100 / 4
  let d := d - 36524 * n100
  let n4 := d / 1461
  let d := d - 1461 * n4
  let n1 := d / 365
  let n1 := n1 - n1 / 4
  let d := d - 365 * n1
  (400 * n400 + 100 * n100 + 4 * n4 + n1 + 1, d)

/-- Modelled from the spec: the month and the day of the month of the day
`yday` (from 0) of a year, leap or not. -/
def monthDayFromYearDay (leap : Bool) (yday : Int) : Int × Int :=
  let l : Int := if leap then 1 else 0
  if yday < 31 then (1, yday + 1)
  else if yday < 59 + l then (2, yday - 30)
  else if yday < 90 + l then (3, yday - 58 - l)
  else if yday < 120 + l then (4, yday - 89 - l)
  else if yday < 151 + l then (5, yday - 119 - l)
  else if yday < 181 + l then (6, yday - 150 - l)
  else if yday < 212 + l then (7, yday - 180 - l)
  else if yday < 243 + l then (8, yday - 211 - l)
  else if yday < 273 + l then (9, yday - 242 - l)
  else if yday < 304 + l then (10, yday - 272 - l)
  else if yday < 334 + l then (11, yday - 303 - l)
  else (12, yday - 333 - l)

/-- Year, month and day of the proleptic Gregorian calendar for a number of
days since 1 January 1970. -/
def civilFromDays (days : Int) : Int × Int × Int :=
  let yd := yearDayFromDays days
  let md := monthDayFromYearDay (isLeap yd.1) yd.2
  (yd.1, md.1, md.2)

/-- The first instant of the year 0000, in nanoseconds since the Unix epoch:
the first wall-clock reading that has an RFC 3339 rendering. -/
def rfc3339Min : Int := -62167219200 * 1000000000

/-- The first instant of the year 10000: the first later wall-clock reading
that has no RFC 3339 rendering. -/
def rfc3339Max : Int := 253402300800 * 1000000000

/-- Modelled from the spec: the reasons for which `Time.MarshalJSON` refuses a
time. -/
inductive TimeError where
  | yearOutOfRange
  | zoneHourOutOfRange
deriving DecidableEq, Repr

/-- Modelled from the spec: the fraction of a second of an RFC 3339 timestamp:
nothing when it is zero,
otherwise a point and the nine digits of the nanoseconds without the zeros at
the end. -/
def fractionText (nanos : Nat) : List Char :=
  if nanos = 0 then [] else '.' :: trimTrailingZeros (padDigits 9 nanos)

/-- Modelled from the spec: the zone of an RFC 3339 timestamp for an offset from
UTC in seconds east:
`Z` for the offset zero, otherwise the sign, the hours and the minutes of the
offset, its seconds being cut off. -/
def zoneText (offset : Int) : List Char :=
  if offset = 0 then ['Z']
  else
    let zone := Int.tdiv offset 60
    (if zone < 0 then ['-'] else ['+']) ++ padDigits 2 (zone.natAbs / 60) ++ [':']
      ++ padDigits 2 (zone.natAbs % 60)

/-- Modelled from the spec: the RFC 3339 timestamp with the given date, time of
day, nanoseconds and
offset from UTC: `2006-01-02T15:04:05.999999999Z07:00` in the notation of the
package `time`. -/
def rfc3339Text (year month day hour minute second nanos : Nat) (offset : Int) : List Char :=
  padDigits 4 year ++ ['-'] ++ padDigits 2 month ++ ['-'] ++ padDigits 2 day ++ ['T']
    ++ padDigits 2 hour ++ [':'] ++ padDigits 2 minute ++ [':'] ++ padDigits 2 second
    ++ fractionText nanos ++ zoneText offset

/-- Modelled from the spec: the RFC 3339 rendering that `Time.MarshalJSON`
gives of a `time.Time`, which the wire format uses for the member "time". A
`time.Time` is an instant with a location: `t` is the instant in nanoseconds
since the Unix epoch and `offset` the offset from UTC, in seconds east, that the
location has at that instant. Date and time of day are those of the wall clock
of the location. A timestamp of RFC 3339 has a year of four digits and a zone
hour below 24: a time whose year, on its wall clock, is outside 0000 to 9999 is
refused, and so is, after that, a time whose offset is 24 hours or more. -/
def formatRFC3339 (t offset : Int) : Except TimeError (List Char) :=
  let wall := t + offset * 1000000000
  let secs := wall / 1000000000
  let nanos := (wall % 1000000000).toNat
  let days := secs / 86400
  let sod := (secs % 86400).toNat
  let ymd := civilFromDays days
  if ymd.1 < 0 ∨ 9999 < ymd.1 then .error .yearOutOfRange
  else if offset ≠ 0 ∧ 24 ≤ (Int.tdiv offset 60).natAbs / 60 then .error .zoneHourOutOfRange
  else
    .ok (rfc3339Text ymd.1.toNat ymd.2.1.toNat ymd.2.2.toNat (sod / 3600) (sod / 60 % 60)
      (sod % 60) nanos offset)

/-- Modelled from the spec: the characters that stand for one character inside
a JSON string, as `encoding/json` writes them: the quote, the backslash, the
control characters
and, for safe embedding in HTML, the characters `<`, `>`, `&`, U+2028 and
U+2029 are escaped; backspace, form feed, line feed, carriage return and tab
have a short form. -/
def escapeChar (c : Char) : List Char :=
  if c = dquote then [backslash, dquote]
  else if c = backslash then [backslash, backslash]
  else if c = Char.ofNat 8 then [backslash, 'b']
  else if c = Char.ofNat 12 then [backslash, 'f']
  else if c = newline then [backslash, 'n']
  else if c = Char.ofNat 13 then [backslash, 'r']
  else if c = Char.ofNat 9 then [backslash, 't']
  else if c.toNat < 32 ∨ c = '<' ∨ c = '>' ∨ c = '&' then
    [backslash, 'u', '0', '0', hexDigit (c.toNat / 16), hexDigit c.toNat]
  else if c.toNat = 8232 then [backslash, 'u', '2', '0', '2', '8']
  else if c.toNat = 8233 then [backslash, 'u', '2', '0', '2', '9']
  else [c]

/-- Modelled from the spec: the JSON string that denotes `s`, used for the
member "type". -/
def jsonString (s : String) : List Char :=
  [dquote] ++ s.toList.flatMap escapeChar ++ [dquote]

/-- Modelled from the spec: what `json.Marshal` takes from the Go values and
from its own library that the embedding does not hold. `marshal` is the JSON
encoding of the payload `Event.Data`, which the encoder derives from the Go
value by reflection (an error when the value is not JSON-encodable); the
encoder writes compact JSON, in which no raw line feed occurs. `zoneOffset` is
the offset from UTC, in seconds east, of the location of `Event.Time`, of which
the embedding keeps the instant only: 0 for a time in UTC, the offset of the
local zone for the events of `NewEvent`, which stores `time.Now()`.
`timeError` is the text of the error that `json.Marshal` returns for a time
that `Time.MarshalJSON` refuses. -/
structure DataEncoder where
  marshal : Payload → Except String String
  compact : ∀ (data : Payload) (text : String), marshal data = .ok text → newline ∉ text.toList
  zoneOffset : Event → Int
  timeError : TimeError → String

/-- Modelled from the spec: `ToJSON`, that is `json.Marshal` of an `Event`. The
struct tags of `Event` name the members "time", "type" and "data", encoded
in the order of the fields; the first member that cannot be encoded makes the
call fail. -/
def Event.ToJSON (enc : DataEncoder) (e : Event) : Except String String :=
  match formatRFC3339 e.Time (enc.zoneOffset e) with
  | .error err => .error (enc.timeError err)
  | .ok time =>
    match enc.marshal e.Data with
    | .error err => .error err
    | .ok data =>
      .ok (String.mk ("\x7b\"time\":".toList ++ [dquote] ++ time ++ [dquote]
        ++ ",\"type\":".toList ++ jsonString e.Typ
        ++ ",\"data\":".toList ++ data.toList ++ "\x7d".toList))

/-! ### The calendar and the decimal notation

The proleptic Gregorian calendar as RFC 3339 uses it, by counting days, and the
value of a decimal numeral: what the rendering of a time is measured against. -/

/-- Whether the year `y` is a leap year: every fourth year, but of the years
divisible by 100 only those divisible by 400. -/
def isLeapYear (y : Nat) : Bool :=
  y % 4 = 0 ∧ (y % 100 ≠ 0 ∨ y % 400 = 0)

/-- The number of days of the year `y`. -/
def daysInYear (y : Nat) : Nat := if isLeapYear y then 366 else 365

/-- The number of days of the month `m` (1 to 12) of the year `y`. -/
def daysInMonth (y m : Nat) : Nat :=
  if m = 2 then (if isLeapYear y then 29 else 28)
  else if m = 4 ∨ m = 6 ∨ m = 9 ∨ m = 11 then 30
  else 31

/-- The number of days of the years 0 to `y - 1`. -/
def daysBeforeYear : Nat → Nat
  | 0 => 0
  | y + 1 => daysBeforeYear y + daysInYear y

/-- The number of days of the months 1 to `m` of the year `y`. -/
def daysBeforeMonth (y : Nat) : Nat → Nat
  | 0 => 0
  | m + 1 => daysBeforeMonth y m + daysInMonth y (m + 1)

/-- The number of days from 1 January 1970 to the day `d` of the month `m` of
the year `y`; 719528 days lie between 1 January 0000 and 1 January 1970. -/
def unixDay (y m d : Nat) : Int :=
  (daysBeforeYear y : Int) + daysBeforeMonth y (m - 1) + d - 1 - 719528

/-- The number of nanoseconds from the Unix epoch to the given wall-clock
reading. -/
def unixNano (y m d hour minute second nanos : Nat) : Int :=
  (((unixDay y m d * 24 + hour) * 60 + minute) * 60 + second) * 1000000000 + nanos

/-- The value of a decimal digit. -/
def digitValue (c : Char) : Nat := c.toNat - 48

/-- The number that a string of decimal digits denotes. -/
def decimalValue (digits : List Char) : Nat :=
  digits.foldl (fun acc c => acc * 10 + digitValue c) 0

/-! ## sink.go: `StdoutSink` and `FileSink`

The files of the operating system are not part of the sources. A file system
is the content of the regular file at each path (`none`: no such file), a
content being the sequence of the bytes of the file, here a `String`. -/

/-- The content of the regular file at each path. -/
abbrev FileSystem := String → Option String

/-- Replace the content of the file at `path`. -/
def FileSystem.set (fs : FileSystem) (path : String) (content : String) : FileSystem :=
  fun p => if p = path then some content else fs p

/-- The flags of `os.OpenFile` that the model distinguishes. -/
structure OpenFlags where
  O_APPEND : Bool
  O_CREATE : Bool
  O_TRUNC : Bool
deriving DecidableEq, Repr

/-- An open `*os.File`: its path, whether it was opened with `O_APPEND`, the
file offset, and whether it was closed. -/
structure File where
  path : String
  append : Bool
  offset : Nat
  closed : Bool
deriving DecidableEq, Repr

/-- Modelled from the spec: `os.OpenFile(path, flags, perm)` for writing.
`openErr` is the error with which the operating system refuses the call
(permissions, a missing directory). A missing file is created empty with
`O_CREATE` and is an error without it; an existing file keeps its content
unless `O_TRUNC` is given. -/
def OpenFile (openErr : Option String) (fs : FileSystem) (path : String) (flags : OpenFlags) :
    Except String (File × FileSystem) :=
  match openErr with
  | some err => .error err
  | none =>
    let file : File := { path := path, append := flags.O_APPEND, offset := 0, closed := false }
    match fs path with
    | none =>
      if flags.O_CREATE then .ok (file, fs.set path "")
      else .error "no such file or directory"
    | some _ =>
      if flags.O_TRUNC then .ok (file, fs.set path "") else .ok (file, fs)

/-- What goes wrong in one call of `FileSink.Write`, if anything: `write` is
the number of bytes written before `file.Write` failed and its error, `sync`
the error of `file.Sync`. -/
structure WriteFault where
  write : Option (Nat × String)
  sync : Option String

/-- The content of a file after `bytes` are written at `offset`. -/
def overwriteAt (content : String) (offset : Nat) (bytes : String) : String :=
  String.mk (content.toList.take offset ++ bytes.toList
    ++ content.toList.drop (offset + bytes.length))

/-- Modelled from the spec: `file.Write(bytes)`. A closed file refuses the
write. A file opened with `O_APPEND` writes at the end of the file, whatever
its offset; otherwise the bytes replace those at the file offset. When the
write fails after `n` bytes, only these are written. A file that was removed
since it was opened has no content at its path any more. -/
def File.Write (fault : Option (Nat × String)) (fs : FileSystem) (file : File)
    (bytes : String) : File × FileSystem × Option String :=
  if file.closed then (file, fs, some "file already closed")
  else
    let written : String :=
      match fault with
      | some (n, _) => String.mk (bytes.toList.take n)
      | none => bytes
    let err : Option String :=
      match fault with
      | some (_, e) => some e
      | none => none
    match fs file.path with
    | none => (file, fs, err)
    | some content =>
      if file.append then
        ({ file with offset := content.length + written.length },
          fs.set file.path (content ++ written), err)
      else
        ({ file with offset := file.offset + written.length },
          fs.set file.path (overwriteAt content file.offset written), err)

/-- `StdoutSink` has no state but its mutex. -/
structure StdoutSink where
deriving DecidableEq, Repr

def NewStdoutSink : StdoutSink := {}

/-- `StdoutSink.Write`; `stdout` is the text printed to standard output so far,
and `fmt.Println` adds a line feed. -/
def StdoutSink.Write (enc : DataEncoder) (stdout : String) (_s : StdoutSink) (event : Event) :
    String × Option String :=
  match event.ToJSON enc with
  | .error err => (stdout, some ("failed to marshal event: " ++ err))
  | .ok data => (stdout ++ data ++ "\n", none)

def StdoutSink.Close (_s : StdoutSink) : Option String := none

/-- `FileSink`; `file` is `none` for a nil `*os.File`. -/
structure FileSink where
  file : Option File
deriving DecidableEq, Repr

/-- `NewFileSink` opens the file with `O_APPEND|O_CREATE|O_WRONLY`. -/
def NewFileSink (openErr : Option String) (fs : FileSystem) (path : String) :
    Except String (FileSink × FileSystem) :=
  match OpenFile openErr fs path { O_APPEND := true, O_CREATE := true, O_TRUNC := false } with
  | .error err => .error ("failed to open file " ++ path ++ ": " ++ err)
  | .ok (file, fs) => .ok ({ file := some file }, fs)

/-- `FileSink.Write`: marshal the event, write it with a line feed, sync. -/
def FileSink.Write (enc : DataEncoder) (fault : WriteFault) (fs : FileSystem) (s : FileSink)
    (event : Event) : FileSink × FileSystem × Option String :=
  match event.ToJSON enc with
  | .error err => (s, fs, some ("failed to marshal event: " ++ err))
  | .ok data =>
    match s.file with
    | none => (s, fs, some "failed to write to file: invalid argument")
    | some file =>
      let r := File.Write fault.write fs file (data ++ "\n")
      match r.2.2 with
      | some err => ({ file := some r.1 }, r.2.1, some ("failed to write to file: " ++ err))
      | none => ({ file := some r.1 }, r.2.1, fault.sync)

/-- `FileSink.Close`. -/
def FileSink.Close (closeErr : Option String) (s : FileSink) : FileSink × Option String :=
  match s.file with
  | some file => ({ file := some { file with closed := true } }, closeErr)
  | none => (s, none)

/-- The lines of a text: the pieces that end at a line feed, and the piece
after the last line feed when it is not empty. `cur` is the piece read so
far. -/
def splitLines.go : List Char → List Char → List (List Char)
  | [], cur => if cur = [] then [] else [cur]
  | c :: cs, cur =>
    if c = newline then cur :: splitLines.go cs [] else splitLines.go cs (cur ++ [c])

def splitLines (text : String) : List String :=
  (splitLines.go text.toList []).map String.mk

/-! ## Concrete values used to instantiate the theorems -/

/-- A clock for `NewEvent`: a fixed instant plus one nanosecond per event. -/
def exampleClock (k : Nat) : Int := 1700000000000000000 + k

/-- A sink whose `Write` and `Close` always succeed. -/
def okSink : Sink :=
  { writeErr := fun _ _ => none, received := [], closeErr := none, closeCalls := 0 }

/-- A sink whose `Write` always fails. -/
def failingSink : Sink :=
  { writeErr := fun _ _ => some "write failed", received := [], closeErr := none,
    closeCalls := 0 }

/-- The base manager `NewBaseManager` builds, here with sinks `failingSink`,
`okSink`. -/
def exampleBase (eventType : String) : BaseManager :=
  { sinks := [failingSink, okSink], eventType := eventType, stopChan := false, lastIndex := 0,
    logger := [], firstRun := true, lastCallTime := zeroTime, rateLimit := 0, emitted := [],
    sinkWrites := [] }

def exampleJobManager : JobManager := { toBaseManager := exampleBase EventTypeJob }
def exampleNodeManager : NodeManager := { toBaseManager := exampleBase EventTypeNode }
def exampleEvaluationManager : EvaluationManager :=
  { toBaseManager := exampleBase EventTypeEvaluation }
def exampleDeploymentManager : DeploymentManager :=
  { toBaseManager := exampleBase EventTypeDeployment }
def exampleAllocationManager : AllocationManager :=
  { toBaseManager := exampleBase EventTypeAllocation, lastSeenTime := 0 }

def exampleTaskState : api.TaskState :=
  { State := "running", Failed := false, Restarts := 0, LastRestart := 0, StartedAt := 10,
    FinishedAt := 0, Events := some [⟨"Received", 5⟩, ⟨"Started", 10⟩] }

def exampleAllocation : api.AllocationListStub :=
  { ID := "a1", Name := "web.cache[0]", NodeID := "n1", EvalID := "e1", DesiredStatus := "run",
    DesiredDescription := "", ClientStatus := "running", ClientDescription := "",
    JobID := "web", TaskGroup := "cache", TaskStates := some [("redis", exampleTaskState)] }

def exampleAllocations : QueryResult api.AllocationListStub :=
  .ok ([exampleAllocation], some ⟨12⟩)

def exampleJobs : QueryResult api.JobListStub := .ok ([⟨"web", 5⟩, ⟨"db", 7⟩], some ⟨7⟩)
def exampleNodes : QueryResult api.NodeListStub := .ok ([⟨"n1", 5⟩, ⟨"n2", 7⟩], some ⟨7⟩)
def exampleEvaluations : QueryResult api.Evaluation :=
  .ok ([⟨"e1", 5, 4⟩, ⟨"e2", 7, 0⟩], some ⟨7⟩)
def exampleDeployments : QueryResult api.Deployment := .ok ([⟨"d1", 5⟩, ⟨"d2", 7⟩], some ⟨7⟩)

/-- An agent with one job manager, as `New` builds it for the event type list
`["job"]`, before `Stop` is called. -/
def exampleAgent : Agent :=
  { managers := [.job exampleJobManager], sinks := [failingSink, okSink], ctx := false,
    logger := [] }

/-- An environment of `New` in which every constructor succeeds. -/
def exampleEnv : NewEnv :=
  { NewStdoutSink := okSink, NewFileSink := fun _ => .ok okSink, NewClient := fun _ _ => none }

/-- A configuration that `Validate` accepts. -/
def exampleConfig : Config :=
  { NomadAddr := "http://localhost:4646", NomadToken := "", Sinks := ["stdout", "file"],
    EventTypes := ["job", "task"], RateLimit := 5 * Second,
    FileConfig := { Path := "/tmp/nomad-events.json" } }

/-- An allocation manager as `NewAllocationManager` builds it for a rate limit
of 5 seconds. -/
def exampleRateLimitedManager : AllocationManager :=
  { exampleAllocationManager with rateLimit := 5 * Second }

/-- Surroundings of a watcher loop of the allocation manager: the query of
iteration 2 fails, the others return `exampleAllocations`; the stop channel is
closed from iteration 5 on; polls take no time. -/
def exampleWatcherEnv : WatcherEnv AllocationManager :=
  { stopClosed := fun i => decide (5 ≤ i)
    watchFunc := fun i =>
      AllocationManager.runAllocationWatcher.watchFunc exampleClock
        (if i = 2 then .error "connection refused" else exampleAllocations)
    lag := fun _ => 0 }

def exampleTaskState2 : api.TaskState :=
  { State := "dead", Failed := true, Restarts := 1, LastRestart := 20, StartedAt := 12,
    FinishedAt := 30, Events := some [⟨"Terminated", 30⟩, ⟨"Restarting", 20⟩] }

def exampleAllocation2 : api.AllocationListStub :=
  { ID := "a2", Name := "web.cache[1]", NodeID := "n2", EvalID := "e1", DesiredStatus := "run",
    DesiredDescription := "", ClientStatus := "failed", ClientDescription := "",
    JobID := "web", TaskGroup := "cache", TaskStates := some [("redis", exampleTaskState2)] }

/-- An allocation manager after its first cycle, with watermark 10. -/
def exampleSeenManager : AllocationManager :=
  { exampleAllocationManager with firstRun := false, lastSeenTime := 10 }

/-- An encoder for the examples: every payload is rendered as the object with
the one member "message", and the times of the events are in UTC. -/
def exampleEncoder : DataEncoder :=
  { marshal := fun _ => .ok "\x7b\"message\":\"hello world\"\x7d"
    compact := by
      intro data text h
      have ht : text = "\x7b\"message\":\"hello world\"\x7d" := by
        injection h with h'
        exact h'.symm
      rw [ht]
      decide
    zoneOffset := fun _ => 0
    timeError := fun
      | .yearOutOfRange => "year outside of range [0,9999]"
      | .zoneHourOutOfRange => "timezone hour outside of range [0,23]" }

/-- The example encoder for events whose times are in a zone `offset` seconds
east of UTC. -/
def exampleZoneEncoder (offset : Int) : DataEncoder :=
  { exampleEncoder with zoneOffset := fun _ => offset }

/-- The event of the test `TestStdoutSink`: 2022-01-01T00:00:00Z, type "test". -/
def exampleEvent : Event :=
  { Time := 1640995200 * 1000000000, Typ := "test", Data := .job ⟨"web", 5⟩ }

/-- A second event, one second after `exampleEvent`. -/
def exampleEvent2 : Event :=
  { Time := 1640995201 * 1000000000, Typ := "job", Data := .job ⟨"web", 6⟩ }

/-- A file system without any file. -/
def emptyFileSystem : FileSystem := fun _ => none

/-- No failure of the operating system during a write. -/
def noFault : WriteFault := { write := none, sync := none }

/-! ## Lemmas: `WriteEvent` -/

section WriteEventLemmas

variable (event : Event)

theorem WriteEvent_loop_snd (acc : BaseManager × List Sink) (sink : Sink) :
    (BaseManager.WriteEvent.loop event acc sink).2 = acc.2 ++ [(sink.Write event).1] := by
  simp [BaseManager.WriteEvent.loop]

theorem WriteEvent_loop_sinkWrites (acc : BaseManager × List Sink) (sink : Sink) :
    (BaseManager.WriteEvent.loop event acc sink).1.sinkWrites
      = acc.1.sinkWrites ++ [(acc.2.length, event)] := by
  simp only [BaseManager.WriteEvent.loop]
  split <;> simp [BaseManager.logError]

theorem WriteEvent_loop_frame (acc : BaseManager × List Sink) (sink : Sink) :
    (BaseManager.WriteEvent.loop event acc sink).1.lastIndex = acc.1.lastIndex
    ∧ (BaseManager.WriteEvent.loop event acc sink).1.firstRun = acc.1.firstRun
    ∧ (BaseManager.WriteEvent.loop event acc sink).1.emitted = acc.1.emitted
    ∧ (BaseManager.WriteEvent.loop event acc sink).1.eventType = acc.1.eventType
    ∧ (BaseManager.WriteEvent.loop event acc sink).1.stopChan = acc.1.stopChan
    ∧ (BaseManager.WriteEvent.loop event acc sink).1.lastCallTime = acc.1.lastCallTime
    ∧ (BaseManager.WriteEvent.loop event acc sink).1.rateLimit = acc.1.rateLimit := by
  simp only [BaseManager.WriteEvent.loop]
  split <;> simp [BaseManager.logError]

theorem WriteEvent_foldl_frame (sinks : List Sink) (acc : BaseManager × List Sink) :
    (sinks.foldl (BaseManager.WriteEvent.loop event) acc).1.lastIndex = acc.1.lastIndex
    ∧ (sinks.foldl (BaseManager.WriteEvent.loop event) acc).1.firstRun = acc.1.firstRun
    ∧ (sinks.foldl (BaseManager.WriteEvent.loop event) acc).1.emitted = acc.1.emitted
    ∧ (sinks.foldl (BaseManager.WriteEvent.loop event) acc).1.eventType = acc.1.eventType
    ∧ (sinks.foldl (BaseManager.WriteEvent.loop event) acc).1.stopChan = acc.1.stopChan
    ∧ (sinks.foldl (BaseManager.WriteEvent.loop event) acc).1.lastCallTime = acc.1.lastCallTime
    ∧ (sinks.foldl (BaseManager.WriteEvent.loop event) acc).1.rateLimit = acc.1.rateLimit := by
  induction sinks generalizing acc with
  | nil => simp
  | cons s rest ih =>
    obtain ⟨h1, h2, h3, h4, h5, h6, h7⟩ := ih (BaseManager.WriteEvent.loop event acc s)
    obtain ⟨g1, g2, g3, g4, g5, g6, g7⟩ := WriteEvent_loop_frame event acc s
    simp only [List.foldl_cons]
    exact ⟨h1.trans g1, h2.trans g2, h3.trans g3, h4.trans g4, h5.trans g5, h6.trans g6,
      h7.trans g7⟩

theorem WriteEvent_foldl_calls (sinks : List Sink) (acc : BaseManager × List Sink) :
    (sinks.foldl (BaseManager.WriteEvent.loop event) acc).1.sinkWrites
      = acc.1.sinkWrites ++ (List.range' acc.2.length sinks.length).map (fun i => (i, event))
    ∧ (sinks.foldl (BaseManager.WriteEvent.loop event) acc).2
      = acc.2 ++ sinks.map (fun s => (s.Write event).1) := by
  induction sinks generalizing acc with
  | nil => simp
  | cons s rest ih =>
    obtain ⟨h1, h2⟩ := ih (BaseManager.WriteEvent.loop event acc s)
    simp only [List.foldl_cons]
    rw [h1, h2, WriteEvent_loop_sinkWrites, WriteEvent_loop_snd]
    simp [List.range'_succ]

theorem WriteEvent_err (m : BaseManager) : (m.WriteEvent event).2 = none := rfl

theorem WriteEvent_lastIndex (m : BaseManager) :
    (m.WriteEvent event).1.lastIndex = m.lastIndex :=
  (WriteEvent_foldl_frame event m.sinks _).1

theorem WriteEvent_firstRun (m : BaseManager) :
    (m.WriteEvent event).1.firstRun = m.firstRun :=
  (WriteEvent_foldl_frame event m.sinks _).2.1

theorem WriteEvent_emitted (m : BaseManager) :
    (m.WriteEvent event).1.emitted = m.emitted ++ [event] :=
  (WriteEvent_foldl_frame event m.sinks _).2.2.1

end WriteEventLemmas

theorem markFirstRunComplete_spec (m : BaseManager) :
    m.markFirstRunComplete.firstRun = false
    ∧ m.markFirstRunComplete.lastIndex = m.lastIndex
    ∧ m.markFirstRunComplete.emitted = m.emitted := by
  unfold BaseManager.markFirstRunComplete
  cases h : m.firstRun <;> simp [h, BaseManager.logInfo]

/-! ## Lemmas: loops that emit envelopes -/

/-- A loop whose every step keeps `inv` and appends to the emitted envelopes a
block with bodies `f a` appends, over a list, the concatenation of the blocks. -/
theorem foldl_emitted {σ α : Type} (step : σ → α → σ) (em : σ → List Event) (inv : σ → Prop)
    (f : α → List (String × Payload))
    (hstep : ∀ s a, inv s →
      inv (step s a) ∧ ∃ new, em (step s a) = em s ++ new ∧ new.map Event.body = f a)
    (l : List α) (s : σ) (hs : inv s) :
    inv (l.foldl step s)
    ∧ ∃ new, em (l.foldl step s) = em s ++ new ∧ new.map Event.body = l.flatMap f := by
  induction l generalizing s with
  | nil => exact ⟨hs, [], by simp⟩
  | cons a rest ih =>
    obtain ⟨hinv, new₁, he₁, hb₁⟩ := hstep s a hs
    obtain ⟨hinv₂, new₂, he₂, hb₂⟩ := ih (step s a) hinv
    refine ⟨hinv₂, new₁ ++ new₂, ?_, ?_⟩
    · simp only [List.foldl_cons]
      rw [he₂, he₁, List.append_assoc]
    · simp [List.flatMap_cons, hb₁, hb₂]

theorem flatMap_ite_singleton {α β : Type} (keep : α → Bool) (mk : α → β) (l : List α) :
    l.flatMap (fun a => if keep a then [mk a] else []) = (l.filter keep).map mk := by
  induction l with
  | nil => rfl
  | cons a rest ih =>
    by_cases h : keep a <;> simp [List.flatMap_cons, List.filter_cons, h, ih]

theorem flatMap_nil_fun {α β : Type} (l : List α) :
    l.flatMap (fun _ => ([] : List β)) = [] := by
  induction l with
  | nil => rfl
  | cons a rest ih => simp [List.flatMap_cons, ih]

theorem emittedDuring_append (before after : BaseManager) (new : List Event)
    (h : after.emitted = before.emitted ++ new) : emittedDuring before after = new := by
  simp [emittedDuring, h]

/-- The running maximum ignores elements that are not above a bound below it. -/
theorem foldl_max_le_self {β : Type} [LinearOrder β] (l : List β) (b : β) : b ≤ l.foldl max b := by
  induction l generalizing b with
  | nil => simp
  | cons a rest ih => exact le_trans (le_max_left b a) (ih (max b a))

/-- The Go idiom `if x > max then max = x` computes a maximum. -/
theorem ite_gt_eq_max {β : Type} [LinearOrder β] (a b : β) :
    (if b > a then b else a) = max a b := by
  by_cases h : a < b
  · simp [h, max_eq_right (le_of_lt h)]
  · simp [h, max_eq_left (not_lt.mp h)]

/-! ## Lemmas: job manager -/

theorem watchJobs_loop_spec (clock : Nat → Int) (st : JobManager × Nat) (job : api.JobListStub) :
    (JobManager.watchJobs.loop clock st job).1.lastIndex = st.1.lastIndex
    ∧ (JobManager.watchJobs.loop clock st job).1.firstRun = st.1.firstRun
    ∧ (JobManager.watchJobs.loop clock st job).2
        = (if st.1.lastIndex < job.ModifyIndex then max st.2 job.ModifyIndex else st.2)
    ∧ (JobManager.watchJobs.loop clock st job).1.emitted
        = st.1.emitted ++
          (if st.1.firstRun = false ∧ st.1.lastIndex < job.ModifyIndex then
            [NewEvent (clock st.1.emitted.length) EventTypeJob (.job job)] else []) := by
  unfold JobManager.watchJobs.loop
  by_cases h : job.ModifyIndex ≤ st.1.lastIndex
  · have h' : ¬ st.1.lastIndex < job.ModifyIndex := not_lt.mpr h
    simp [h, h']
  · have h' : st.1.lastIndex < job.ModifyIndex := not_le.mp h
    cases hf : st.1.firstRun
    · simp [h, h', hf, BaseManager.isFirstRun, WriteEvent_err, WriteEvent_lastIndex,
        WriteEvent_firstRun, WriteEvent_emitted, ite_gt_eq_max]
    · simp [h, h', hf, BaseManager.isFirstRun, ite_gt_eq_max]


theorem watchJobs_foldl_spec (clock : Nat → Int) (jobs : List api.JobListStub)
    (st : JobManager × Nat) (hst : st.1.lastIndex ≤ st.2) :
    (jobs.foldl (JobManager.watchJobs.loop clock) st).1.lastIndex = st.1.lastIndex
    ∧ (jobs.foldl (JobManager.watchJobs.loop clock) st).1.firstRun = st.1.firstRun
    ∧ (jobs.foldl (JobManager.watchJobs.loop clock) st).2
        = (jobs.map (fun j => j.ModifyIndex)).foldl max st.2 := by
  induction jobs generalizing st with
  | nil => simp
  | cons job rest ih =>
    obtain ⟨h1, h2, h3, _⟩ := watchJobs_loop_spec clock st job
    have hle : (JobManager.watchJobs.loop clock st job).1.lastIndex
        ≤ (JobManager.watchJobs.loop clock st job).2 := by
      rw [h1, h3]; split
      · exact le_trans hst (le_max_left _ _)
      · exact hst
    have hmax : (JobManager.watchJobs.loop clock st job).2 = max st.2 job.ModifyIndex := by
      rw [h3]; split
      · rfl
      · rename_i hn
        exact (max_eq_left (le_trans (not_lt.mp hn) hst)).symm
    obtain ⟨g1, g2, g3⟩ := ih _ hle
    simp only [List.foldl_cons, List.map_cons]
    exact ⟨g1.trans h1, g2.trans h2, by rw [g3, hmax]⟩

theorem watchJobs_foldl_emitted (clock : Nat → Int) (jobs : List api.JobListStub)
    (st : JobManager × Nat) :
    ∃ new, (jobs.foldl (JobManager.watchJobs.loop clock) st).1.emitted = st.1.emitted ++ new
      ∧ new.map Event.body
        = if st.1.firstRun then []
          else (jobs.filter (fun j => decide (st.1.lastIndex < j.ModifyIndex))).map
            (fun j => (EventTypeJob, Payload.job j)) := by
  have key := foldl_emitted (JobManager.watchJobs.loop clock) (fun s => s.1.emitted)
    (fun s => s.1.lastIndex = st.1.lastIndex ∧ s.1.firstRun = st.1.firstRun)
    (fun j => if (!st.1.firstRun && decide (st.1.lastIndex < j.ModifyIndex)) then
      [(EventTypeJob, Payload.job j)] else [])
    (by
      intro s a ⟨hl, hf⟩
      obtain ⟨h1, h2, _, h4⟩ := watchJobs_loop_spec clock s a
      refine ⟨⟨h1.trans hl, h2.trans hf⟩, _, h4, ?_⟩
      rw [hl, hf]
      cases st.1.firstRun <;> by_cases hlt : st.1.lastIndex < a.ModifyIndex <;>
        simp [hlt, NewEvent, Event.body])
    jobs st ⟨rfl, rfl⟩
  obtain ⟨_, new, he, hb⟩ := key
  refine ⟨new, he, ?_⟩
  rw [hb, flatMap_ite_singleton]
  cases st.1.firstRun <;> simp


/-- One successful poll cycle of the job manager, for every state and result. -/
theorem watchJobs_ok_spec (clock : Nat → Int) (m : JobManager) (jobs : List api.JobListStub)
    (qmeta : Option api.QueryMeta) :
    (m.watchJobs clock (.ok (jobs, qmeta))).2 = none
    ∧ (emittedDuring m.toBaseManager (m.watchJobs clock (.ok (jobs, qmeta))).1.toBaseManager).map
        Event.body
        = (if m.firstRun then []
           else (jobs.filter (fun j => decide (m.lastIndex < j.ModifyIndex))).map
             (fun j => (EventTypeJob, Payload.job j)))
    ∧ (m.watchJobs clock (.ok (jobs, qmeta))).1.lastIndex
        = (jobs.map (fun j => j.ModifyIndex)).foldl max m.lastIndex
    ∧ (m.watchJobs clock (.ok (jobs, qmeta))).1.firstRun = false := by
  obtain ⟨h1, _, h3⟩ := watchJobs_foldl_spec clock jobs (m, m.lastIndex) (le_refl _)
  obtain ⟨new, he, hb⟩ := watchJobs_foldl_emitted clock jobs (m, m.lastIndex)
  simp only at h1 h3 he hb
  have hge : m.lastIndex ≤ (jobs.map (fun j => j.ModifyIndex)).foldl max m.lastIndex :=
    foldl_max_le_self _ _
  refine ⟨rfl, ?_, ?_, ?_⟩
  · rw [emittedDuring_append _ _ new, hb]
    simp only [JobManager.watchJobs]
    rw [(markFirstRunComplete_spec _).2.2]
    split <;> exact he
  · simp only [JobManager.watchJobs]
    rw [(markFirstRunComplete_spec _).2.1, h1, h3]
    split
    · rfl
    · rename_i hn
      exact h1.trans (le_antisymm hge (not_lt.mp hn))
  · simp only [JobManager.watchJobs]
    exact (markFirstRunComplete_spec _).1


/-! ## Lemmas: node manager -/

theorem watchNodes_loop_spec (clock : Nat → Int) (m : NodeManager) (r : api.NodeListStub) :
    (NodeManager.watchNodes.loop clock m r).lastIndex = m.lastIndex
    ∧ (NodeManager.watchNodes.loop clock m r).firstRun = m.firstRun
    ∧ (NodeManager.watchNodes.loop clock m r).emitted
        = m.emitted ++
          (if m.firstRun = false ∧ m.lastIndex < r.ModifyIndex then
            [NewEvent (clock m.emitted.length) EventTypeNode (.node r)] else []) := by
  unfold NodeManager.watchNodes.loop
  cases hf : m.firstRun
  · by_cases h : r.ModifyIndex ≤ m.lastIndex
    · have h' : ¬ m.lastIndex < r.ModifyIndex := not_lt.mpr h
      simp [h, h', hf, BaseManager.isFirstRun]
    · have h' : m.lastIndex < r.ModifyIndex := not_le.mp h
      simp [h, h', hf, BaseManager.isFirstRun, WriteEvent_err, WriteEvent_lastIndex,
        WriteEvent_firstRun, WriteEvent_emitted]
  · simp [hf, BaseManager.isFirstRun]

theorem watchNodes_foldl_spec (clock : Nat → Int) (rs : List api.NodeListStub) (m : NodeManager) :
    (rs.foldl (NodeManager.watchNodes.loop clock) m).lastIndex = m.lastIndex
    ∧ (rs.foldl (NodeManager.watchNodes.loop clock) m).firstRun = m.firstRun
    ∧ ∃ new, (rs.foldl (NodeManager.watchNodes.loop clock) m).emitted = m.emitted ++ new
      ∧ new.map Event.body
        = if m.firstRun then []
          else (rs.filter (fun r => decide (m.lastIndex < r.ModifyIndex))).map
            (fun r => (EventTypeNode, Payload.node r)) := by
  have key := foldl_emitted (NodeManager.watchNodes.loop clock) (fun s => s.emitted)
    (fun s => s.lastIndex = m.lastIndex ∧ s.firstRun = m.firstRun)
    (fun r => if (!m.firstRun && decide (m.lastIndex < r.ModifyIndex)) then
      [(EventTypeNode, Payload.node r)] else [])
    (by
      intro s a ⟨hl, hf⟩
      obtain ⟨h1, h2, h4⟩ := watchNodes_loop_spec clock s a
      refine ⟨⟨h1.trans hl, h2.trans hf⟩, _, h4, ?_⟩
      rw [hl, hf]
      cases m.firstRun <;> by_cases hlt : m.lastIndex < a.ModifyIndex <;>
        simp [hlt, NewEvent, Event.body])
    rs m ⟨rfl, rfl⟩
  obtain ⟨⟨hl, hf⟩, new, he, hb⟩ := key
  refine ⟨hl, hf, new, he, ?_⟩
  rw [hb, flatMap_ite_singleton]
  cases m.firstRun <;> simp

/-- One successful poll cycle of the node manager, for every state and result. -/
theorem watchNodes_ok_spec (clock : Nat → Int) (m : NodeManager) (rs : List api.NodeListStub)
    (qmeta : Option api.QueryMeta) :
    (m.watchNodes clock (.ok (rs, qmeta))).2 = none
    ∧ (emittedDuring m.toBaseManager (m.watchNodes clock (.ok (rs, qmeta))).1.toBaseManager).map
        Event.body
        = (if m.firstRun then []
           else (rs.filter (fun r => decide (m.lastIndex < r.ModifyIndex))).map
             (fun r => (EventTypeNode, Payload.node r)))
    ∧ (m.watchNodes clock (.ok (rs, qmeta))).1.lastIndex
        = (match qmeta with
           | some mt => max m.lastIndex mt.LastIndex
           | none => m.lastIndex)
    ∧ (m.watchNodes clock (.ok (rs, qmeta))).1.firstRun = false := by
  obtain ⟨h1, _, new, he, hb⟩ := watchNodes_foldl_spec clock rs m
  refine ⟨rfl, ?_, ?_, ?_⟩
  · rw [emittedDuring_append _ _ new, hb]
    simp only [NodeManager.watchNodes]
    rw [(markFirstRunComplete_spec _).2.2]
    cases qmeta with
    | none => exact he
    | some mt => simp only; split <;> exact he
  · simp only [NodeManager.watchNodes]
    rw [(markFirstRunComplete_spec _).2.1]
    cases qmeta with
    | none => exact h1
    | some mt =>
      simp only
      split
      · rename_i hgt
        rw [h1] at hgt
        exact (max_eq_right (le_of_lt hgt)).symm
      · rename_i hn
        rw [h1] at hn
        exact h1.trans (max_eq_left (not_lt.mp hn)).symm
  · simp only [NodeManager.watchNodes]
    exact (markFirstRunComplete_spec _).1

/-! ## Lemmas: deployment manager -/

theorem watchDeployments_loop_spec (clock : Nat → Int) (m : DeploymentManager) (r : api.Deployment) :
    (DeploymentManager.watchDeployments.loop clock m r).lastIndex = m.lastIndex
    ∧ (DeploymentManager.watchDeployments.loop clock m r).firstRun = m.firstRun
    ∧ (DeploymentManager.watchDeployments.loop clock m r).emitted
        = m.emitted ++
          (if m.firstRun = false ∧ m.lastIndex < r.ModifyIndex then
            [NewEvent (clock m.emitted.length) EventTypeDeployment (.deployment r)] else []) := by
  unfold DeploymentManager.watchDeployments.loop
  cases hf : m.firstRun
  · by_cases h : r.ModifyIndex ≤ m.lastIndex
    · have h' : ¬ m.lastIndex < r.ModifyIndex := not_lt.mpr h
      simp [h, h', hf, BaseManager.isFirstRun]
    · have h' : m.lastIndex < r.ModifyIndex := not_le.mp h
      simp [h, h', hf, BaseManager.isFirstRun, WriteEvent_err, WriteEvent_lastIndex,
        WriteEvent_firstRun, WriteEvent_emitted]
  · simp [hf, BaseManager.isFirstRun]

theorem watchDeployments_foldl_spec (clock : Nat → Int) (rs : List api.Deployment) (m : DeploymentManager) :
    (rs.foldl (DeploymentManager.watchDeployments.loop clock) m).lastIndex = m.lastIndex
    ∧ (rs.foldl (DeploymentManager.watchDeployments.loop clock) m).firstRun = m.firstRun
    ∧ ∃ new, (rs.foldl (DeploymentManager.watchDeployments.loop clock) m).emitted = m.emitted ++ new
      ∧ new.map Event.body
        = if m.firstRun then []
          else (rs.filter (fun r => decide (m.lastIndex < r.ModifyIndex))).map
            (fun r => (EventTypeDeployment, Payload.deployment r)) := by
  have key := foldl_emitted (DeploymentManager.watchDeployments.loop clock) (fun s => s.emitted)
    (fun s => s.lastIndex = m.lastIndex ∧ s.firstRun = m.firstRun)
    (fun r => if (!m.firstRun && decide (m.lastIndex < r.ModifyIndex)) then
      [(EventTypeDeployment, Payload.deployment r)] else [])
    (by
      intro s a ⟨hl, hf⟩
      obtain ⟨h1, h2, h4⟩ := watchDeployments_loop_spec clock s a
      refine ⟨⟨h1.trans hl, h2.trans hf⟩, _, h4, ?_⟩
      rw [hl, hf]
      cases m.firstRun <;> by_cases hlt : m.lastIndex < a.ModifyIndex <;>
        simp [hlt, NewEvent, Event.body])
    rs m ⟨rfl, rfl⟩
  obtain ⟨⟨hl, hf⟩, new, he, hb⟩ := key
  refine ⟨hl, hf, new, he, ?_⟩
  rw [hb, flatMap_ite_singleton]
  cases m.firstRun <;> simp

/-- One successful poll cycle of the deployment manager, for every state and result. -/
theorem watchDeployments_ok_spec (clock : Nat → Int) (m : DeploymentManager) (rs : List api.Deployment)
    (qmeta : Option api.QueryMeta) :
    (m.watchDeployments clock (.ok (rs, qmeta))).2 = none
    ∧ (emittedDuring m.toBaseManager (m.watchDeployments clock (.ok (rs, qmeta))).1.toBaseManager).map
        Event.body
        = (if m.firstRun then []
           else (rs.filter (fun r => decide (m.lastIndex < r.ModifyIndex))).map
             (fun r => (EventTypeDeployment, Payload.deployment r)))
    ∧ (m.watchDeployments clock (.ok (rs, qmeta))).1.lastIndex
        = (match qmeta with
           | some mt => max m.lastIndex mt.LastIndex
           | none => m.lastIndex)
    ∧ (m.watchDeployments clock (.ok (rs, qmeta))).1.firstRun = false := by
  obtain ⟨h1, _, new, he, hb⟩ := watchDeployments_foldl_spec clock rs m
  refine ⟨rfl, ?_, ?_, ?_⟩
  · rw [emittedDuring_append _ _ new, hb]
    simp only [DeploymentManager.watchDeployments]
    rw [(markFirstRunComplete_spec _).2.2]
    cases qmeta with
    | none => exact he
    | some mt => simp only; split <;> exact he
  · simp only [DeploymentManager.watchDeployments]
    rw [(markFirstRunComplete_spec _).2.1]
    cases qmeta with
    | none => exact h1
    | some mt =>
      simp only
      split
      · rename_i hgt
        rw [h1] at hgt
        exact (max_eq_right (le_of_lt hgt)).symm
      · rename_i hn
        rw [h1] at hn
        exact h1.trans (max_eq_left (not_lt.mp hn)).symm
  · simp only [DeploymentManager.watchDeployments]
    exact (markFirstRunComplete_spec _).1

/-! ## Lemmas: evaluation manager -/

theorem watchEvaluations_loop_spec (clock : Nat → Int) (m : EvaluationManager) (r : api.Evaluation) :
    (EvaluationManager.watchEvaluations.loop clock m r).lastIndex = m.lastIndex
    ∧ (EvaluationManager.watchEvaluations.loop clock m r).firstRun = m.firstRun
    ∧ (EvaluationManager.watchEvaluations.loop clock m r).emitted
        = m.emitted ++
          (if m.firstRun = false ∧ (m.lastIndex < r.ModifyIndex ∧ r.SnapshotIndex ≠ 0) then
            [NewEvent (clock m.emitted.length) EventTypeEvaluation (.evaluation r)] else []) := by
  unfold EvaluationManager.watchEvaluations.loop
  cases hf : m.firstRun
  · by_cases h : r.ModifyIndex ≤ m.lastIndex
    · have h' : ¬ m.lastIndex < r.ModifyIndex := not_lt.mpr h
      simp [h, h', hf, BaseManager.isFirstRun]
    · have h' : m.lastIndex < r.ModifyIndex := not_le.mp h
      by_cases hs : r.SnapshotIndex = 0 <;>
      simp [h, h', hs, hf, BaseManager.isFirstRun, WriteEvent_err, WriteEvent_lastIndex,
        WriteEvent_firstRun, WriteEvent_emitted]
  · simp [hf, BaseManager.isFirstRun]

theorem watchEvaluations_foldl_spec (clock : Nat → Int) (rs : List api.Evaluation) (m : EvaluationManager) :
    (rs.foldl (EvaluationManager.watchEvaluations.loop clock) m).lastIndex = m.lastIndex
    ∧ (rs.foldl (EvaluationManager.watchEvaluations.loop clock) m).firstRun = m.firstRun
    ∧ ∃ new, (rs.foldl (EvaluationManager.watchEvaluations.loop clock) m).emitted = m.emitted ++ new
      ∧ new.map Event.body
        = if m.firstRun then []
          else (rs.filter (fun r => (decide (m.lastIndex < r.ModifyIndex) && decide (r.SnapshotIndex ≠ 0)))).map
            (fun r => (EventTypeEvaluation, Payload.evaluation r)) := by
  have key := foldl_emitted (EvaluationManager.watchEvaluations.loop clock) (fun s => s.emitted)
    (fun s => s.lastIndex = m.lastIndex ∧ s.firstRun = m.firstRun)
    (fun r => if (!m.firstRun && (decide (m.lastIndex < r.ModifyIndex) && decide (r.SnapshotIndex ≠ 0))) then
      [(EventTypeEvaluation, Payload.evaluation r)] else [])
    (by
      intro s a ⟨hl, hf⟩
      obtain ⟨h1, h2, h4⟩ := watchEvaluations_loop_spec clock s a
      refine ⟨⟨h1.trans hl, h2.trans hf⟩, _, h4, ?_⟩
      rw [hl, hf]
      cases m.firstRun <;> by_cases hlt : m.lastIndex < a.ModifyIndex <;>
        by_cases hs : a.SnapshotIndex = 0 <;>
        simp [hlt, hs, NewEvent, Event.body])
    rs m ⟨rfl, rfl⟩
  obtain ⟨⟨hl, hf⟩, new, he, hb⟩ := key
  refine ⟨hl, hf, new, he, ?_⟩
  rw [hb, flatMap_ite_singleton]
  cases m.firstRun <;> simp

/-- One successful poll cycle of the evaluation manager, for every state and result. -/
theorem watchEvaluations_ok_spec (clock : Nat → Int) (m : EvaluationManager) (rs : List api.Evaluation)
    (qmeta : Option api.QueryMeta) :
    (m.watchEvaluations clock (.ok (rs, qmeta))).2 = none
    ∧ (emittedDuring m.toBaseManager (m.watchEvaluations clock (.ok (rs, qmeta))).1.toBaseManager).map
        Event.body
        = (if m.firstRun then []
           else (rs.filter (fun r => (decide (m.lastIndex < r.ModifyIndex) && decide (r.SnapshotIndex ≠ 0)))).map
             (fun r => (EventTypeEvaluation, Payload.evaluation r)))
    ∧ (m.watchEvaluations clock (.ok (rs, qmeta))).1.lastIndex
        = (match qmeta with
           | some mt => max m.lastIndex mt.LastIndex
           | none => m.lastIndex)
    ∧ (m.watchEvaluations clock (.ok (rs, qmeta))).1.firstRun = false := by
  obtain ⟨h1, _, new, he, hb⟩ := watchEvaluations_foldl_spec clock rs m
  refine ⟨rfl, ?_, ?_, ?_⟩
  · rw [emittedDuring_append _ _ new, hb]
    simp only [EvaluationManager.watchEvaluations]
    rw [(markFirstRunComplete_spec _).2.2]
    cases qmeta with
    | none => exact he
    | some mt => simp only; split <;> exact he
  · simp only [EvaluationManager.watchEvaluations]
    rw [(markFirstRunComplete_spec _).2.1]
    cases qmeta with
    | none => exact h1
    | some mt =>
      simp only
      split
      · rename_i hgt
        rw [h1] at hgt
        exact (max_eq_right (le_of_lt hgt)).symm
      · rename_i hn
        rw [h1] at hn
        exact h1.trans (max_eq_left (not_lt.mp hn)).symm
  · simp only [EvaluationManager.watchEvaluations]
    exact (markFirstRunComplete_spec _).1

/-! ## Lemmas: allocation manager -/

/-- A loop whose every step keeps `inv` and folds the values `g a` into the
running maximum `mx` computes the maximum over the whole list. -/
theorem foldl_tracked_max {σ α : Type} (step : σ → α → σ) (mx : σ → Int) (inv : σ → Prop)
    (g : α → List Int)
    (hstep : ∀ s a, inv s → inv (step s a) ∧ mx (step s a) = (g a).foldl max (mx s))
    (l : List α) (s : σ) (hs : inv s) :
    mx (l.foldl step s) = (l.flatMap g).foldl max (mx s) := by
  induction l generalizing s with
  | nil => simp
  | cons a rest ih =>
    obtain ⟨hinv, hm⟩ := hstep s a hs
    simp only [List.foldl_cons, List.flatMap_cons, List.foldl_append]
    rw [ih (step s a) hinv, hm]

theorem max_foldl_max (l : List Int) (a b : Int) (hab : a ≤ b) :
    max b (l.foldl max a) = l.foldl max b := by
  induction l generalizing a b with
  | nil => simpa using hab
  | cons x rest ih =>
    simp only [List.foldl_cons]
    rw [← ih (max a x) (max b x) (max_le_max hab (le_refl x))]
    have h2 : max a x ≤ rest.foldl max (max a x) := foldl_max_le_self rest (max a x)
    have h3 : x ≤ rest.foldl max (max a x) := le_trans (le_max_right a x) h2
    apply le_antisymm
    · exact max_le (le_trans (le_max_left b x) (le_max_left _ _)) (le_max_right _ _)
    · exact max_le (max_le (le_max_left _ _) (le_trans h3 (le_max_right _ _)))
        (le_max_right _ _)

theorem processEvents_step_spec (clock : Nat → Int) (alloc : api.AllocationListStub)
    (taskName : String) (taskState : api.TaskState) (st : AllocationManager × Int)
    (event : api.TaskEvent) :
    (AllocationManager.processAllocationTaskEvents.events clock alloc taskName taskState st
        event).1.lastIndex = st.1.lastIndex
    ∧ (AllocationManager.processAllocationTaskEvents.events clock alloc taskName taskState st
        event).1.firstRun = st.1.firstRun
    ∧ (AllocationManager.processAllocationTaskEvents.events clock alloc taskName taskState st
        event).1.lastSeenTime = st.1.lastSeenTime
    ∧ (AllocationManager.processAllocationTaskEvents.events clock alloc taskName taskState st
        event).2 = (if st.1.lastSeenTime ≤ event.Time then max st.2 event.Time else st.2)
    ∧ ∃ new, (AllocationManager.processAllocationTaskEvents.events clock alloc taskName
        taskState st event).1.emitted = st.1.emitted ++ new
      ∧ new.map Event.body
        = (if (!st.1.firstRun && decide (st.1.lastSeenTime ≤ event.Time)) then
            [taskEnvelope (alloc, taskName, taskState, event)] else []) := by
  unfold AllocationManager.processAllocationTaskEvents.events
  by_cases h : event.Time < st.1.lastSeenTime
  · have h' : ¬ st.1.lastSeenTime ≤ event.Time := not_le.mpr h
    simp [h, h']
  · have h' : st.1.lastSeenTime ≤ event.Time := not_lt.mp h
    cases hf : st.1.firstRun
    · simp [h, h', hf, BaseManager.isFirstRun, WriteEvent_err, WriteEvent_lastIndex,
        WriteEvent_firstRun, WriteEvent_emitted, ite_gt_eq_max, NewEvent, Event.body,
        taskEnvelope]
    · simp [h, h', hf, BaseManager.isFirstRun, ite_gt_eq_max]

theorem foldl_cycle {σ α : Type} (step : σ → α → σ) (em : σ → List Event) (mx : σ → Int)
    (inv : σ → Prop) (f : α → List (String × Payload)) (g : α → List Int)
    (hstep : ∀ s a, inv s →
      inv (step s a) ∧ mx (step s a) = (g a).foldl max (mx s)
      ∧ ∃ new, em (step s a) = em s ++ new ∧ new.map Event.body = f a)
    (l : List α) (s : σ) (hs : inv s) :
    inv (l.foldl step s) ∧ mx (l.foldl step s) = (l.flatMap g).foldl max (mx s)
    ∧ ∃ new, em (l.foldl step s) = em s ++ new ∧ new.map Event.body = l.flatMap f := by
  have he := foldl_emitted step em inv f (fun s a h => ⟨(hstep s a h).1, (hstep s a h).2.2⟩) l s hs
  have hm := foldl_tracked_max step mx inv g (fun s a h => ⟨(hstep s a h).1, (hstep s a h).2.1⟩)
    l s hs
  exact ⟨he.1, hm, he.2⟩

/-- The envelope bodies one task event contributes under watch state `f`, `T`. -/
theorem processEvents_step_inv (clock : Nat → Int) (alloc : api.AllocationListStub)
    (taskName : String) (taskState : api.TaskState) (L : Nat) (f : Bool) (T : Int)
    (st : AllocationManager × Int) (event : api.TaskEvent) (hst : AllocInv L f T st) :
    AllocInv L f T
      (AllocationManager.processAllocationTaskEvents.events clock alloc taskName taskState st
        event)
    ∧ (AllocationManager.processAllocationTaskEvents.events clock alloc taskName taskState st
        event).2 = [event.Time].foldl max st.2
    ∧ ∃ new, (AllocationManager.processAllocationTaskEvents.events clock alloc taskName
        taskState st event).1.emitted = st.1.emitted ++ new
      ∧ new.map Event.body
        = (if (!f && decide (T ≤ event.Time)) then
            [taskEnvelope (alloc, taskName, taskState, event)] else []) := by
  obtain ⟨hL, hf, hT, hle⟩ := hst
  obtain ⟨h1, h2, h3, h4, new, he, hb⟩ :=
    processEvents_step_spec clock alloc taskName taskState st event
  rw [hT] at h4
  rw [hf, hT] at hb
  have hmax : (AllocationManager.processAllocationTaskEvents.events clock alloc taskName
      taskState st event).2 = max st.2 event.Time := by
    rw [h4]; split
    · rfl
    · rename_i hn
      exact (max_eq_left (le_trans (le_of_lt (not_le.mp hn)) hle)).symm
  refine ⟨⟨h1.trans hL, h2.trans hf, h3.trans hT, ?_⟩, ?_, new, he, hb⟩
  · rw [hmax]; exact le_trans hle (le_max_left _ _)
  · simpa using hmax

theorem processTasks_step_inv (clock : Nat → Int) (alloc : api.AllocationListStub)
    (L : Nat) (f : Bool) (T : Int) (st : AllocationManager × Int)
    (entry : String × api.TaskState) (hst : AllocInv L f T st) :
    AllocInv L f T (AllocationManager.processAllocationTaskEvents.tasks clock alloc st entry)
    ∧ (AllocationManager.processAllocationTaskEvents.tasks clock alloc st entry).2
        = ((taskEntryEvents entry).flatMap (fun x => [x.2.2.Time])).foldl max st.2
    ∧ ∃ new, (AllocationManager.processAllocationTaskEvents.tasks clock alloc st entry).1.emitted
        = st.1.emitted ++ new
      ∧ new.map Event.body
        = (taskEntryEvents entry).flatMap (fun x =>
            if (!f && decide (T ≤ x.2.2.Time)) then [taskEnvelope (alloc, x)] else []) := by
  unfold AllocationManager.processAllocationTaskEvents.tasks taskEntryEvents
  dsimp only
  cases hev : entry.2.Events with
  | none => exact ⟨hst, by simp, [], by simp, by simp⟩
  | some events =>
    have key := foldl_cycle
      (AllocationManager.processAllocationTaskEvents.events clock alloc entry.1 entry.2)
      (fun s => s.1.emitted) (fun s => s.2) (AllocInv L f T)
      (fun event => if (!f && decide (T ≤ event.Time)) then
        [taskEnvelope (alloc, entry.1, entry.2, event)] else [])
      (fun event => [event.Time])
      (fun s a h => processEvents_step_inv clock alloc entry.1 entry.2 L f T s a h)
      events st hst
    simpa [List.flatMap_map] using key

theorem processAllocationTaskEvents_spec (clock : Nat → Int) (m : AllocationManager)
    (alloc : api.AllocationListStub) :
    (m.processAllocationTaskEvents clock alloc).1.lastIndex = m.lastIndex
    ∧ (m.processAllocationTaskEvents clock alloc).1.firstRun = m.firstRun
    ∧ (m.processAllocationTaskEvents clock alloc).1.lastSeenTime = m.lastSeenTime
    ∧ (m.processAllocationTaskEvents clock alloc).2.1
        = ((allocTaskEvents alloc).flatMap (fun x => [x.2.2.Time])).foldl max m.lastSeenTime
    ∧ (m.processAllocationTaskEvents clock alloc).2.2 = none
    ∧ ∃ new, (m.processAllocationTaskEvents clock alloc).1.emitted = m.emitted ++ new
      ∧ new.map Event.body
        = (allocTaskEvents alloc).flatMap (fun x =>
            if (!m.firstRun && decide (m.lastSeenTime ≤ x.2.2.Time)) then
              [taskEnvelope (alloc, x)] else []) := by
  unfold AllocationManager.processAllocationTaskEvents allocTaskEvents
  cases hts : alloc.TaskStates with
  | none => exact ⟨rfl, rfl, rfl, by simp, rfl, [], by simp, by simp⟩
  | some taskStates =>
    have key := foldl_cycle
      (AllocationManager.processAllocationTaskEvents.tasks clock alloc)
      (fun s => s.1.emitted) (fun s => s.2) (AllocInv m.lastIndex m.firstRun m.lastSeenTime)
      (fun entry => (taskEntryEvents entry).flatMap (fun x =>
        if (!m.firstRun && decide (m.lastSeenTime ≤ x.2.2.Time)) then
          [taskEnvelope (alloc, x)] else []))
      (fun entry => (taskEntryEvents entry).flatMap (fun x => [x.2.2.Time]))
      (fun s a h => processTasks_step_inv clock alloc _ _ _ s a h)
      taskStates (m, m.lastSeenTime) ⟨rfl, rfl, rfl, le_refl _⟩
    obtain ⟨⟨hL, hf, hT, _⟩, hm, new, he, hb⟩ := key
    refine ⟨hL, hf, hT, ?_, rfl, new, he, ?_⟩
    · simpa [List.flatMap_assoc] using hm
    · simpa [List.flatMap_assoc] using hb

theorem watchAllocations_loop_inv (clock : Nat → Int) (L : Nat) (f : Bool) (T : Int)
    (st : AllocationManager × Int) (alloc : api.AllocationListStub) (hst : AllocInv L f T st) :
    AllocInv L f T (AllocationManager.watchAllocations.loop clock st alloc)
    ∧ (AllocationManager.watchAllocations.loop clock st alloc).2
        = ((allocTaskEvents alloc).flatMap (fun x => [x.2.2.Time])).foldl max st.2
    ∧ ∃ new, (AllocationManager.watchAllocations.loop clock st alloc).1.emitted
        = st.1.emitted ++ new
      ∧ new.map Event.body
        = (allocTaskEvents alloc).flatMap (fun x =>
            if (!f && decide (T ≤ x.2.2.Time)) then [taskEnvelope (alloc, x)] else []) := by
  obtain ⟨hL, hf, hT, hle⟩ := hst
  obtain ⟨h1, h2, h3, h4, h5, new, he, hb⟩ := processAllocationTaskEvents_spec clock st.1 alloc
  rw [hf, hT] at hb
  rw [hT] at h4
  have hmax : (AllocationManager.watchAllocations.loop clock st alloc).2
      = ((allocTaskEvents alloc).flatMap (fun x => [x.2.2.Time])).foldl max st.2 := by
    simp only [AllocationManager.watchAllocations.loop, ite_gt_eq_max, h4]
    exact max_foldl_max _ _ _ hle
  have hfst : (AllocationManager.watchAllocations.loop clock st alloc).1
      = (st.1.processAllocationTaskEvents clock alloc).1 := by
    simp only [AllocationManager.watchAllocations.loop, h5]
  refine ⟨⟨?_, ?_, ?_, ?_⟩, hmax, new, ?_, hb⟩
  · rw [hfst]; exact h1.trans hL
  · rw [hfst]; exact h2.trans hf
  · rw [hfst]; exact h3.trans hT
  · rw [hmax]; exact le_trans hle (foldl_max_le_self _ _)
  · rw [hfst]; exact he

theorem flatMap_singleton_eq_map {α β : Type} (g : α → β) (l : List α) :
    l.flatMap (fun a => [g a]) = l.map g := by
  induction l with
  | nil => rfl
  | cons a rest ih => simp [List.flatMap_cons, ih]

theorem resultTaskEvents_times (allocations : List api.AllocationListStub) :
    allocations.flatMap (fun a => (allocTaskEvents a).flatMap (fun x => [x.2.2.Time]))
      = (resultTaskEvents allocations).map (fun x => x.2.2.2.Time) := by
  simp only [resultTaskEvents, List.map_flatMap, List.map_map, flatMap_singleton_eq_map]
  rfl

theorem resultTaskEvents_bodies (f : Bool) (T : Int)
    (allocations : List api.AllocationListStub) :
    allocations.flatMap (fun a => (allocTaskEvents a).flatMap (fun x =>
        if (!f && decide (T ≤ x.2.2.Time)) then [taskEnvelope (a, x)] else []))
      = (if f then []
         else ((resultTaskEvents allocations).filter
            (fun x => decide (T ≤ x.2.2.2.Time))).map taskEnvelope) := by
  cases f
  · simp only [Bool.not_false, Bool.true_and, Bool.false_eq_true, if_false]
    unfold resultTaskEvents
    induction allocations with
    | nil => rfl
    | cons a rest ih =>
      simp only [List.flatMap_cons, List.filter_append, List.map_append, ih]
      congr 1
      rw [flatMap_ite_singleton (fun x => decide (T ≤ x.2.2.Time)) (fun x => taskEnvelope (a, x)),
        List.filter_map, List.map_map]
      rfl
  · simp [flatMap_nil_fun]

/-- One successful poll cycle of the allocation manager when the query reports
no meta value. -/
theorem watchAllocations_none_spec (clock : Nat → Int) (m : AllocationManager)
    (allocations : List api.AllocationListStub) :
    (emittedDuring m.toBaseManager
          (m.watchAllocations clock (.ok (allocations, none))).1.toBaseManager).map Event.body
        = (if m.firstRun then []
           else ((resultTaskEvents allocations).filter
              (fun x => decide (m.lastSeenTime ≤ x.2.2.2.Time))).map taskEnvelope)
    ∧ (m.watchAllocations clock (.ok (allocations, none))).1.lastSeenTime
        = ((resultTaskEvents allocations).map (fun x => x.2.2.2.Time)).foldl max m.lastSeenTime
    ∧ (m.watchAllocations clock (.ok (allocations, none))).1.lastIndex = m.lastIndex
    ∧ (m.watchAllocations clock (.ok (allocations, none))).1.firstRun = false := by
  have key := foldl_cycle (AllocationManager.watchAllocations.loop clock)
    (fun s => s.1.emitted) (fun s => s.2) (AllocInv m.lastIndex m.firstRun m.lastSeenTime)
    (fun a => (allocTaskEvents a).flatMap (fun x =>
      if (!m.firstRun && decide (m.lastSeenTime ≤ x.2.2.Time)) then
        [taskEnvelope (a, x)] else []))
    (fun a => (allocTaskEvents a).flatMap (fun x => [x.2.2.Time]))
    (fun s a h => watchAllocations_loop_inv clock _ _ _ s a h)
    allocations (m, m.lastSeenTime) ⟨rfl, rfl, rfl, le_refl _⟩
  obtain ⟨⟨hL, hf, hT, hle⟩, hm, new, he, hb⟩ := key
  dsimp only at hm he hb
  rw [resultTaskEvents_times] at hm
  rw [resultTaskEvents_bodies] at hb
  refine ⟨?_, ?_, ?_, ?_⟩
  · rw [emittedDuring_append _ _ new, hb]
    simp only [AllocationManager.watchAllocations]
    rw [(markFirstRunComplete_spec _).2.2]
    split <;> exact he
  · simp only [AllocationManager.watchAllocations]
    split
    · exact hm
    · rename_i hn
      rw [hT, hm] at hn
      exact hT.trans (le_antisymm (foldl_max_le_self _ _) (not_lt.mp hn))
  · simp only [AllocationManager.watchAllocations]
    rw [(markFirstRunComplete_spec _).2.1]
    split <;> exact hL
  · simp only [AllocationManager.watchAllocations]
    exact (markFirstRunComplete_spec _).1

/-- One successful poll cycle of the allocation manager, for every state and
result. -/
theorem watchAllocations_ok_spec (clock : Nat → Int) (m : AllocationManager)
    (allocations : List api.AllocationListStub) (qmeta : Option api.QueryMeta) :
    (m.watchAllocations clock (.ok (allocations, qmeta))).2 = none
    ∧ (emittedDuring m.toBaseManager
          (m.watchAllocations clock (.ok (allocations, qmeta))).1.toBaseManager).map Event.body
        = (if m.firstRun then []
           else ((resultTaskEvents allocations).filter
              (fun x => decide (m.lastSeenTime ≤ x.2.2.2.Time))).map taskEnvelope)
    ∧ (m.watchAllocations clock (.ok (allocations, qmeta))).1.lastSeenTime
        = ((resultTaskEvents allocations).map (fun x => x.2.2.2.Time)).foldl max m.lastSeenTime
    ∧ (m.watchAllocations clock (.ok (allocations, qmeta))).1.lastIndex
        = (match qmeta with
           | some mt => max m.lastIndex mt.LastIndex
           | none => m.lastIndex)
    ∧ (m.watchAllocations clock (.ok (allocations, qmeta))).1.firstRun = false := by
  refine ⟨rfl, ?_⟩
  cases qmeta with
  | none => exact watchAllocations_none_spec clock m allocations
  | some mt =>
    by_cases hgt : mt.LastIndex > m.lastIndex
    · have hred : m.watchAllocations clock (.ok (allocations, some mt))
          = AllocationManager.watchAllocations clock { m with lastIndex := mt.LastIndex }
              (.ok (allocations, none)) := by
        simp only [AllocationManager.watchAllocations, hgt, if_true]
      rw [hred]
      obtain ⟨h1, h2, h3, h4⟩ :=
        watchAllocations_none_spec clock { m with lastIndex := mt.LastIndex } allocations
      exact ⟨h1, h2, h3.trans (max_eq_right (le_of_lt hgt)).symm, h4⟩
    · have hred : m.watchAllocations clock (.ok (allocations, some mt))
          = m.watchAllocations clock (.ok (allocations, none)) := by
        simp only [AllocationManager.watchAllocations, hgt, if_false]
      rw [hred]
      obtain ⟨h1, h2, h3, h4⟩ := watchAllocations_none_spec clock m allocations
      exact ⟨h1, h2, h3.trans (max_eq_left (not_lt.mp hgt)).symm, h4⟩

/-! ## Lemmas: sequences of poll cycles -/

/-- A quantity that no poll cycle decreases is non-decreasing along any
sequence of poll cycles. -/
theorem pollCycles_mono {μ ρ β : Type} [Preorder β] (cycle : μ → ρ → μ × Option String)
    (f : μ → β) (hstep : ∀ m q, f m ≤ f (cycle m q).1) (m : μ) (qs₁ qs₂ : List ρ) :
    f (pollCycles cycle m qs₁) ≤ f (pollCycles cycle m (qs₁ ++ qs₂)) := by
  have hrun : ∀ (qs : List ρ) (m : μ), f m ≤ f (pollCycles cycle m qs) := by
    intro qs
    induction qs with
    | nil => intro m; exact le_refl _
    | cons q rest ih => intro m; exact le_trans (hstep m q) (ih (cycle m q).1)
  have happ : pollCycles cycle m (qs₁ ++ qs₂) = pollCycles cycle (pollCycles cycle m qs₁) qs₂ := by
    simp [pollCycles, List.foldl_append]
  rw [happ]
  exact hrun qs₂ _

theorem match_meta_le (L : Nat) (qmeta : Option api.QueryMeta) :
    L ≤ (match qmeta with
         | some mt => max L mt.LastIndex
         | none => L) := by
  cases qmeta with
  | none => exact le_refl _
  | some mt => exact le_max_left _ _

theorem watchJobs_lastIndex_mono (clock : Nat → Int) (m : JobManager)
    (q : QueryResult api.JobListStub) : m.lastIndex ≤ (m.watchJobs clock q).1.lastIndex := by
  rcases q with err | ⟨jobs, qmeta⟩
  · exact le_refl _
  · rw [(watchJobs_ok_spec clock m jobs qmeta).2.2.1]
    exact foldl_max_le_self _ _

theorem watchNodes_lastIndex_mono (clock : Nat → Int) (m : NodeManager)
    (q : QueryResult api.NodeListStub) : m.lastIndex ≤ (m.watchNodes clock q).1.lastIndex := by
  rcases q with err | ⟨rs, qmeta⟩
  · exact le_refl _
  · rw [(watchNodes_ok_spec clock m rs qmeta).2.2.1]
    exact match_meta_le _ _

theorem watchEvaluations_lastIndex_mono (clock : Nat → Int) (m : EvaluationManager)
    (q : QueryResult api.Evaluation) :
    m.lastIndex ≤ (m.watchEvaluations clock q).1.lastIndex := by
  rcases q with err | ⟨rs, qmeta⟩
  · exact le_refl _
  · rw [(watchEvaluations_ok_spec clock m rs qmeta).2.2.1]
    exact match_meta_le _ _

theorem watchDeployments_lastIndex_mono (clock : Nat → Int) (m : DeploymentManager)
    (q : QueryResult api.Deployment) :
    m.lastIndex ≤ (m.watchDeployments clock q).1.lastIndex := by
  rcases q with err | ⟨rs, qmeta⟩
  · exact le_refl _
  · rw [(watchDeployments_ok_spec clock m rs qmeta).2.2.1]
    exact match_meta_le _ _

theorem watchAllocations_lastIndex_mono (clock : Nat → Int) (m : AllocationManager)
    (q : QueryResult api.AllocationListStub) :
    m.lastIndex ≤ (m.watchAllocations clock q).1.lastIndex := by
  rcases q with err | ⟨rs, qmeta⟩
  · exact le_refl _
  · rw [(watchAllocations_ok_spec clock m rs qmeta).2.2.2.1]
    exact match_meta_le _ _

theorem watchAllocations_lastSeenTime_mono (clock : Nat → Int) (m : AllocationManager)
    (q : QueryResult api.AllocationListStub) :
    m.lastSeenTime ≤ (m.watchAllocations clock q).1.lastSeenTime := by
  rcases q with err | ⟨rs, qmeta⟩
  · exact le_refl _
  · rw [(watchAllocations_ok_spec clock m rs qmeta).2.2.1]
    exact foldl_max_le_self _ _

theorem emittedDuring_self (m : BaseManager) : emittedDuring m m = [] := by
  simp [emittedDuring]

theorem mem_le_foldl_max {β : Type} [LinearOrder β] (l : List β) (b x : β) (hx : x ∈ l) :
    x ≤ l.foldl max b := by
  induction l generalizing b with
  | nil => cases hx
  | cons a rest ih =>
    simp only [List.foldl_cons]
    rcases List.mem_cons.mp hx with rfl | hmem
    · exact le_trans (le_max_right b x) (foldl_max_le_self rest _)
    · exact ih _ hmem

theorem filter_map_eq_nil_of_forall {α β : Type} (l : List α) (p : α → Bool) (g : α → β)
    (h : ∀ a ∈ l, p a = false) : (l.filter p).map g = [] := by
  rw [List.map_eq_nil_iff, List.filter_eq_nil_iff]
  intro a ha
  simp [h a ha]

/-! ## Lemmas: shutdown -/

/-- `Agent.Stop` leaves every manager, hence every stop channel, as it was. -/
theorem Agent_Stop_managers (a : Agent) : a.Stop.1.managers = a.managers := rfl

/-- An iteration of the watcher loop returns exactly when the stop channel is
closed; the context handed to `Start` plays no part. -/
theorem iteration_returned_iff {μ : Type} [Manager μ] (m : μ) (ctx : Bool) (now : Int)
    (watchFunc : Bool → μ → μ × Option String) :
    (∃ m', runWatcherWithRateLimit.iteration m ctx now watchFunc = .returned m')
      ↔ (Manager.base m).stopChan = true := by
  unfold runWatcherWithRateLimit.iteration
  constructor
  · rintro ⟨m', h⟩
    by_contra hs
    simp only [hs, Bool.false_eq_true, if_false] at h
    split at h
    · cases h
    · split at h <;> cases h
  · intro hs
    exact ⟨m, by simp [hs]⟩

/-! ## Lemmas: configuration -/

theorem validEventTypes_iff (t : String) :
    validEventTypes t = true
      ↔ t = "allocation" ∨ t = "evaluation" ∨ t = "node" ∨ t = "job" ∨ t = "deployment"
        ∨ t = "task" := by
  simp [validEventTypes, EventTypeAllocation, EventTypeEvaluation, EventTypeNode, EventTypeJob,
    EventTypeDeployment, EventTypeTask, or_assoc]

theorem Validate_sinks_none_iff (c : Config) (l : List String) :
    Config.Validate.sinks c l = none
      ↔ (∀ s ∈ l, s = "stdout" ∨ s = "file") ∧ ("file" ∈ l → c.FileConfig.Path ≠ "") := by
  induction l with
  | nil => simp [Config.Validate.sinks]
  | cons s rest ih =>
    unfold Config.Validate.sinks
    by_cases h1 : s = "stdout"
    · subst h1
      simp [ih]
    · by_cases h2 : s = "file"
      · subst h2
        by_cases hp : c.FileConfig.Path = ""
        · simp [hp]
        · simp [hp, ih]
      · simp [h1, h2]

theorem Validate_sinks_congr (c c' : Config) (h : c.FileConfig = c'.FileConfig)
    (l : List String) : Config.Validate.sinks c l = Config.Validate.sinks c' l := by
  induction l with
  | nil => simp [Config.Validate.sinks]
  | cons s rest ih =>
    unfold Config.Validate.sinks
    rw [ih, h]

theorem Validate_eventTypes_none_iff (l : List String) :
    Config.Validate.eventTypes l = none ↔ ∀ t ∈ l, validEventTypes t = true := by
  induction l with
  | nil => simp [Config.Validate.eventTypes]
  | cons t rest ih =>
    unfold Config.Validate.eventTypes
    cases h : validEventTypes t <;> simp [h, ih]

theorem Validate_none_iff (c : Config) :
    c.Validate = none
      ↔ c.NomadAddr ≠ "" ∧ c.Sinks ≠ []
        ∧ (∀ s ∈ c.Sinks, s = "stdout" ∨ s = "file")
        ∧ ("file" ∈ c.Sinks → c.FileConfig.Path ≠ "")
        ∧ (∀ t ∈ c.EventTypes, t = "allocation" ∨ t = "evaluation" ∨ t = "node" ∨ t = "job"
            ∨ t = "deployment" ∨ t = "task") := by
  have hev : (∀ t ∈ c.EventTypes, t = "allocation" ∨ t = "evaluation" ∨ t = "node"
      ∨ t = "job" ∨ t = "deployment" ∨ t = "task")
      ↔ Config.Validate.eventTypes c.EventTypes = none := by
    rw [Validate_eventTypes_none_iff]
    constructor
    · intro h t ht; exact (validEventTypes_iff t).mpr (h t ht)
    · intro h t ht; exact (validEventTypes_iff t).mp (h t ht)
  rw [hev, ← and_assoc (a := ∀ s ∈ c.Sinks, s = "stdout" ∨ s = "file"),
    ← Validate_sinks_none_iff c c.Sinks]
  unfold Config.Validate
  by_cases ha : c.NomadAddr = ""
  · simp [ha]
  · by_cases hs : c.Sinks = []
    · simp [ha, hs]
    · have hlen : c.Sinks.length ≠ 0 := by simpa using hs
      cases hv : Config.Validate.sinks c c.Sinks with
      | some err => simp [ha, hs, hlen]
      | none =>
        by_cases he : c.EventTypes = []
        · simp [ha, hs, hlen, he, Config.Validate.eventTypes]
        · have hpos : c.EventTypes.length > 0 := List.length_pos.mpr he
          simp [ha, hs, hlen, hpos]

/-! ## Lemmas: `New` -/

theorem New_sinks_known (env : NewEnv) (c : Config) (l : List String)
    (h : ∀ s ∈ l, s = "stdout" ∨ s = "file") (acc : List Sink) (s' : String) :
    New.sinks env c l acc ≠ .error (.unknownSinkType s') := by
  induction l generalizing acc with
  | nil => simp [New.sinks]
  | cons s rest ih =>
    have hrest : ∀ x ∈ rest, x = "stdout" ∨ x = "file" :=
      fun x hx => h x (List.mem_cons_of_mem _ hx)
    unfold New.sinks
    rcases h s (List.mem_cons_self _ _) with h1 | h2
    · subst h1
      simpa using ih hrest _
    · subst h2
      cases hf : env.NewFileSink c.FileConfig.Path with
      | error err => simp
      | ok sink => simpa using ih hrest _

theorem New_sinks_unknown (env : NewEnv) (c : Config) (l : List String)
    (h : ∃ s ∈ l, s ≠ "stdout" ∧ s ≠ "file") (acc : List Sink) :
    ∃ err, New.sinks env c l acc = .error err := by
  induction l generalizing acc with
  | nil => obtain ⟨s, hs, _⟩ := h; cases hs
  | cons s rest ih =>
    unfold New.sinks
    by_cases h1 : s = "stdout"
    · have hrest : ∃ x ∈ rest, x ≠ "stdout" ∧ x ≠ "file" := by
        obtain ⟨x, hx, hne⟩ := h
        rcases List.mem_cons.mp hx with rfl | hx'
        · exact absurd h1 hne.1
        · exact ⟨x, hx', hne⟩
      simpa [h1] using ih hrest _
    · by_cases h2 : s = "file"
      · have hrest : ∃ x ∈ rest, x ≠ "stdout" ∧ x ≠ "file" := by
          obtain ⟨x, hx, hne⟩ := h
          rcases List.mem_cons.mp hx with rfl | hx'
          · exact absurd h2 hne.2
          · exact ⟨x, hx', hne⟩
        cases hf : env.NewFileSink c.FileConfig.Path with
        | error err => exact ⟨.sinkCreate s err, by simp [h1, h2]⟩
        | ok sink => simpa [h1, h2] using ih hrest _
      · exact ⟨.unknownSinkType s, by simp [h1, h2]⟩

/-- With sink constructors that succeed, an unknown entry of the sink list
makes the loop leave through the default branch of its switch. -/
theorem New_sinks_unknown_default (env : NewEnv) (c : Config) (l : List String)
    (hfile : ∀ p, ∃ sink, env.NewFileSink p = .ok sink)
    (h : ∃ s ∈ l, s ≠ "stdout" ∧ s ≠ "file") (acc : List Sink) :
    ∃ s ∈ l, (s ≠ "stdout" ∧ s ≠ "file")
      ∧ New.sinks env c l acc = .error (.unknownSinkType s) := by
  induction l generalizing acc with
  | nil => obtain ⟨s, hs, _⟩ := h; cases hs
  | cons s rest ih =>
    by_cases hk : s = "stdout" ∨ s = "file"
    · have hrest : ∃ x ∈ rest, x ≠ "stdout" ∧ x ≠ "file" := by
        obtain ⟨x, hx, hne⟩ := h
        rcases List.mem_cons.mp hx with rfl | hx'
        · rcases hk with hk | hk
          · exact absurd hk hne.1
          · exact absurd hk hne.2
        · exact ⟨x, hx', hne⟩
      unfold New.sinks
      rcases hk with h1 | h2
      · subst h1
        obtain ⟨x, hx, hne, he⟩ := ih hrest (acc ++ [env.NewStdoutSink])
        exact ⟨x, List.mem_cons_of_mem _ hx, hne, by simpa using he⟩
      · subst h2
        obtain ⟨sink, hsink⟩ := hfile c.FileConfig.Path
        obtain ⟨x, hx, hne, he⟩ := ih hrest (acc ++ [sink])
        exact ⟨x, List.mem_cons_of_mem _ hx, hne, by simpa [hsink] using he⟩
    · have h1 : s ≠ "stdout" := fun e => hk (Or.inl e)
      have h2 : s ≠ "file" := fun e => hk (Or.inr e)
      exact ⟨s, List.mem_cons_self _ _, ⟨h1, h2⟩, by simp [New.sinks, h1, h2]⟩

theorem New_wrap_not_unknown {μ : Type} (eventType : String) (inj : μ → EventManager)
    (r : Except String μ) (t' : String) :
    New.wrap eventType inj r ≠ .error (.unknownEventType t') := by
  cases r <;> simp [New.wrap]

theorem New_manager_known (env : NewEnv) (c : Config) (sinks : List Sink) (t : String)
    (h : validEventTypes t = true) (t' : String) :
    New.manager env c sinks t ≠ .error (.unknownEventType t') := by
  unfold New.manager
  dsimp only
  split_ifs
  any_goals exact New_wrap_not_unknown _ _ _ _
  rename_i h1 h2 h3 h4 h5 h6
  simp [validEventTypes, h1, h2, h3, h4, h5, h6] at h

theorem New_manager_unknown (env : NewEnv) (c : Config) (sinks : List Sink) (t : String)
    (h : validEventTypes t = false) :
    New.manager env c sinks t = .error (.unknownEventType t) := by
  have h' : ¬ (t = EventTypeAllocation) ∧ ¬ (t = EventTypeEvaluation) ∧ ¬ (t = EventTypeNode)
      ∧ ¬ (t = EventTypeJob) ∧ ¬ (t = EventTypeDeployment) ∧ ¬ (t = EventTypeTask) := by
    simpa [validEventTypes, and_assoc] using h
  obtain ⟨h1, h2, h3, h4, h5, h6⟩ := h'
  simp [New.manager, h1, h2, h3, h4, h5, h6]

theorem New_managers_known (env : NewEnv) (c : Config) (sinks : List Sink) (l : List String)
    (h : ∀ t ∈ l, validEventTypes t = true) (acc : List EventManager) (t' : String) :
    New.managers env c sinks l acc ≠ .error (.unknownEventType t') := by
  induction l generalizing acc with
  | nil => simp [New.managers]
  | cons t rest ih =>
    have hrest : ∀ x ∈ rest, validEventTypes x = true :=
      fun x hx => h x (List.mem_cons_of_mem _ hx)
    unfold New.managers
    cases hm : New.manager env c sinks t with
    | error err =>
      intro heq
      have : err = .unknownEventType t' := by simpa using heq
      exact New_manager_known env c sinks t (h t (List.mem_cons_self _ _)) t' (by rw [hm, this])
    | ok manager => simpa using ih hrest _

theorem New_managers_unknown (env : NewEnv) (c : Config) (sinks : List Sink) (l : List String)
    (h : ∃ t ∈ l, validEventTypes t = false) (acc : List EventManager) :
    ∃ err, New.managers env c sinks l acc = .error err := by
  induction l generalizing acc with
  | nil => obtain ⟨t, ht, _⟩ := h; cases ht
  | cons t rest ih =>
    unfold New.managers
    cases hm : New.manager env c sinks t with
    | error err => exact ⟨err, rfl⟩
    | ok manager =>
      have hrest : ∃ x ∈ rest, validEventTypes x = false := by
        obtain ⟨x, hx, hv⟩ := h
        rcases List.mem_cons.mp hx with rfl | hx'
        · rw [New_manager_unknown env c sinks x hv] at hm
          cases hm
        · exact ⟨x, hx', hv⟩
      simpa using ih hrest _

theorem New_eventTypes_valid (c : Config) (h : ∀ t ∈ c.EventTypes, validEventTypes t = true) :
    ∀ t ∈ New.eventTypes c, validEventTypes t = true := by
  unfold New.eventTypes
  split
  · decide
  · exact h

theorem New_manager_ok (env : NewEnv) (c : Config) (sinks : List Sink) (t : String)
    (hc : env.NewClient c.NomadAddr c.NomadToken = none) (h : validEventTypes t = true) :
    ∃ m, New.manager env c sinks t = .ok m ∧ managerMatches c t m := by
  rcases (validEventTypes_iff t).mp h with h | h | h | h | h | h <;> subst h
  · exact ⟨_, by simp [New.manager, hc, New.wrap, NewAllocationManager, NewBaseManager,
      EventTypeAllocation]; rfl, by
      simp [managerMatches, BaseManager.GetEventType, EventTypeAllocation]⟩
  · exact ⟨_, by simp [New.manager, hc, New.wrap, NewEvaluationManager, NewBaseManager,
      EventTypeAllocation, EventTypeEvaluation]; rfl, by
      simp [managerMatches, BaseManager.GetEventType, EventTypeEvaluation]⟩
  · exact ⟨_, by simp [New.manager, hc, New.wrap, NewNodeManager, NewBaseManager,
      EventTypeAllocation, EventTypeEvaluation, EventTypeNode]; rfl, by
      simp [managerMatches, BaseManager.GetEventType, EventTypeNode]⟩
  · exact ⟨_, by simp [New.manager, hc, New.wrap, NewJobManager, NewBaseManager,
      EventTypeAllocation, EventTypeEvaluation, EventTypeNode, EventTypeJob]; rfl, by
      simp [managerMatches, BaseManager.GetEventType, EventTypeJob]⟩
  · exact ⟨_, by simp [New.manager, hc, New.wrap, NewDeploymentManager, NewBaseManager,
      EventTypeAllocation, EventTypeEvaluation, EventTypeNode, EventTypeJob,
      EventTypeDeployment]; rfl, by
      simp [managerMatches, BaseManager.GetEventType, EventTypeDeployment]⟩
  · exact ⟨_, by simp [New.manager, hc, New.wrap, NewAllocationManager, NewBaseManager,
      EventTypeAllocation, EventTypeEvaluation, EventTypeNode, EventTypeJob,
      EventTypeDeployment, EventTypeTask]; rfl, by
      simp [managerMatches, BaseManager.GetEventType, EventTypeAllocation]⟩

theorem New_managers_ok (env : NewEnv) (c : Config) (sinks : List Sink) (l : List String)
    (hc : env.NewClient c.NomadAddr c.NomadToken = none)
    (h : ∀ t ∈ l, validEventTypes t = true) (acc : List EventManager) :
    ∃ ms, New.managers env c sinks l acc = .ok (acc ++ ms)
      ∧ List.Forall₂ (managerMatches c) l ms := by
  induction l generalizing acc with
  | nil => exact ⟨[], by simp [New.managers], List.Forall₂.nil⟩
  | cons t rest ih =>
    obtain ⟨m, hm, hmatch⟩ := New_manager_ok env c sinks t hc (h t (List.mem_cons_self _ _))
    obtain ⟨ms, hms, hall⟩ := ih (fun x hx => h x (List.mem_cons_of_mem _ hx)) (acc ++ [m])
    refine ⟨m :: ms, ?_, List.Forall₂.cons hmatch hall⟩
    unfold New.managers
    rw [hm]
    simpa using hms

theorem New_managers_unknown_default (env : NewEnv) (c : Config) (sinks : List Sink)
    (l : List String) (hc : env.NewClient c.NomadAddr c.NomadToken = none)
    (h : ∃ t ∈ l, validEventTypes t = false) (acc : List EventManager) :
    ∃ t ∈ l, validEventTypes t = false
      ∧ New.managers env c sinks l acc = .error (.unknownEventType t) := by
  induction l generalizing acc with
  | nil => obtain ⟨t, ht, _⟩ := h; cases ht
  | cons t rest ih =>
    cases hv : validEventTypes t with
    | false =>
      refine ⟨t, List.mem_cons_self _ _, hv, ?_⟩
      unfold New.managers
      rw [New_manager_unknown env c sinks t hv]
    | true =>
      have hrest : ∃ x ∈ rest, validEventTypes x = false := by
        obtain ⟨x, hx, hxv⟩ := h
        rcases List.mem_cons.mp hx with rfl | hx'
        · rw [hv] at hxv; cases hxv
        · exact ⟨x, hx', hxv⟩
      obtain ⟨m, hm, _⟩ := New_manager_ok env c sinks t hc hv
      obtain ⟨x, hx, hxv, he⟩ := ih hrest (acc ++ [m])
      refine ⟨x, List.mem_cons_of_mem _ hx, hxv, ?_⟩
      unfold New.managers
      rw [hm]
      simpa using he

theorem New_sinks_ok (env : NewEnv) (c : Config) (l : List String)
    (hfile : ∀ p, ∃ sink, env.NewFileSink p = .ok sink)
    (h : ∀ s ∈ l, s = "stdout" ∨ s = "file") (acc : List Sink) :
    ∃ sinks, New.sinks env c l acc = .ok sinks := by
  induction l generalizing acc with
  | nil => exact ⟨acc, by simp [New.sinks]⟩
  | cons s rest ih =>
    have hrest : ∀ x ∈ rest, x = "stdout" ∨ x = "file" :=
      fun x hx => h x (List.mem_cons_of_mem _ hx)
    unfold New.sinks
    rcases h s (List.mem_cons_self _ _) with h1 | h2
    · subst h1
      simpa using ih hrest _
    · subst h2
      obtain ⟨sink, hsink⟩ := hfile c.FileConfig.Path
      simpa [hsink] using ih hrest _

theorem New_of_sinks_error (env : NewEnv) (c : Config) (err : NewError)
    (h : New.sinks env c c.Sinks [] = .error err) : New env c = .error err := by
  simp [New, h]

theorem New_of_managers_error (env : NewEnv) (c : Config) (sinks : List Sink) (err : NewError)
    (h1 : New.sinks env c c.Sinks [] = .ok sinks)
    (h2 : New.managers env c sinks (New.eventTypes c) [] = .error err) :
    New env c = .error err := by
  simp [New, h1, h2]

theorem New_of_ok (env : NewEnv) (c : Config) (sinks : List Sink) (managers : List EventManager)
    (h1 : New.sinks env c c.Sinks [] = .ok sinks)
    (h2 : New.managers env c sinks (New.eventTypes c) [] = .ok managers) :
    New env c = .ok { managers := managers, sinks := sinks, ctx := false, logger := [] } := by
  simp [New, h1, h2]

theorem New_sinks_not_event (env : NewEnv) (c : Config) (l : List String) (acc : List Sink)
    (t : String) : New.sinks env c l acc ≠ .error (.unknownEventType t) := by
  induction l generalizing acc with
  | nil => simp [New.sinks]
  | cons s rest ih =>
    unfold New.sinks
    split_ifs
    · exact ih _
    · cases hf : env.NewFileSink c.FileConfig.Path with
      | error err => simp
      | ok sink => simpa using ih _
    · simp

theorem New_wrap_not_sink {μ : Type} (eventType : String) (inj : μ → EventManager)
    (r : Except String μ) (s : String) :
    New.wrap eventType inj r ≠ .error (.unknownSinkType s) := by
  cases r <;> simp [New.wrap]

theorem New_manager_not_sink (env : NewEnv) (c : Config) (sinks : List Sink) (t s : String) :
    New.manager env c sinks t ≠ .error (.unknownSinkType s) := by
  unfold New.manager
  dsimp only
  split_ifs
  any_goals exact New_wrap_not_sink _ _ _ _
  simp

/-- An error of the manager loop is the error of one of its entries. -/
theorem New_managers_error_source (env : NewEnv) (c : Config) (sinks : List Sink)
    (l : List String) (acc : List EventManager) (err : NewError)
    (h : New.managers env c sinks l acc = .error err) :
    ∃ t ∈ l, New.manager env c sinks t = .error err := by
  induction l generalizing acc with
  | nil => simp [New.managers] at h
  | cons t rest ih =>
    unfold New.managers at h
    cases hm : New.manager env c sinks t with
    | error e =>
      rw [hm] at h
      have : e = err := by simpa using h
      exact ⟨t, List.mem_cons_self _ _, by rw [hm, this]⟩
    | ok manager =>
      rw [hm] at h
      obtain ⟨x, hx, hxe⟩ := ih _ h
      exact ⟨x, List.mem_cons_of_mem _ hx, hxe⟩

/-! ## Lemmas: the poll cycles leave the loop control fields alone -/

theorem foldl_invariant {σ α β : Type} (step : σ → α → σ) (f : σ → β)
    (h : ∀ s a, f (step s a) = f s) (l : List α) (s : σ) : f (l.foldl step s) = f s := by
  induction l generalizing s with
  | nil => rfl
  | cons a rest ih => simp only [List.foldl_cons]; rw [ih, h]

theorem WriteEvent_loopControl (m : BaseManager) (event : Event) :
    loopControl (m.WriteEvent event).1 = loopControl m := by
  obtain ⟨_, _, _, _, h5, h6, h7⟩ := WriteEvent_foldl_frame event m.sinks
    ({ m with emitted := m.emitted ++ [event] }, [])
  simp only [loopControl, BaseManager.WriteEvent]
  rw [h5, h6, h7]

theorem markFirstRunComplete_loopControl (m : BaseManager) :
    loopControl m.markFirstRunComplete = loopControl m := by
  unfold BaseManager.markFirstRunComplete
  cases h : m.firstRun <;> simp [h, BaseManager.logInfo, loopControl]

theorem watchJobs_loop_loopControl (clock : Nat → Int) (st : JobManager × Nat)
    (job : api.JobListStub) :
    loopControl (JobManager.watchJobs.loop clock st job).1.toBaseManager
      = loopControl st.1.toBaseManager := by
  unfold JobManager.watchJobs.loop
  dsimp only
  split_ifs <;>
    first
    | rfl
    | (simp only [WriteEvent_err]; exact WriteEvent_loopControl _ _)

theorem watchJobs_loopControl (clock : Nat → Int) (m : JobManager)
    (q : QueryResult api.JobListStub) :
    loopControl (m.watchJobs clock q).1.toBaseManager = loopControl m.toBaseManager := by
  rcases q with err | ⟨jobs, qmeta⟩
  · rfl
  · simp only [JobManager.watchJobs]
    rw [markFirstRunComplete_loopControl]
    have h := foldl_invariant (JobManager.watchJobs.loop clock)
      (fun st => loopControl st.1.toBaseManager) (watchJobs_loop_loopControl clock) jobs
      (m, m.lastIndex)
    split
    · exact h
    · exact h

theorem watchNodes_loop_loopControl (clock : Nat → Int) (m : NodeManager)
    (r : api.NodeListStub) :
    loopControl (NodeManager.watchNodes.loop clock m r).toBaseManager
      = loopControl m.toBaseManager := by
  unfold NodeManager.watchNodes.loop
  dsimp only
  split_ifs <;>
    first
    | rfl
    | (simp only [WriteEvent_err]; exact WriteEvent_loopControl _ _)

theorem watchNodes_loopControl (clock : Nat → Int) (m : NodeManager)
    (q : QueryResult api.NodeListStub) :
    loopControl (m.watchNodes clock q).1.toBaseManager = loopControl m.toBaseManager := by
  rcases q with err | ⟨rs, qmeta⟩
  · rfl
  · simp only [NodeManager.watchNodes]
    rw [markFirstRunComplete_loopControl]
    have h := foldl_invariant (NodeManager.watchNodes.loop clock)
      (fun s => loopControl s.toBaseManager) (watchNodes_loop_loopControl clock) rs m
    cases qmeta with
    | none => exact h
    | some mt => simp only; split <;> exact h

theorem watchDeployments_loop_loopControl (clock : Nat → Int) (m : DeploymentManager)
    (r : api.Deployment) :
    loopControl (DeploymentManager.watchDeployments.loop clock m r).toBaseManager
      = loopControl m.toBaseManager := by
  unfold DeploymentManager.watchDeployments.loop
  dsimp only
  split_ifs <;>
    first
    | rfl
    | (simp only [WriteEvent_err]; exact WriteEvent_loopControl _ _)

theorem watchDeployments_loopControl (clock : Nat → Int) (m : DeploymentManager)
    (q : QueryResult api.Deployment) :
    loopControl (m.watchDeployments clock q).1.toBaseManager
      = loopControl m.toBaseManager := by
  rcases q with err | ⟨rs, qmeta⟩
  · rfl
  · simp only [DeploymentManager.watchDeployments]
    rw [markFirstRunComplete_loopControl]
    have h := foldl_invariant (DeploymentManager.watchDeployments.loop clock)
      (fun s => loopControl s.toBaseManager) (watchDeployments_loop_loopControl clock) rs m
    cases qmeta with
    | none => exact h
    | some mt => simp only; split <;> exact h

theorem watchEvaluations_loop_loopControl (clock : Nat → Int) (m : EvaluationManager)
    (r : api.Evaluation) :
    loopControl (EvaluationManager.watchEvaluations.loop clock m r).toBaseManager
      = loopControl m.toBaseManager := by
  unfold EvaluationManager.watchEvaluations.loop
  dsimp only
  split_ifs <;>
    first
    | rfl
    | (simp only [WriteEvent_err]; exact WriteEvent_loopControl _ _)

theorem watchEvaluations_loopControl (clock : Nat → Int) (m : EvaluationManager)
    (q : QueryResult api.Evaluation) :
    loopControl (m.watchEvaluations clock q).1.toBaseManager
      = loopControl m.toBaseManager := by
  rcases q with err | ⟨rs, qmeta⟩
  · rfl
  · simp only [EvaluationManager.watchEvaluations]
    rw [markFirstRunComplete_loopControl]
    have h := foldl_invariant (EvaluationManager.watchEvaluations.loop clock)
      (fun s => loopControl s.toBaseManager) (watchEvaluations_loop_loopControl clock) rs m
    cases qmeta with
    | none => exact h
    | some mt => simp only; split <;> exact h

theorem processEvents_loopControl (clock : Nat → Int) (alloc : api.AllocationListStub)
    (taskName : String) (taskState : api.TaskState) (st : AllocationManager × Int)
    (event : api.TaskEvent) :
    loopControl (AllocationManager.processAllocationTaskEvents.events clock alloc taskName
        taskState st event).1.toBaseManager = loopControl st.1.toBaseManager := by
  unfold AllocationManager.processAllocationTaskEvents.events
  dsimp only
  split_ifs <;>
    first
    | rfl
    | (simp only [WriteEvent_err]; exact WriteEvent_loopControl _ _)

theorem processTasks_loopControl (clock : Nat → Int) (alloc : api.AllocationListStub)
    (st : AllocationManager × Int) (entry : String × api.TaskState) :
    loopControl (AllocationManager.processAllocationTaskEvents.tasks clock alloc st
        entry).1.toBaseManager = loopControl st.1.toBaseManager := by
  unfold AllocationManager.processAllocationTaskEvents.tasks
  dsimp only
  cases entry.2.Events with
  | none => rfl
  | some events =>
    exact foldl_invariant _ (fun s => loopControl s.1.toBaseManager)
      (processEvents_loopControl clock alloc entry.1 entry.2) events st

theorem processAllocationTaskEvents_loopControl (clock : Nat → Int) (m : AllocationManager)
    (alloc : api.AllocationListStub) :
    loopControl (m.processAllocationTaskEvents clock alloc).1.toBaseManager
      = loopControl m.toBaseManager := by
  unfold AllocationManager.processAllocationTaskEvents
  cases alloc.TaskStates with
  | none => rfl
  | some taskStates =>
    exact foldl_invariant _ (fun s => loopControl s.1.toBaseManager)
      (processTasks_loopControl clock alloc) taskStates (m, m.lastSeenTime)

theorem watchAllocations_loop_loopControl (clock : Nat → Int) (st : AllocationManager × Int)
    (alloc : api.AllocationListStub) :
    loopControl (AllocationManager.watchAllocations.loop clock st alloc).1.toBaseManager
      = loopControl st.1.toBaseManager := by
  have h5 := (processAllocationTaskEvents_spec clock st.1 alloc).2.2.2.2.1
  simp only [AllocationManager.watchAllocations.loop, h5]
  exact processAllocationTaskEvents_loopControl clock st.1 alloc

theorem watchAllocations_loopControl (clock : Nat → Int) (m : AllocationManager)
    (q : QueryResult api.AllocationListStub) :
    loopControl (m.watchAllocations clock q).1.toBaseManager
      = loopControl m.toBaseManager := by
  rcases q with err | ⟨rs, qmeta⟩
  · rfl
  · simp only [AllocationManager.watchAllocations]
    rw [markFirstRunComplete_loopControl]
    cases qmeta with
    | none =>
      simp only
      have h := foldl_invariant (AllocationManager.watchAllocations.loop clock)
        (fun s => loopControl s.1.toBaseManager) (watchAllocations_loop_loopControl clock) rs
        (m, m.lastSeenTime)
      split <;> exact h
    | some mt =>
      simp only
      split
      · have h := foldl_invariant (AllocationManager.watchAllocations.loop clock)
          (fun s => loopControl s.1.toBaseManager) (watchAllocations_loop_loopControl clock) rs
          (({ m with lastIndex := mt.LastIndex } : AllocationManager), m.lastSeenTime)
        split <;> exact h
      · have h := foldl_invariant (AllocationManager.watchAllocations.loop clock)
          (fun s => loopControl s.1.toBaseManager) (watchAllocations_loop_loopControl clock) rs
          (m, m.lastSeenTime)
        split <;> exact h

/-! ## Lemmas: the watcher loop -/

theorem preservesLoopControl_of_loopControl {μ : Type} [Manager μ]
    (w : Bool → μ → μ × Option String)
    (h : ∀ ctx m, loopControl (Manager.base (w ctx m).1) = loopControl (Manager.base m)) :
    PreservesLoopControl w := by
  intro ctx m
  have := h ctx m
  simp only [loopControl, Prod.mk.injEq] at this
  exact this

theorem runJobWatcher_preserves (clock : Nat → Int) (q : QueryResult api.JobListStub) :
    PreservesLoopControl (JobManager.runJobWatcher.watchFunc clock q) :=
  preservesLoopControl_of_loopControl _ (fun _ m => watchJobs_loopControl clock m q)

theorem iteration_of_closed {μ : Type} [Manager μ] (m : μ) (ctx : Bool) (now : Int)
    (w : Bool → μ → μ × Option String) (hs : (Manager.base m).stopChan = true) :
    runWatcherWithRateLimit.iteration m ctx now w = .returned m := by
  simp [runWatcherWithRateLimit.iteration, hs]

theorem iteration_of_rateLimited {μ : Type} [Manager μ] (m : μ) (ctx : Bool) (now : Int)
    (w : Bool → μ → μ × Option String) (hs : (Manager.base m).stopChan = false)
    (hlt : timeSub now (Manager.base m).lastCallTime < (Manager.base m).rateLimit) :
    runWatcherWithRateLimit.iteration m ctx now w
      = .rateLimited m
          (wrapInt64 ((Manager.base m).rateLimit - timeSub now (Manager.base m).lastCallTime)) := by
  simp [runWatcherWithRateLimit.iteration, hs, hlt]

/-- An iteration that finds the stop channel open and the rate limit elapsed
calls `watchFunc`; it is followed by a 5 second sleep exactly when the call
returned an error, and `lastCallTime` is the clock reading of the iteration. -/
theorem iteration_of_due {μ : Type} [Manager μ] [LawfulManager μ] (m : μ) (ctx : Bool)
    (now : Int) (w : Bool → μ → μ × Option String) (hw : PreservesLoopControl w)
    (hs : (Manager.base m).stopChan = false)
    (hge : ¬ timeSub now (Manager.base m).lastCallTime < (Manager.base m).rateLimit) :
    ∃ m' err, runWatcherWithRateLimit.iteration m ctx now w
        = .polled m' err (if err.isSome then some (5 * Second) else none)
      ∧ (Manager.base m').stopChan = false
      ∧ (Manager.base m').lastCallTime = now
      ∧ (Manager.base m').rateLimit = (Manager.base m).rateLimit := by
  have hw' := hw ctx (Manager.withBase m { Manager.base m with lastCallTime := now })
  rw [LawfulManager.base_withBase] at hw'
  obtain ⟨h1, h2, h3⟩ := hw'
  unfold runWatcherWithRateLimit.iteration
  rw [if_neg (by simp [hs]), if_neg hge]
  dsimp only at h1 h2 h3 ⊢
  split
  · rename_i e herr
    refine ⟨Manager.withBase
        (w ctx (Manager.withBase m { Manager.base m with lastCallTime := now })).1
        ((Manager.base
          (w ctx (Manager.withBase m { Manager.base m with lastCallTime := now })).1).logError
          "Watcher error, retrying in 5 seconds"), some e, ?_, ?_, ?_, ?_⟩
    · rw [herr]; rfl
    · rw [LawfulManager.base_withBase]; exact h1.trans hs
    · rw [LawfulManager.base_withBase]; exact h2
    · rw [LawfulManager.base_withBase]; exact h3
  · exact ⟨_, none, rfl, h1.trans hs, h2, h3⟩

theorem timeSub_nonneg (now t : Int) (h : t ≤ now) : 0 ≤ timeSub now t := by
  unfold timeSub maxDuration minDuration
  split_ifs <;> omega

/-- When the saturated difference reaches a non-negative bound, so does the
exact difference. -/
theorem le_sub_of_le_timeSub (now t R : Int) (hR : 0 ≤ R) (h : R ≤ timeSub now t) :
    t + R ≤ now := by
  unfold timeSub maxDuration minDuration at h
  split_ifs at h <;> omega

theorem timeSub_zeroTime (now : Int) (h : 0 ≤ now) : timeSub now zeroTime = maxDuration := by
  unfold timeSub maxDuration zeroTime
  split_ifs <;> omega

theorem run_succ_closed {μ : Type} [Manager μ] [LawfulManager μ] (env : WatcherEnv μ)
    (ctx : Bool) (fuel i : Nat) (t : Int) (m : μ) (hc : env.stopClosed i = true) :
    runWatcherWithRateLimit env ctx (fuel + 1) i t m
      = { trace := [.returned], returned := true, iterations := 1,
          m := Manager.withBase m { Manager.base m with stopChan := true }, clock := t } := by
  have hs : (Manager.base
      (Manager.withBase m { Manager.base m with stopChan := true })).stopChan = true := by
    rw [LawfulManager.base_withBase]
  simp only [runWatcherWithRateLimit, hc, if_true]
  rw [iteration_of_closed _ _ _ _ hs]

theorem run_succ_rateLimited {μ : Type} [Manager μ] (env : WatcherEnv μ)
    (ctx : Bool) (fuel i : Nat) (t : Int) (m : μ) (hc : env.stopClosed i = false)
    (hs : (Manager.base m).stopChan = false)
    (hlt : timeSub t (Manager.base m).lastCallTime < (Manager.base m).rateLimit) :
    runWatcherWithRateLimit env ctx (fuel + 1) i t m
      = { runWatcherWithRateLimit env ctx fuel (i + 1)
            (t + max (wrapInt64 ((Manager.base m).rateLimit
              - timeSub t (Manager.base m).lastCallTime)) 0 + env.lag i) m with
          trace := .rateLimitSleep t (wrapInt64 ((Manager.base m).rateLimit
              - timeSub t (Manager.base m).lastCallTime))
            :: (runWatcherWithRateLimit env ctx fuel (i + 1)
                (t + max (wrapInt64 ((Manager.base m).rateLimit
                  - timeSub t (Manager.base m).lastCallTime)) 0 + env.lag i) m).trace,
          iterations := (runWatcherWithRateLimit env ctx fuel (i + 1)
                (t + max (wrapInt64 ((Manager.base m).rateLimit
                  - timeSub t (Manager.base m).lastCallTime)) 0 + env.lag i) m).iterations + 1 } := by
  simp only [runWatcherWithRateLimit, hc, Bool.false_eq_true, if_false]
  rw [iteration_of_rateLimited _ _ _ _ hs hlt]

theorem run_succ_due {μ : Type} [Manager μ] [LawfulManager μ] (env : WatcherEnv μ)
    (ctx : Bool) (hw : ∀ i, PreservesLoopControl (env.watchFunc i))
    (fuel i : Nat) (t : Int) (m : μ) (hc : env.stopClosed i = false)
    (hs : (Manager.base m).stopChan = false)
    (hge : ¬ timeSub t (Manager.base m).lastCallTime < (Manager.base m).rateLimit) :
    ∃ m' err, (Manager.base m').stopChan = false
      ∧ (Manager.base m').lastCallTime = t
      ∧ (Manager.base m').rateLimit = (Manager.base m).rateLimit
      ∧ runWatcherWithRateLimit env ctx (fuel + 1) i t m
        = { runWatcherWithRateLimit env ctx fuel (i + 1)
              (t + (if err.isSome then 5 * Second else 0) + env.lag i) m' with
            trace := .poll t err
              :: ((if err.isSome then [LoopEvent.backoffSleep (5 * Second)] else [])
                ++ (runWatcherWithRateLimit env ctx fuel (i + 1)
                  (t + (if err.isSome then 5 * Second else 0) + env.lag i) m').trace),
            iterations := (runWatcherWithRateLimit env ctx fuel (i + 1)
                  (t + (if err.isSome then 5 * Second else 0) + env.lag i) m').iterations + 1 } := by
  obtain ⟨m', err, hit, h1, h2, h3⟩ := iteration_of_due m ctx t (env.watchFunc i) (hw i) hs hge
  refine ⟨m', err, h1, h2, h3, ?_⟩
  simp only [runWatcherWithRateLimit, hc, Bool.false_eq_true, if_false]
  rw [hit]
  cases err with
  | none => simp
  | some e => simp [Second]

theorem pollReadings_backoff_append (err : Option String) (d : Int) (l : List LoopEvent) :
    pollReadings ((if err.isSome then [LoopEvent.backoffSleep d] else []) ++ l)
      = pollReadings l := by
  cases err <;> rfl

theorem backoffAfterErrorsOnly_poll (t : Int) (err : Option String) (l : List LoopEvent) :
    backoffAfterErrorsOnly (.poll t err
      :: ((if err.isSome then [LoopEvent.backoffSleep (5 * Second)] else []) ++ l))
      = backoffAfterErrorsOnly l := by
  cases err with
  | some e => simp [backoffAfterErrorsOnly]
  | none =>
    cases l with
    | nil => simp [backoffAfterErrorsOnly]
    | cons a rest => cases a <;> simp [backoffAfterErrorsOnly]

theorem getLast?_cons_getD {α : Type} (a d : α) (l : List α) :
    (a :: l).getLast?.getD d = l.getLast?.getD a := by
  cases l with
  | nil => rfl
  | cons b rest =>
    rw [List.getLast?_cons_cons, List.getLast?_eq_getLast _ (List.cons_ne_nil b rest)]
    rfl

theorem getLast?_append_of_some {α : Type} (pre l : List α) (x : α)
    (h : l.getLast? = some x) : (pre ++ l).getLast? = some x := by
  rw [List.getLast?_append, h]
  rfl

theorem exists_lt_succ_shift (p : Nat → Bool) (i fuel : Nat) (h0 : p i = false) :
    (∃ j, j < fuel + 1 ∧ p (i + j) = true) ↔ ∃ j, j < fuel ∧ p (i + 1 + j) = true := by
  constructor
  · rintro ⟨j, hj, hp⟩
    cases j with
    | zero => rw [Nat.add_zero, h0] at hp; cases hp
    | succ k => exact ⟨k, by omega, by rw [show i + 1 + k = i + (k + 1) by omega]; exact hp⟩
  · rintro ⟨j, hj, hp⟩
    exact ⟨j + 1, by omega, by rw [show i + (j + 1) = i + 1 + j by omega]; exact hp⟩

/-- The inductive step shared by a rate-limit sleep and a call of `watchFunc`:
the iteration did not find the stop channel closed and added the steps `pre`,
none of them a `return`, in front of the rest of the run. -/
theorem returned_fields_step {μ : Type} [Manager μ] (env : WatcherEnv μ) (R : Int)
    (fuel i : Nat) (t' L' : Int) (r' : LoopRun μ) (pre : List LoopEvent)
    (hc : env.stopClosed i = false) (hpre : LoopEvent.returned ∉ pre)
    (ih : RunSpec env R fuel (i + 1) t' L' r') :
    (r'.returned = true ↔ ∃ j, j < fuel + 1 ∧ env.stopClosed (i + j) = true)
    ∧ (r'.returned = false →
        r'.iterations + 1 = fuel + 1 ∧ LoopEvent.returned ∉ pre ++ r'.trace)
    ∧ (r'.returned = true →
        1 ≤ r'.iterations + 1 ∧ r'.iterations + 1 ≤ fuel + 1
          ∧ env.stopClosed (i + (r'.iterations + 1 - 1)) = true
          ∧ (∀ k, k + 1 < r'.iterations + 1 → env.stopClosed (i + k) = false)
          ∧ (pre ++ r'.trace).getLast? = some LoopEvent.returned) := by
  refine ⟨?_, ?_, ?_⟩
  · rw [exists_lt_succ_shift env.stopClosed i fuel hc]
    exact ih.returned_iff
  · intro h
    obtain ⟨h1, h2⟩ := ih.running h
    refine ⟨by omega, ?_⟩
    intro hmem
    rcases List.mem_append.mp hmem with h' | h'
    · exact hpre h'
    · exact h2 h'
  · intro h
    obtain ⟨h1, h2, h3, h4, h5⟩ := ih.returned_first h
    refine ⟨by omega, by omega, ?_, ?_, getLast?_append_of_some _ _ _ h5⟩
    · rw [show i + (r'.iterations + 1 - 1) = i + 1 + (r'.iterations - 1) by omega]
      exact h3
    · intro k hk
      cases k with
      | zero => exact hc
      | succ k' =>
        rw [show i + (k' + 1) = i + 1 + k' by omega]
        exact h4 k' (by omega)

theorem run_spec {μ : Type} [Manager μ] [LawfulManager μ] (env : WatcherEnv μ) (ctx : Bool)
    (hw : ∀ i, PreservesLoopControl (env.watchFunc i)) (R : Int) :
    ∀ (fuel i : Nat) (t : Int) (m : μ), (Manager.base m).stopChan = false →
      (Manager.base m).rateLimit = R →
      RunSpec env R fuel i t (Manager.base m).lastCallTime
        (runWatcherWithRateLimit env ctx fuel i t m) := by
  intro fuel
  induction fuel with
  | zero =>
    intro i t m _ _
    exact
      { returned_iff := by simp [runWatcherWithRateLimit]
        running := by simp [runWatcherWithRateLimit]
        returned_first := by simp [runWatcherWithRateLimit]
        backoff := by simp [runWatcherWithRateLimit, backoffAfterErrorsOnly]
        chain := by simp [runWatcherWithRateLimit, pollReadings]
        lastCallTime := by simp [runWatcherWithRateLimit, pollReadings]
        noSleep := by simp [runWatcherWithRateLimit] }
  | succ fuel ih =>
    intro i t m hs hR
    cases hc : env.stopClosed i with
    | true =>
      rw [run_succ_closed env ctx fuel i t m hc]
      exact
        { returned_iff := by
            simp only [true_iff]
            exact ⟨0, by omega, by simpa using hc⟩
          running := by simp
          returned_first := by
            intro _
            refine ⟨le_refl _, ?_, by simpa using hc, ?_, rfl⟩
            · show 1 ≤ fuel + 1
              omega
            · intro k hk
              have hk' : k + 1 < 1 := hk
              omega
          backoff := by simp [backoffAfterErrorsOnly]
          chain := by simp [pollReadings]
          lastCallTime := by
            simp only [pollReadings, List.getLast?_nil, Option.getD_none]
            rw [LawfulManager.base_withBase]
          noSleep := by
            intro _ _ e he
            simp only [List.mem_singleton] at he
            rw [he]; rfl }
    | false =>
      by_cases hlt : timeSub t (Manager.base m).lastCallTime < (Manager.base m).rateLimit
      · rw [run_succ_rateLimited env ctx fuel i t m hc hs hlt]
        have IH := ih (i + 1)
          (t + max (wrapInt64 ((Manager.base m).rateLimit
            - timeSub t (Manager.base m).lastCallTime)) 0 + env.lag i) m hs hR
        obtain ⟨f1, f2, f3⟩ := returned_fields_step env R fuel i _ _ _
          [LoopEvent.rateLimitSleep t (wrapInt64 ((Manager.base m).rateLimit
            - timeSub t (Manager.base m).lastCallTime))] hc (by simp) IH
        exact
          { returned_iff := f1
            running := f2
            returned_first := f3
            backoff := by
              simp only [backoffAfterErrorsOnly]
              exact IH.backoff
            chain := by
              simp only [pollReadings]
              exact IH.chain
            lastCallTime := by
              simp only [pollReadings]
              exact IH.lastCallTime
            noSleep := by
              intro hR0 hLt
              exfalso
              have := timeSub_nonneg t _ hLt
              rw [hR, hR0] at hlt
              omega }
      · obtain ⟨m', err, h1, h2, h3, hrun⟩ := run_succ_due env ctx hw fuel i t m hc hs hlt
        rw [hrun]
        have IH := ih (i + 1) (t + (if err.isSome then 5 * Second else 0) + env.lag i) m' h1
          (h3.trans hR)
        rw [h2] at IH
        obtain ⟨f1, f2, f3⟩ := returned_fields_step env R fuel i _ _ _
          (LoopEvent.poll t err
            :: (if err.isSome then [LoopEvent.backoffSleep (5 * Second)] else [])) hc
          (by cases err <;> simp) IH
        exact
          { returned_iff := f1
            running := f2
            returned_first := f3
            backoff := by
              simp only
              rw [backoffAfterErrorsOnly_poll]
              exact IH.backoff
            chain := by
              simp only [pollReadings, pollReadings_backoff_append]
              refine List.Chain.cons ?_ IH.chain
              rw [← hR]
              exact not_lt.mp hlt
            lastCallTime := by
              simp only [pollReadings, pollReadings_backoff_append, getLast?_cons_getD]
              exact IH.lastCallTime
            noSleep := by
              intro hR0 hLt e he
              simp only [List.mem_cons, List.mem_append] at he
              rcases he with he | he | he
              · rw [he]; rfl
              · cases err with
                | none => simp at he
                | some x =>
                  simp only [Option.isSome_some, if_true, List.mem_singleton] at he
                  rw [he]; rfl
              · refine IH.noSleep hR0 ?_ e he
                have : (0 : Int) ≤ (if err.isSome then 5 * Second else 0) := by
                  split <;> simp [Second]
                omega }

theorem runAllocationWatcher_preserves (clock : Nat → Int)
    (q : QueryResult api.AllocationListStub) :
    PreservesLoopControl (AllocationManager.runAllocationWatcher.watchFunc clock q) :=
  preservesLoopControl_of_loopControl _ (fun _ m => watchAllocations_loopControl clock m q)

theorem exampleWatcherEnv_preserves (i : Nat) :
    PreservesLoopControl (exampleWatcherEnv.watchFunc i) :=
  runAllocationWatcher_preserves _ _

/-- Whatever `watchFunc` does to the other fields, after an iteration that
called it `lastCallTime` is the clock reading taken before the call. -/
theorem iteration_polled_lastCallTime {μ : Type} [Manager μ] [LawfulManager μ] (m : μ)
    (ctx : Bool) (now : Int) (w : Bool → μ → μ × Option String) (hw : PreservesLoopControl w)
    (m' : μ) (err : Option String) (backoff : Option Int)
    (h : runWatcherWithRateLimit.iteration m ctx now w = .polled m' err backoff) :
    (Manager.base m').lastCallTime = now
      ∧ (backoff = if err.isSome then some (5 * Second) else none) := by
  cases hs : (Manager.base m).stopChan with
  | true =>
    rw [iteration_of_closed m ctx now w hs] at h
    cases h
  | false =>
    by_cases hlt : timeSub now (Manager.base m).lastCallTime < (Manager.base m).rateLimit
    · rw [iteration_of_rateLimited m ctx now w hs hlt] at h
      cases h
    · obtain ⟨m₂, err₂, hit, _, h2, _⟩ := iteration_of_due m ctx now w hw hs hlt
      rw [hit] at h
      injection h with e1 e2 e3
      subst e1 e2
      exact ⟨h2, e3.symm⟩

/-- The first step of a run on a freshly built manager is not a rate-limit
sleep. -/
theorem run_first_step {μ : Type} [Manager μ] [LawfulManager μ] (env : WatcherEnv μ)
    (ctx : Bool) (hw : ∀ i, PreservesLoopControl (env.watchFunc i)) (fuel i : Nat) (t : Int)
    (m : μ) (hopen : (Manager.base m).stopChan = false)
    (hfresh : (Manager.base m).lastCallTime = zeroTime) (ht : 0 ≤ t)
    (hRmax : (Manager.base m).rateLimit ≤ maxDuration) :
    ∀ e, (runWatcherWithRateLimit env ctx fuel i t m).trace.head? = some e →
      e.isRateLimitSleep = false := by
  intro e he
  cases fuel with
  | zero => simp [runWatcherWithRateLimit] at he
  | succ fuel =>
    cases hc : env.stopClosed i with
    | true =>
      rw [run_succ_closed env ctx fuel i t m hc] at he
      simp only [List.head?_cons, Option.some.injEq] at he
      rw [← he]; rfl
    | false =>
      have hge : ¬ timeSub t (Manager.base m).lastCallTime < (Manager.base m).rateLimit := by
        rw [hfresh, timeSub_zeroTime t ht]
        exact not_lt.mpr hRmax
      obtain ⟨m', err, _, _, _, hrun⟩ := run_succ_due env ctx hw fuel i t m hc hopen hge
      rw [hrun] at he
      simp only [List.head?_cons, Option.some.injEq] at he
      rw [← he]; rfl

/-! ## Lemmas: order and permutations -/

theorem resultTaskEvents_perm (l₁ l₂ : List api.AllocationListStub) (h : l₁.Perm l₂) :
    (resultTaskEvents l₁).Perm (resultTaskEvents l₂) :=
  List.Perm.flatMap_right _ h

theorem foldl_max_perm (l₁ l₂ : List Int) (h : l₁.Perm l₂) (b : Int) :
    l₁.foldl max b = l₂.foldl max b := by
  refine List.Perm.foldl_eq' h ?_ b
  intro x _ y _ z
  rw [max_assoc, max_comm x y, ← max_assoc]

/-! ## Lemmas: the wire format -/

theorem digitChar_ne_newline (n : Nat) : digitChar n ≠ newline := by
  unfold digitChar
  split <;> decide

theorem hexDigit_ne_newline (n : Nat) : hexDigit n ≠ newline := by
  unfold hexDigit
  split <;> decide

theorem newline_not_mem_padDigits (width n : Nat) : newline ∉ padDigits width n := by
  induction width generalizing n with
  | zero => simp [padDigits]
  | succ w ih =>
    simp only [padDigits, List.mem_append, List.mem_singleton, not_or]
    exact ⟨ih _, fun h => digitChar_ne_newline n h.symm⟩

theorem newline_not_mem_trimTrailingZeros (digits : List Char) (h : newline ∉ digits) :
    newline ∉ trimTrailingZeros digits := by
  unfold trimTrailingZeros
  intro hmem
  rw [List.mem_reverse] at hmem
  have := (List.dropWhile_sublist _).subset hmem
  rw [List.mem_reverse] at this
  exact h this

/-! ### The calendar -/

theorem year_step (d1 n400 d n100r n100 d2 n4 d3 n1r n1 d4 y : Int)
    (h400 : n400 = d1 / 146097) (hd : d = d1 - 146097 * n400)
    (h100r : n100r = d / 36524) (h100 : n100 = n100r - n100r / 4)
    (hd2 : d2 = d - 36524 * n100)
    (h4 : n4 = d2 / 1461) (hd3 : d3 = d2 - 1461 * n4)
    (h1r : n1r = d3 / 365) (h1 : n1 = n1r - n1r / 4)
    (hd4 : d4 = d3 - 365 * n1)
    (hy : y = 400 * n400 + 100 * n100 + 4 * n4 + n1) :
    d1 = 365 * y + y / 4 - y / 100 + y / 400 + d4 ∧ 0 ≤ d4
      ∧ d4 ≤ 365 ∧ (d4 = 365 → (y + 1) % 4 = 0 ∧ ((y + 1) % 100 ≠ 0 ∨ (y + 1) % 400 = 0)) := by
  have b1 : 0 ≤ d ∧ d ≤ 146096 := by omega
  have b2 : 0 ≤ n100r ∧ n100r ≤ 4 := by omega
  have b3 : 0 ≤ n100 ∧ n100 ≤ 3 ∧ (n100r = 4 → n100 = 3) ∧ (n100r ≤ 3 → n100 = n100r) := by omega
  have b4 : 0 ≤ d2 ∧ d2 ≤ 36524 ∧ (d2 = 36524 → n100 = 3) := by omega
  have b5 : 0 ≤ n4 ∧ n4 ≤ 24 := by omega
  have b6 : 0 ≤ d3 ∧ d3 ≤ 1460 ∧ (n4 = 24 → n100 ≤ 2 → d3 ≤ 1459) := by omega
  have b7 : 0 ≤ n1r ∧ n1r ≤ 4 := by omega
  have b8 : 0 ≤ n1 ∧ n1 ≤ 3 ∧ (n1r = 4 → n1 = 3) ∧ (n1r ≤ 3 → n1 = n1r) := by omega
  have b9 : 0 ≤ d4 ∧ d4 ≤ 365 ∧ (d4 = 365 → n1 = 3 ∧ (n4 = 24 → n100 = 3)) := by omega
  have c1 : y / 400 = n400 := by omega
  have c2 : y / 100 = 4 * n400 + n100 := by omega
  have c3 : y / 4 = 100 * n400 + 25 * n100 + n4 := by omega
  refine ⟨by omega, b9.1, b9.2.1, ?_⟩
  intro h365
  omega

theorem isLeapYear_iff (y : Nat) :
    isLeapYear y = true ↔ y % 4 = 0 ∧ (y % 100 ≠ 0 ∨ y % 400 = 0) := by
  simp [isLeapYear]

theorem isLeap_iff (y : Int) :
    isLeap y = true ↔ y % 4 = 0 ∧ (y % 100 ≠ 0 ∨ y % 400 = 0) := by
  simp [isLeap]

theorem isLeap_natCast (y : Nat) : isLeap (y : Int) = isLeapYear y := by
  rw [Bool.eq_iff_iff, isLeap_iff, isLeapYear_iff]
  omega

theorem daysInYear_cases (y : Nat) :
    (isLeapYear y = true ∧ daysInYear y = 366) ∨ (isLeapYear y = false ∧ daysInYear y = 365) := by
  unfold daysInYear
  cases isLeapYear y <;> simp

theorem daysBeforeYear_closed (y : Nat) :
    daysBeforeYear y + (y + 99) / 100 = 365 * y + (y + 3) / 4 + (y + 399) / 400 := by
  induction y with
  | zero => rfl
  | succ y ih =>
    unfold daysBeforeYear
    rcases daysInYear_cases y with ⟨hl, hd⟩ | ⟨hl, hd⟩
    · rw [hd]
      have := (isLeapYear_iff y).mp hl
      omega
    · rw [hd]
      have : ¬ (y % 4 = 0 ∧ (y % 100 ≠ 0 ∨ y % 400 = 0)) := by
        rw [← isLeapYear_iff, hl]; simp
      omega

theorem daysBeforeYear_1970 : daysBeforeYear 1970 = 719528 := by
  have := daysBeforeYear_closed 1970
  omega

theorem monthDay_cases (leap : Bool) (l yday : Int) (hl : l = if leap then 1 else 0) :
    (yday < 31 ∧ monthDayFromYearDay leap yday = (1, yday + 1))
      ∨ (31 ≤ yday ∧ yday < 59 + l ∧ monthDayFromYearDay leap yday = (2, yday - 30))
      ∨ (59 + l ≤ yday ∧ yday < 90 + l ∧ monthDayFromYearDay leap yday = (3, yday - 58 - l))
      ∨ (90 + l ≤ yday ∧ yday < 120 + l ∧ monthDayFromYearDay leap yday = (4, yday - 89 - l))
      ∨ (120 + l ≤ yday ∧ yday < 151 + l ∧ monthDayFromYearDay leap yday = (5, yday - 119 - l))
      ∨ (151 + l ≤ yday ∧ yday < 181 + l ∧ monthDayFromYearDay leap yday = (6, yday - 150 - l))
      ∨ (181 + l ≤ yday ∧ yday < 212 + l ∧ monthDayFromYearDay leap yday = (7, yday - 180 - l))
      ∨ (212 + l ≤ yday ∧ yday < 243 + l ∧ monthDayFromYearDay leap yday = (8, yday - 211 - l))
      ∨ (243 + l ≤ yday ∧ yday < 273 + l ∧ monthDayFromYearDay leap yday = (9, yday - 242 - l))
      ∨ (273 + l ≤ yday ∧ yday < 304 + l ∧ monthDayFromYearDay leap yday = (10, yday - 272 - l))
      ∨ (304 + l ≤ yday ∧ yday < 334 + l ∧ monthDayFromYearDay leap yday = (11, yday - 303 - l))
      ∨ (334 + l ≤ yday ∧ monthDayFromYearDay leap yday = (12, yday - 333 - l)) := by
  by_cases c1 : yday < 31
  · exact Or.inl ⟨c1, by simp only [monthDayFromYearDay, ← hl, if_pos c1]⟩
  by_cases c2 : yday < 59 + l
  · exact Or.inr (Or.inl ⟨by omega, c2, by simp only [monthDayFromYearDay, ← hl, if_neg c1, if_pos c2]⟩)
  by_cases c3 : yday < 90 + l
  · exact Or.inr (Or.inr (Or.inl ⟨by omega, c3, by simp only [monthDayFromYearDay, ← hl, if_neg c1, if_neg c2, if_pos c3]⟩))
  by_cases c4 : yday < 120 + l
  · exact Or.inr (Or.inr (Or.inr (Or.inl ⟨by omega, c4, by simp only [monthDayFromYearDay, ← hl, if_neg c1, if_neg c2, if_neg c3, if_pos c4]⟩)))
  by_cases c5 : yday < 151 + l
  · exact Or.inr (Or.inr (Or.inr (Or.inr (Or.inl ⟨by omega, c5, by simp only [monthDayFromYearDay, ← hl, if_neg c1, if_neg c2, if_neg c3, if_neg c4, if_pos c5]⟩))))
  by_cases c6 : yday < 181 + l
  · exact Or.inr (Or.inr (Or.inr (Or.inr (Or.inr (Or.inl ⟨by omega, c6, by simp only [monthDayFromYearDay, ← hl, if_neg c1, if_neg c2, if_neg c3, if_neg c4, if_neg c5, if_pos c6]⟩)))))
  by_cases c7 : yday < 212 + l
  · exact Or.inr (Or.inr (Or.inr (Or.inr (Or.inr (Or.inr (Or.inl ⟨by omega, c7, by simp only [monthDayFromYearDay, ← hl, if_neg c1, if_neg c2, if_neg c3, if_neg c4, if_neg c5, if_neg c6, if_pos c7]⟩))))))
  by_cases c8 : yday < 243 + l
  · exact Or.inr (Or.inr (Or.inr (Or.inr (Or.inr (Or.inr (Or.inr (Or.inl ⟨by omega, c8, by simp only [monthDayFromYearDay, ← hl, if_neg c1, if_neg c2, if_neg c3, if_neg c4, if_neg c5, if_neg c6, if_neg c7, if_pos c8]⟩)))))))
  by_cases c9 : yday < 273 + l
  · exact Or.inr (Or.inr (Or.inr (Or.inr (Or.inr (Or.inr (Or.inr (Or.inr (Or.inl ⟨by omega, c9, by simp only [monthDayFromYearDay, ← hl, if_neg c1, if_neg c2, if_neg c3, if_neg c4, if_neg c5, if_neg c6, if_neg c7, if_neg c8, if_pos c9]⟩))))))))
  by_cases c10 : yday < 304 + l
  · exact Or.inr (Or.inr (Or.inr (Or.inr (Or.inr (Or.inr (Or.inr (Or.inr (Or.inr (Or.inl ⟨by omega, c10, by simp only [monthDayFromYearDay, ← hl, if_neg c1, if_neg c2, if_neg c3, if_neg c4, if_neg c5, if_neg c6, if_neg c7, if_neg c8, if_neg c9, if_pos c10]⟩)))))))))
  by_cases c11 : yday < 334 + l
  · exact Or.inr (Or.inr (Or.inr (Or.inr (Or.inr (Or.inr (Or.inr (Or.inr (Or.inr (Or.inr (Or.inl ⟨by omega, c11, by simp only [monthDayFromYearDay, ← hl, if_neg c1, if_neg c2, if_neg c3, if_neg c4, if_neg c5, if_neg c6, if_neg c7, if_neg c8, if_neg c9, if_neg c10, if_pos c11]⟩))))))))))
  exact Or.inr (Or.inr (Or.inr (Or.inr (Or.inr (Or.inr (Or.inr (Or.inr (Or.inr (Or.inr (Or.inr (⟨by omega, by simp only [monthDayFromYearDay, ← hl, if_neg c1, if_neg c2, if_neg c3, if_neg c4, if_neg c5, if_neg c6, if_neg c7, if_neg c8, if_neg c9, if_neg c10, if_neg c11]⟩)))))))))))

theorem daysInMonth_table (y : Nat) :
    daysInMonth y 1 = 31 ∧ daysInMonth y 2 = (if isLeapYear y then 29 else 28)
      ∧ daysInMonth y 3 = 31 ∧ daysInMonth y 4 = 30 ∧ daysInMonth y 5 = 31
      ∧ daysInMonth y 6 = 30 ∧ daysInMonth y 7 = 31 ∧ daysInMonth y 8 = 31
      ∧ daysInMonth y 9 = 30 ∧ daysInMonth y 10 = 31 ∧ daysInMonth y 11 = 30
      ∧ daysInMonth y 12 = 31 := by
  simp [daysInMonth]

theorem daysBeforeMonth_succ (y m : Nat) :
    daysBeforeMonth y (m + 1) = daysBeforeMonth y m + daysInMonth y (m + 1) := rfl

theorem daysBeforeMonth_table (y : Nat) (l : Nat) (hl : l = if isLeapYear y then 1 else 0) :
    daysBeforeMonth y 0 = 0 ∧ daysBeforeMonth y 1 = 31 ∧ daysBeforeMonth y 2 = 59 + l
      ∧ daysBeforeMonth y 3 = 90 + l ∧ daysBeforeMonth y 4 = 120 + l
      ∧ daysBeforeMonth y 5 = 151 + l ∧ daysBeforeMonth y 6 = 181 + l
      ∧ daysBeforeMonth y 7 = 212 + l ∧ daysBeforeMonth y 8 = 243 + l
      ∧ daysBeforeMonth y 9 = 273 + l ∧ daysBeforeMonth y 10 = 304 + l
      ∧ daysBeforeMonth y 11 = 334 + l ∧ daysBeforeMonth y 12 = 365 + l := by
  obtain ⟨h1, h2, h3, h4, h5, h6, h7, h8, h9, h10, h11, h12⟩ := daysInMonth_table y
  have h2' : daysInMonth y 2 = 28 + l := by
    rw [h2, hl]; cases isLeapYear y <;> simp
  have e0 : daysBeforeMonth y 0 = 0 := rfl
  have e1 := daysBeforeMonth_succ y 0
  have e2 := daysBeforeMonth_succ y 1
  have e3 := daysBeforeMonth_succ y 2
  have e4 := daysBeforeMonth_succ y 3
  have e5 := daysBeforeMonth_succ y 4
  have e6 := daysBeforeMonth_succ y 5
  have e7 := daysBeforeMonth_succ y 6
  have e8 := daysBeforeMonth_succ y 7
  have e9 := daysBeforeMonth_succ y 8
  have e10 := daysBeforeMonth_succ y 9
  have e11 := daysBeforeMonth_succ y 10
  have e12 := daysBeforeMonth_succ y 11
  simp only [Nat.reduceAdd] at e1 e2 e3 e4 e5 e6 e7 e8 e9 e10 e11 e12
  clear h2
  omega

theorem monthDay_finish (y : Nat) (leap : Bool) (yday : Int) (m : Nat) (mi d : Int)
    (dim dbm : Nat)
    (he : monthDayFromYearDay leap yday = (mi, d)) (hmi : mi = (m : Int))
    (hm1 : 1 ≤ m) (hm12 : m ≤ 12)
    (hdim : daysInMonth y m = dim) (hdbm : daysBeforeMonth y (m - 1) = dbm)
    (hd1 : 1 ≤ d) (hd2 : d ≤ dim) (hs : (dbm : Int) + d - 1 = yday) :
    ∃ m d : Nat, monthDayFromYearDay leap yday = ((m : Int), (d : Int))
      ∧ 1 ≤ m ∧ m ≤ 12 ∧ 1 ≤ d ∧ d ≤ daysInMonth y m
      ∧ (daysBeforeMonth y (m - 1) : Int) + d - 1 = yday := by
  refine ⟨m, d.toNat, ?_, hm1, hm12, by omega, ?_, ?_⟩
  · rw [he, hmi, Int.toNat_of_nonneg (by omega)]
  · rw [hdim]; omega
  · rw [hdbm]; omega

theorem monthDay_spec (y : Nat) (yday : Int) (h0 : 0 ≤ yday)
    (h1 : yday < (if isLeapYear y then 366 else 365)) :
    ∃ m d : Nat, monthDayFromYearDay (isLeapYear y) yday = ((m : Int), (d : Int))
      ∧ 1 ≤ m ∧ m ≤ 12 ∧ 1 ≤ d ∧ d ≤ daysInMonth y m
      ∧ (daysBeforeMonth y (m - 1) : Int) + d - 1 = yday := by
  obtain ⟨l, hl⟩ : ∃ l : Nat, l = if isLeapYear y then 1 else 0 := ⟨_, rfl⟩
  have hlI : (l : Int) = (if isLeapYear y = true then (1 : Int) else 0) := by
    rw [hl]; cases isLeapYear y <;> simp
  have h1' : yday < 365 + (l : Int) := by
    rw [hl]; revert h1; cases isLeapYear y <;> simp
  have ht := daysBeforeMonth_table y l hl
  have hm := daysInMonth_table y
  have m2' : daysInMonth y 2 = 28 + l := by
    rw [hm.2.1, hl]; cases isLeapYear y <;> simp
  have hcases := monthDay_cases (isLeapYear y) l yday hlI
  clear h1 hl hlI
  rcases hcases with h | h | h | h | h | h | h | h | h | h | h | h
  · obtain ⟨hlt, he⟩ := h
    have hdim : daysInMonth y 1 = 31 := hm.1
    have hdbm : daysBeforeMonth y (1 - 1) = 0 := ht.1
    clear ht hm m2'
    exact monthDay_finish y _ yday 1 _ _ _ _ he rfl (by omega) (by omega) hdim hdbm
      (by omega) (by omega) (by omega)
  · obtain ⟨hge, hlt, he⟩ := h
    have hdim : daysInMonth y 2 = 28 + l := m2'
    have hdbm : daysBeforeMonth y (2 - 1) = 31 := ht.2.1
    clear ht hm m2'
    exact monthDay_finish y _ yday 2 _ _ _ _ he rfl (by omega) (by omega) hdim hdbm
      (by omega) (by omega) (by omega)
  · obtain ⟨hge, hlt, he⟩ := h
    have hdim : daysInMonth y 3 = 31 := hm.2.2.1
    have hdbm : daysBeforeMonth y (3 - 1) = 59 + l := ht.2.2.1
    clear ht hm m2'
    exact monthDay_finish y _ yday 3 _ _ _ _ he rfl (by omega) (by omega) hdim hdbm
      (by omega) (by omega) (by omega)
  · obtain ⟨hge, hlt, he⟩ := h
    have hdim : daysInMonth y 4 = 30 := hm.2.2.2.1
    have hdbm : daysBeforeMonth y (4 - 1) = 90 + l := ht.2.2.2.1
    clear ht hm m2'
    exact monthDay_finish y _ yday 4 _ _ _ _ he rfl (by omega) (by omega) hdim hdbm
      (by omega) (by omega) (by omega)
  · obtain ⟨hge, hlt, he⟩ := h
    have hdim : daysInMonth y 5 = 31 := hm.2.2.2.2.1
    have hdbm : daysBeforeMonth y (5 - 1) = 120 + l := ht.2.2.2.2.1
    clear ht hm m2'
    exact monthDay_finish y _ yday 5 _ _ _ _ he rfl (by omega) (by omega) hdim hdbm
      (by omega) (by omega) (by omega)
  · obtain ⟨hge, hlt, he⟩ := h
    have hdim : daysInMonth y 6 = 30 := hm.2.2.2.2.2.1
    have hdbm : daysBeforeMonth y (6 - 1) = 151 + l := ht.2.2.2.2.2.1
    clear ht hm m2'
    exact monthDay_finish y _ yday 6 _ _ _ _ he rfl (by omega) (by omega) hdim hdbm
      (by omega) (by omega) (by omega)
  · obtain ⟨hge, hlt, he⟩ := h
    have hdim : daysInMonth y 7 = 31 := hm.2.2.2.2.2.2.1
    have hdbm : daysBeforeMonth y (7 - 1) = 181 + l := ht.2.2.2.2.2.2.1
    clear ht hm m2'
    exact monthDay_finish y _ yday 7 _ _ _ _ he rfl (by omega) (by omega) hdim hdbm
      (by omega) (by omega) (by omega)
  · obtain ⟨hge, hlt, he⟩ := h
    have hdim : daysInMonth y 8 = 31 := hm.2.2.2.2.2.2.2.1
    have hdbm : daysBeforeMonth y (8 - 1) = 212 + l := ht.2.2.2.2.2.2.2.1
    clear ht hm m2'
    exact monthDay_finish y _ yday 8 _ _ _ _ he rfl (by omega) (by omega) hdim hdbm
      (by omega) (by omega) (by omega)
  · obtain ⟨hge, hlt, he⟩ := h
    have hdim : daysInMonth y 9 = 30 := hm.2.2.2.2.2.2.2.2.1
    have hdbm : daysBeforeMonth y (9 - 1) = 243 + l := ht.2.2.2.2.2.2.2.2.1
    clear ht hm m2'
    exact monthDay_finish y _ yday 9 _ _ _ _ he rfl (by omega) (by omega) hdim hdbm
      (by omega) (by omega) (by omega)
  · obtain ⟨hge, hlt, he⟩ := h
    have hdim : daysInMonth y 10 = 31 := hm.2.2.2.2.2.2.2.2.2.1
    have hdbm : daysBeforeMonth y (10 - 1) = 273 + l := ht.2.2.2.2.2.2.2.2.2.1
    clear ht hm m2'
    exact monthDay_finish y _ yday 10 _ _ _ _ he rfl (by omega) (by omega) hdim hdbm
      (by omega) (by omega) (by omega)
  · obtain ⟨hge, hlt, he⟩ := h
    have hdim : daysInMonth y 11 = 30 := hm.2.2.2.2.2.2.2.2.2.2.1
    have hdbm : daysBeforeMonth y (11 - 1) = 304 + l := ht.2.2.2.2.2.2.2.2.2.2.1
    clear ht hm m2'
    exact monthDay_finish y _ yday 11 _ _ _ _ he rfl (by omega) (by omega) hdim hdbm
      (by omega) (by omega) (by omega)
  · obtain ⟨hge, he⟩ := h
    have hdim : daysInMonth y 12 = 31 := hm.2.2.2.2.2.2.2.2.2.2.2
    have hdbm : daysBeforeMonth y (12 - 1) = 334 + l := ht.2.2.2.2.2.2.2.2.2.2.2.1
    clear ht hm m2'
    exact monthDay_finish y _ yday 12 _ _ _ _ he rfl (by omega) (by omega) hdim hdbm
      (by omega) (by omega) (by omega)

theorem yearDay_arith (days : Int) :
    days + 719162
        = 365 * ((yearDayFromDays days).1 - 1) + ((yearDayFromDays days).1 - 1) / 4
          - ((yearDayFromDays days).1 - 1) / 100 + ((yearDayFromDays days).1 - 1) / 400
          + (yearDayFromDays days).2
      ∧ 0 ≤ (yearDayFromDays days).2
      ∧ (yearDayFromDays days).2 ≤ 365
      ∧ ((yearDayFromDays days).2 = 365 → (yearDayFromDays days).1 % 4 = 0
          ∧ ((yearDayFromDays days).1 % 100 ≠ 0 ∨ (yearDayFromDays days).1 % 400 = 0)) := by
  have h := year_step (days + 719162) _ _ _ _ _ _ _ _ _ (yearDayFromDays days).2
    ((yearDayFromDays days).1 - 1) rfl rfl rfl rfl rfl rfl rfl rfl rfl rfl
    (by simp only [yearDayFromDays]; ring)
  simp only [sub_add_cancel] at h
  exact h

theorem year_nonneg_iff (days : Int) : 0 ≤ (yearDayFromDays days).1 ↔ -719528 ≤ days := by
  obtain ⟨h1, h2, h3, h4⟩ := yearDay_arith days
  generalize (yearDayFromDays days).1 = Y at *
  generalize (yearDayFromDays days).2 = yd at *
  constructor
  · intro h; omega
  · intro h
    by_contra hneg
    have : Y = -1 ∨ Y ≤ -2 := by omega
    rcases this with h' | h'
    · subst h'; omega
    · omega

theorem year_le_iff (days : Int) : (yearDayFromDays days).1 ≤ 9999 ↔ days < 2932897 := by
  obtain ⟨h1, h2, h3, h4⟩ := yearDay_arith days
  generalize (yearDayFromDays days).1 = Y at *
  generalize (yearDayFromDays days).2 = yd at *
  constructor
  · intro h
    have : Y = 9999 ∨ Y ≤ 9998 := by omega
    rcases this with h' | h'
    · subst h'; omega
    · omega
  · intro h; omega

theorem civilFromDays_spec (days : Int) (h0 : -719528 ≤ days) (h1 : days < 2932897) :
    ∃ y m d : Nat, civilFromDays days = ((y : Int), (m : Int), (d : Int))
      ∧ y ≤ 9999 ∧ 1 ≤ m ∧ m ≤ 12 ∧ 1 ≤ d ∧ d ≤ daysInMonth y m
      ∧ unixDay y m d = days := by
  have hY0 := (year_nonneg_iff days).mpr h0
  have hY1 := (year_le_iff days).mpr h1
  obtain ⟨a1, a2, a3, a4⟩ := yearDay_arith days
  obtain ⟨y, hy⟩ : ∃ y : Nat, (yearDayFromDays days).1 = (y : Int) :=
    ⟨(yearDayFromDays days).1.toNat, (Int.toNat_of_nonneg hY0).symm⟩
  have hleap : isLeap (yearDayFromDays days).1 = isLeapYear y := by
    rw [hy]; exact isLeap_natCast y
  have hlt : (yearDayFromDays days).2 < (if isLeapYear y then 366 else 365) := by
    cases hl : isLeapYear y
    · simp only [Bool.false_eq_true, if_false]
      have hne : (yearDayFromDays days).2 ≠ 365 := by
        intro h365
        have := (isLeap_iff _).mpr (a4 h365)
        rw [hleap, hl] at this
        cases this
      omega
    · simp only [if_true]; omega
  obtain ⟨m, d, hmd, hm1, hm12, hd1, hd2, hsum⟩ := monthDay_spec y _ a2 hlt
  refine ⟨y, m, d, ?_, by omega, hm1, hm12, hd1, hd2, ?_⟩
  · unfold civilFromDays
    simp only []
    rw [hleap, hmd, hy]
  · unfold unixDay
    have hc := daysBeforeYear_closed y
    rw [hy] at a1
    generalize (yearDayFromDays days).2 = yd at *
    generalize daysBeforeYear y = dby at *
    generalize daysBeforeMonth y (m - 1) = dbm at *
    have e4 : ((y + 3) / 4 : Nat) = ((y : Int) - 1) / 4 + 1 := by omega
    have e100 : ((y + 99) / 100 : Nat) = ((y : Int) - 1) / 100 + 1 := by omega
    have e400 : ((y + 399) / 400 : Nat) = ((y : Int) - 1) / 400 + 1 := by omega
    omega

/-! ### The rendering -/

theorem digitValue_digitChar (n : Nat) : digitValue (digitChar n) = n % 10 := by
  have h : n % 10 < 10 := Nat.mod_lt n (by decide)
  unfold digitChar
  generalize n % 10 = k at h
  interval_cases k <;> rfl

theorem padDigits_length (width n : Nat) : (padDigits width n).length = width := by
  induction width generalizing n with
  | zero => rfl
  | succ w ih => simp [padDigits, ih]

theorem decimalValue_padDigits (width n : Nat) :
    decimalValue (padDigits width n) = n % 10 ^ width := by
  induction width generalizing n with
  | zero => simp [padDigits, decimalValue, Nat.mod_one]
  | succ w ih =>
    have ih' := ih (n / 10)
    unfold decimalValue at ih' ⊢
    rw [padDigits, List.foldl_append, ih']
    simp only [List.foldl_cons, List.foldl_nil]
    rw [digitValue_digitChar, pow_succ, mul_comm (10 ^ w) 10, Nat.mod_mul]
    omega

theorem tdiv_sixty (o : Int) :
    (0 ≤ o → Int.tdiv o 60 = o / 60) ∧ (o < 0 → Int.tdiv o 60 = -((-o) / 60)) := by
  constructor
  · intro h
    exact Int.tdiv_eq_ediv h (by decide)
  · intro h
    have h1 : Int.tdiv (-o) 60 = (-o) / 60 := Int.tdiv_eq_ediv (by omega) (by decide)
    rw [Int.neg_tdiv] at h1
    omega

theorem zoneHour_iff (o : Int) :
    24 ≤ (Int.tdiv o 60).natAbs / 60 ↔ o ≤ -86400 ∨ 86400 ≤ o := by
  obtain ⟨h1, h2⟩ := tdiv_sixty o
  by_cases h : 0 ≤ o
  · rw [h1 h]; omega
  · rw [h2 (by omega)]; omega

theorem formatRFC3339_year_iff (wall : Int) :
    ¬ ((civilFromDays (wall / 1000000000 / 86400)).1 < 0
        ∨ 9999 < (civilFromDays (wall / 1000000000 / 86400)).1)
      ↔ rfc3339Min ≤ wall ∧ wall < rfc3339Max := by
  have h0 := year_nonneg_iff (wall / 1000000000 / 86400)
  have h1 := year_le_iff (wall / 1000000000 / 86400)
  have e : (civilFromDays (wall / 1000000000 / 86400)).1
      = (yearDayFromDays (wall / 1000000000 / 86400)).1 := rfl
  rw [e]
  unfold rfc3339Min rfc3339Max
  generalize (yearDayFromDays (wall / 1000000000 / 86400)).1 = Y at *
  omega

/-- The rendering of a time whose wall-clock reading lies in the years 0000 to
9999 and whose offset is below 24 hours: it is the timestamp of the date and
the time of day that the calendar gives for the reading. -/
theorem formatRFC3339_spec (t o : Int) (h0 : rfc3339Min ≤ t + o * 1000000000)
    (h1 : t + o * 1000000000 < rfc3339Max) (hz : -86400 < o ∧ o < 86400) :
    ∃ y m d hh mm ss ns : Nat, y ≤ 9999 ∧ 1 ≤ m ∧ m ≤ 12 ∧ 1 ≤ d ∧ d ≤ daysInMonth y m
      ∧ hh < 24 ∧ mm < 60 ∧ ss < 60 ∧ ns < 1000000000
      ∧ unixNano y m d hh mm ss ns = t + o * 1000000000
      ∧ formatRFC3339 t o = .ok (rfc3339Text y m d hh mm ss ns o) := by
  have hyear := (formatRFC3339_year_iff (t + o * 1000000000)).mpr ⟨h0, h1⟩
  have hzone : ¬ (o ≠ 0 ∧ 24 ≤ (Int.tdiv o 60).natAbs / 60) := by
    rw [zoneHour_iff]; omega
  have hd0 : -719528 ≤ (t + o * 1000000000) / 1000000000 / 86400 := by
    unfold rfc3339Min at h0; omega
  have hd1 : (t + o * 1000000000) / 1000000000 / 86400 < 2932897 := by
    unfold rfc3339Max at h1; omega
  obtain ⟨y, m, d, hc, hy, hm1, hm12, hd1', hd2, hu⟩ := civilFromDays_spec _ hd0 hd1
  refine ⟨y, m, d, ((t + o * 1000000000) / 1000000000 % 86400).toNat / 3600,
    ((t + o * 1000000000) / 1000000000 % 86400).toNat / 60 % 60,
    ((t + o * 1000000000) / 1000000000 % 86400).toNat % 60,
    ((t + o * 1000000000) % 1000000000).toNat, hy, hm1, hm12, hd1', hd2,
    by omega, by omega, by omega, by omega, ?_, ?_⟩
  · unfold unixNano
    rw [hu]
    generalize t + o * 1000000000 = wall
    omega
  · unfold formatRFC3339
    simp only [hyear, hzone, if_false]
    rw [hc]
    simp only [Int.toNat_ofNat]

theorem formatRFC3339_year_error (t o : Int)
    (h : t + o * 1000000000 < rfc3339Min ∨ rfc3339Max ≤ t + o * 1000000000) :
    formatRFC3339 t o = .error .yearOutOfRange := by
  have hyear : (civilFromDays ((t + o * 1000000000) / 1000000000 / 86400)).1 < 0
      ∨ 9999 < (civilFromDays ((t + o * 1000000000) / 1000000000 / 86400)).1 := by
    by_contra hc
    have := (formatRFC3339_year_iff (t + o * 1000000000)).mp hc
    omega
  unfold formatRFC3339
  simp only [hyear, if_true]

theorem formatRFC3339_zone_error (t o : Int) (h0 : rfc3339Min ≤ t + o * 1000000000)
    (h1 : t + o * 1000000000 < rfc3339Max) (hz : o ≤ -86400 ∨ 86400 ≤ o) :
    formatRFC3339 t o = .error .zoneHourOutOfRange := by
  have hyear := (formatRFC3339_year_iff (t + o * 1000000000)).mpr ⟨h0, h1⟩
  have hzone : o ≠ 0 ∧ 24 ≤ (Int.tdiv o 60).natAbs / 60 := by
    rw [zoneHour_iff]; omega
  unfold formatRFC3339
  simp only [hyear, if_false]
  rw [if_pos hzone]

theorem formatRFC3339_ok_iff (t o : Int) :
    (∃ text, formatRFC3339 t o = .ok text)
      ↔ (rfc3339Min ≤ t + o * 1000000000 ∧ t + o * 1000000000 < rfc3339Max)
        ∧ (-86400 < o ∧ o < 86400) := by
  constructor
  · rintro ⟨text, ht⟩
    by_cases hr : rfc3339Min ≤ t + o * 1000000000 ∧ t + o * 1000000000 < rfc3339Max
    · refine ⟨hr, ?_⟩
      by_contra hz
      rw [formatRFC3339_zone_error t o hr.1 hr.2 (by omega)] at ht
      cases ht
    · rw [formatRFC3339_year_error t o (by omega)] at ht
      cases ht
  · rintro ⟨⟨h0, h1⟩, hz⟩
    obtain ⟨y, m, d, hh, mm, ss, ns, _, _, _, _, _, _, _, _, _, _, hf⟩ :=
      formatRFC3339_spec t o h0 h1 hz
    exact ⟨_, hf⟩

theorem newline_not_mem_rfc3339Text (y m d hh mm ss ns : Nat) (o : Int) :
    newline ∉ rfc3339Text y m d hh mm ss ns o := by
  unfold rfc3339Text fractionText zoneText
  simp only [List.mem_append, List.mem_singleton, not_or]
  refine ⟨⟨⟨⟨⟨⟨⟨⟨⟨⟨⟨⟨?_, ?_⟩, ?_⟩, ?_⟩, ?_⟩, ?_⟩, ?_⟩, ?_⟩, ?_⟩, ?_⟩, ?_⟩, ?_⟩, ?_⟩
  any_goals exact newline_not_mem_padDigits _ _
  any_goals decide
  · split
    · simp
    · simp only [List.mem_cons, not_or]
      exact ⟨by decide,
        newline_not_mem_trimTrailingZeros _ (newline_not_mem_padDigits _ _)⟩
  · split
    · decide
    · simp only [List.mem_append, List.mem_singleton, not_or]
      refine ⟨⟨⟨?_, newline_not_mem_padDigits _ _⟩, by decide⟩,
        newline_not_mem_padDigits _ _⟩
      split <;> decide

theorem newline_not_mem_formatRFC3339 (t o : Int) (text : List Char)
    (h : formatRFC3339 t o = .ok text) : newline ∉ text := by
  unfold formatRFC3339 at h
  simp only at h
  split at h
  · cases h
  · split at h
    · cases h
    · injection h with h
      rw [← h]
      exact newline_not_mem_rfc3339Text _ _ _ _ _ _ _ _

/-- The value of `escapeChar`, case by case. -/
theorem escapeChar_cases (c : Char) :
    (c = dquote ∧ escapeChar c = [backslash, dquote])
    ∨ (c = backslash ∧ escapeChar c = [backslash, backslash])
    ∨ (c = Char.ofNat 8 ∧ escapeChar c = [backslash, 'b'])
    ∨ (c = Char.ofNat 12 ∧ escapeChar c = [backslash, 'f'])
    ∨ (c = newline ∧ escapeChar c = [backslash, 'n'])
    ∨ (c = Char.ofNat 13 ∧ escapeChar c = [backslash, 'r'])
    ∨ (c = Char.ofNat 9 ∧ escapeChar c = [backslash, 't'])
    ∨ ((c.toNat < 32 ∨ c = '<' ∨ c = '>' ∨ c = '&')
        ∧ escapeChar c = [backslash, 'u', '0', '0', hexDigit (c.toNat / 16), hexDigit c.toNat])
    ∨ (c.toNat = 8232 ∧ escapeChar c = [backslash, 'u', '2', '0', '2', '8'])
    ∨ (c.toNat = 8233 ∧ escapeChar c = [backslash, 'u', '2', '0', '2', '9'])
    ∨ ((c ≠ dquote ∧ c ≠ backslash ∧ c ≠ newline
          ∧ ¬ (c.toNat < 32 ∨ c = '<' ∨ c = '>' ∨ c = '&') ∧ c.toNat ≠ 8232 ∧ c.toNat ≠ 8233)
        ∧ escapeChar c = [c]) := by
  unfold escapeChar
  by_cases h1 : c = dquote
  · exact Or.inl ⟨h1, if_pos h1⟩
  rw [if_neg h1]
  by_cases h2 : c = backslash
  · exact Or.inr (Or.inl ⟨h2, if_pos h2⟩)
  rw [if_neg h2]
  by_cases h3 : c = Char.ofNat 8
  · exact Or.inr (Or.inr (Or.inl ⟨h3, if_pos h3⟩))
  rw [if_neg h3]
  by_cases h4 : c = Char.ofNat 12
  · exact Or.inr (Or.inr (Or.inr (Or.inl ⟨h4, if_pos h4⟩)))
  rw [if_neg h4]
  by_cases h5 : c = newline
  · exact Or.inr (Or.inr (Or.inr (Or.inr (Or.inl ⟨h5, if_pos h5⟩))))
  rw [if_neg h5]
  by_cases h6 : c = Char.ofNat 13
  · exact Or.inr (Or.inr (Or.inr (Or.inr (Or.inr (Or.inl ⟨h6, if_pos h6⟩)))))
  rw [if_neg h6]
  by_cases h7 : c = Char.ofNat 9
  · exact Or.inr (Or.inr (Or.inr (Or.inr (Or.inr (Or.inr (Or.inl ⟨h7, if_pos h7⟩))))))
  rw [if_neg h7]
  by_cases h8 : c.toNat < 32 ∨ c = '<' ∨ c = '>' ∨ c = '&'
  · exact Or.inr (Or.inr (Or.inr (Or.inr (Or.inr (Or.inr (Or.inr (Or.inl ⟨h8, if_pos h8⟩)))))))
  rw [if_neg h8]
  by_cases h9 : c.toNat = 8232
  · exact Or.inr (Or.inr (Or.inr (Or.inr (Or.inr (Or.inr (Or.inr (Or.inr
      (Or.inl ⟨h9, if_pos h9⟩))))))))
  rw [if_neg h9]
  by_cases h10 : c.toNat = 8233
  · exact Or.inr (Or.inr (Or.inr (Or.inr (Or.inr (Or.inr (Or.inr (Or.inr (Or.inr
      (Or.inl ⟨h10, if_pos h10⟩)))))))))
  rw [if_neg h10]
  exact Or.inr (Or.inr (Or.inr (Or.inr (Or.inr (Or.inr (Or.inr (Or.inr (Or.inr
    (Or.inr ⟨⟨h1, h2, h5, h8, h9, h10⟩, rfl⟩)))))))))

theorem newline_not_mem_escapeChar (c : Char) : newline ∉ escapeChar c := by
  rcases escapeChar_cases c with h | h | h | h | h | h | h | h | h | h | h
  any_goals (rw [h.2]; decide)
  · rw [h.2]
    simp only [List.mem_cons, List.mem_singleton, List.not_mem_nil, or_false, not_or]
    exact ⟨by decide, by decide, by decide, by decide,
      fun h => hexDigit_ne_newline _ h.symm, fun h => hexDigit_ne_newline _ h.symm⟩
  · rw [h.2]
    simp only [List.mem_singleton]
    exact fun hc => h.1.2.2.1 hc.symm

/-- The characters that `escapeChar` leaves as they are. -/
theorem escapeChar_plain_iff (c : Char) :
    escapeChar c = [c]
      ↔ 32 ≤ c.toNat ∧ c ≠ dquote ∧ c ≠ backslash ∧ c ≠ '<' ∧ c ≠ '>' ∧ c ≠ '&'
        ∧ c.toNat ≠ 8232 ∧ c.toNat ≠ 8233 := by
  have hne : ∀ (a b : Char) (rest : List Char), a :: b :: rest ≠ [c] := by
    intro a b rest h
    cases h
  rcases escapeChar_cases c with h | h | h | h | h | h | h | h | h | h | h
  · rw [h.2]
    exact ⟨fun hc => absurd hc (hne _ _ _), fun hc => absurd h.1 hc.2.1⟩
  · rw [h.2]
    exact ⟨fun hc => absurd hc (hne _ _ _), fun hc => absurd h.1 hc.2.2.1⟩
  · rw [h.2]
    refine ⟨fun hc => absurd hc (hne _ _ _), fun hc => ?_⟩
    have := hc.1
    rw [h.1] at this
    exact absurd this (by decide)
  · rw [h.2]
    refine ⟨fun hc => absurd hc (hne _ _ _), fun hc => ?_⟩
    have := hc.1
    rw [h.1] at this
    exact absurd this (by decide)
  · rw [h.2]
    refine ⟨fun hc => absurd hc (hne _ _ _), fun hc => ?_⟩
    have := hc.1
    rw [h.1] at this
    exact absurd this (by decide)
  · rw [h.2]
    refine ⟨fun hc => absurd hc (hne _ _ _), fun hc => ?_⟩
    have := hc.1
    rw [h.1] at this
    exact absurd this (by decide)
  · rw [h.2]
    refine ⟨fun hc => absurd hc (hne _ _ _), fun hc => ?_⟩
    have := hc.1
    rw [h.1] at this
    exact absurd this (by decide)
  · rw [h.2]
    refine ⟨fun hc => absurd hc (hne _ _ _), fun hc => ?_⟩
    obtain ⟨h32, _, _, hlt, hgt, hamp, _, _⟩ := hc
    rcases h.1 with h' | h' | h' | h'
    · omega
    · exact (hlt h').elim
    · exact (hgt h').elim
    · exact (hamp h').elim
  · rw [h.2]
    exact ⟨fun hc => absurd hc (hne _ _ _), fun hc => absurd h.1 hc.2.2.2.2.2.2.1⟩
  · rw [h.2]
    exact ⟨fun hc => absurd hc (hne _ _ _), fun hc => absurd h.1 hc.2.2.2.2.2.2.2⟩
  · obtain ⟨⟨h1, h2, _, h8, h9, h10⟩, he⟩ := h
    refine ⟨fun _ => ⟨?_, h1, h2, ?_, ?_, ?_, h9, h10⟩, fun _ => he⟩
    · by_contra hc
      exact h8 (Or.inl (by omega))
    · exact fun hc => h8 (Or.inr (Or.inl hc))
    · exact fun hc => h8 (Or.inr (Or.inr (Or.inl hc)))
    · exact fun hc => h8 (Or.inr (Or.inr (Or.inr hc)))

theorem newline_not_mem_jsonString (s : String) : newline ∉ jsonString s := by
  unfold jsonString
  simp only [List.mem_append, List.mem_singleton, List.mem_flatMap, not_or, not_exists, not_and]
  exact ⟨⟨by decide, fun c _ => newline_not_mem_escapeChar c⟩, by decide⟩

theorem jsonString_plain (s : String) (h : ∀ c ∈ s.toList, escapeChar c = [c]) :
    jsonString s = [dquote] ++ s.toList ++ [dquote] := by
  unfold jsonString
  have : ∀ l : List Char, (∀ c ∈ l, escapeChar c = [c]) → l.flatMap escapeChar = l := by
    intro l
    induction l with
    | nil => intro _; rfl
    | cons a rest ih =>
      intro hl
      rw [List.flatMap_cons, hl a (List.mem_cons_self _ _),
        ih (fun c hc => hl c (List.mem_cons_of_mem _ hc))]
      rfl
  rw [this _ h]

/-- What `ToJSON` returns when both the time and the payload can be encoded. -/
theorem ToJSON_of_ok (enc : DataEncoder) (e : Event) (time : List Char) (data : String)
    (ht : formatRFC3339 e.Time (enc.zoneOffset e) = .ok time)
    (hd : enc.marshal e.Data = .ok data) :
    e.ToJSON enc
      = .ok (String.mk ("\x7b\"time\":".toList ++ [dquote] ++ time ++ [dquote]
        ++ ",\"type\":".toList ++ jsonString e.Typ
        ++ ",\"data\":".toList ++ data.toList ++ "\x7d".toList)) := by
  unfold Event.ToJSON
  rw [ht]
  simp only
  rw [hd]

theorem ToJSON_of_time_error (enc : DataEncoder) (e : Event) (err : TimeError)
    (ht : formatRFC3339 e.Time (enc.zoneOffset e) = .error err) :
    e.ToJSON enc = .error (enc.timeError err) := by
  unfold Event.ToJSON
  rw [ht]

theorem ToJSON_ok_inv (enc : DataEncoder) (e : Event) (text : String)
    (h : e.ToJSON enc = .ok text) :
    ∃ time data, formatRFC3339 e.Time (enc.zoneOffset e) = .ok time
      ∧ enc.marshal e.Data = .ok data
      ∧ text = String.mk ("\x7b\"time\":".toList ++ [dquote] ++ time ++ [dquote]
        ++ ",\"type\":".toList ++ jsonString e.Typ
        ++ ",\"data\":".toList ++ data.toList ++ "\x7d".toList) := by
  unfold Event.ToJSON at h
  cases ht : formatRFC3339 e.Time (enc.zoneOffset e) with
  | error err => rw [ht] at h; cases h
  | ok time =>
    cases hd : enc.marshal e.Data with
    | error err => rw [ht, hd] at h; cases h
    | ok data =>
      rw [ht, hd] at h
      injection h with h
      exact ⟨time, data, rfl, rfl, h.symm⟩

theorem ToJSON_no_newline (enc : DataEncoder) (e : Event) (text : String)
    (h : e.ToJSON enc = .ok text) : newline ∉ text.toList := by
  obtain ⟨time, data, ht, hd, htext⟩ := ToJSON_ok_inv enc e text h
  rw [htext, show ∀ l : List Char, (String.mk l).toList = l from fun _ => rfl]
  simp only [List.mem_append, List.mem_singleton, not_or]
  refine ⟨⟨⟨⟨⟨⟨⟨⟨?_, ?_⟩, ?_⟩, ?_⟩, ?_⟩, ?_⟩, ?_⟩, ?_⟩, ?_⟩
  · decide
  · decide
  · exact newline_not_mem_formatRFC3339 _ _ _ ht
  · decide
  · decide
  · exact newline_not_mem_jsonString _
  · decide
  · exact enc.compact _ _ hd
  · decide

/-! ## Lemmas: the file sink -/

theorem FileSystem_set_same (fs : FileSystem) (path content : String) :
    fs.set path content path = some content := by
  simp [FileSystem.set]

theorem FileSystem_set_other (fs : FileSystem) (path content p : String) (h : p ≠ path) :
    fs.set path content p = fs p := by
  simp [FileSystem.set, h]

theorem FileSystem_set_set (fs : FileSystem) (path a b : String) :
    (fs.set path a).set path b = fs.set path b := by
  funext p
  by_cases h : p = path <;> simp [FileSystem.set, h]

theorem NewFileSink_ok_inv (openErr : Option String) (fs fs' : FileSystem) (path : String)
    (s : FileSink) (h : NewFileSink openErr fs path = .ok (s, fs')) :
    openErr = none
      ∧ s.file = some { path := path, append := true, offset := 0, closed := false }
      ∧ fs' = (match fs path with
        | none => fs.set path ""
        | some _ => fs) := by
  unfold NewFileSink OpenFile at h
  cases openErr with
  | some err => cases h
  | none =>
    cases hp : fs path with
    | none =>
      simp only [hp] at h
      injection h with h
      injection h with h1 h2
      exact ⟨rfl, by rw [← h1], h2.symm⟩
    | some c =>
      simp only [hp] at h
      injection h with h
      injection h with h1 h2
      exact ⟨rfl, by rw [← h1], h2.symm⟩

theorem NewFileSink_ok (fs : FileSystem) (path : String) :
    NewFileSink none fs path
      = .ok ({ file := some { path := path, append := true, offset := 0, closed := false } },
          match fs path with
          | none => fs.set path ""
          | some _ => fs) := by
  unfold NewFileSink OpenFile
  cases fs path <;> rfl

theorem FileSink_Write_ok_inv (enc : DataEncoder) (fault : WriteFault) (fs : FileSystem)
    (s : FileSink) (e : Event) (f : File) (c : String)
    (hs : s.file = some f) (ha : f.append = true) (hc : fs f.path = some c)
    (h : (FileSink.Write enc fault fs s e).2.2 = none) :
    ∃ json, e.ToJSON enc = .ok json
      ∧ FileSink.Write enc fault fs s e
        = ({ file := some { f with offset := c.length + (json ++ "\n").length } },
            fs.set f.path (c ++ (json ++ "\n")), none) := by
  unfold FileSink.Write at h ⊢
  cases hj : e.ToJSON enc with
  | error err => rw [hj] at h; cases h
  | ok json =>
    refine ⟨json, rfl, ?_⟩
    simp only [hj, hs] at h ⊢
    unfold File.Write at h ⊢
    cases hcl : f.closed with
    | true => simp [hcl] at h
    | false =>
      simp only [hcl, hc, ha, Bool.false_eq_true, if_false, if_true] at h ⊢
      cases hw : fault.write with
      | some p => simp [hw] at h
      | none =>
        simp only [hw] at h ⊢
        rw [h]

theorem FileSink_Write_ok (enc : DataEncoder) (fs : FileSystem) (e : Event) (f : File)
    (c json : String) (ha : f.append = true) (hcl : f.closed = false)
    (hc : fs f.path = some c) (hj : e.ToJSON enc = .ok json) :
    FileSink.Write enc { write := none, sync := none } fs { file := some f } e
      = ({ file := some { f with offset := c.length + (json ++ "\n").length } },
          fs.set f.path (c ++ (json ++ "\n")), none) := by
  unfold FileSink.Write
  simp only [hj]
  unfold File.Write
  simp only [hcl, hc, ha, Bool.false_eq_true, if_false, if_true]

theorem splitLines_go_line (a rest cur : List Char) (h : newline ∉ a) :
    splitLines.go (a ++ newline :: rest) cur = (cur ++ a) :: splitLines.go rest [] := by
  induction a generalizing cur with
  | nil => simp [splitLines.go]
  | cons x xs ih =>
    have hx : x ≠ newline := fun hx => h (by simp [hx])
    have hxs : newline ∉ xs := fun hm => h (List.mem_cons_of_mem _ hm)
    rw [List.cons_append, splitLines.go, if_neg hx, ih _ hxs]
    simp

theorem splitLines_two (a b : String) (ha : newline ∉ a.toList) (hb : newline ∉ b.toList) :
    splitLines (a ++ "\n" ++ b ++ "\n") = [a, b] := by
  have hn : "\n".toList = [newline] := by decide
  have hl : (a ++ "\n" ++ b ++ "\n").toList
      = a.toList ++ newline :: (b.toList ++ newline :: []) := by
    simp [String.toList, String.data_append, newline] 
  unfold splitLines
  rw [hl, splitLines_go_line _ _ _ ha, splitLines_go_line _ _ _ hb]
  simp [splitLines.go]

theorem New_managers_unknown_first (env : NewEnv) (c : Config) (sinks : List Sink)
    (l : List String) (hc : env.NewClient c.NomadAddr c.NomadToken = none)
    (h : ∃ t ∈ l, validEventTypes t = false) (acc : List EventManager) :
    ∃ pre t post, l = pre ++ t :: post ∧ (∀ x ∈ pre, validEventTypes x = true)
      ∧ validEventTypes t = false
      ∧ New.managers env c sinks l acc = .error (.unknownEventType t) := by
  induction l generalizing acc with
  | nil => obtain ⟨t, ht, _⟩ := h; cases ht
  | cons t rest ih =>
    cases hv : validEventTypes t with
    | false =>
      refine ⟨[], t, rest, rfl, fun x hx => (by cases hx), hv, ?_⟩
      unfold New.managers
      rw [New_manager_unknown env c sinks t hv]
    | true =>
      have hrest : ∃ x ∈ rest, validEventTypes x = false := by
        obtain ⟨x, hx, hxv⟩ := h
        rcases List.mem_cons.mp hx with rfl | hx'
        · rw [hv] at hxv; cases hxv
        · exact ⟨x, hx', hxv⟩
      obtain ⟨m, hm, _⟩ := New_manager_ok env c sinks t hc hv
      obtain ⟨pre, x, post, hl, hpre, hxv, he⟩ := ih hrest (acc ++ [m])
      refine ⟨t :: pre, x, post, by rw [hl]; rfl, ?_, hxv, ?_⟩
      · intro y hy
        rcases List.mem_cons.mp hy with rfl | hy'
        · exact hv
        · exact hpre y hy'
      · unfold New.managers
        rw [hm]
        simpa using he

/-! ## Properties of the specification -/

/-- C1. Job manager poll cycle (`watchJobs`). For every manager state and every
successfully returned job list, the envelopes passed to `WriteEvent` in the
cycle are, in query-result order, exactly the jobs whose `ModifyIndex` is
strictly greater than the pre-cycle `lastIndex` when `firstRun` is false, and
none when `firstRun` is true; afterwards `lastIndex` is the maximum of its
pre-cycle value and the largest `ModifyIndex` of the list, and `firstRun` is
false. In particular, from the state built by `NewJobManager`, a cycle returning
indices 5, 7 followed by a cycle returning 7, 9 emits no envelope and then
exactly one (the job with index 9), with `lastIndex` 7 and then 9. -/
theorem C1_watchJobs_cycle :
    (∀ (clock : Nat → Int) (m : JobManager) (jobs : List api.JobListStub)
        (qmeta : Option api.QueryMeta),
      (m.watchJobs clock (.ok (jobs, qmeta))).2 = none
      ∧ (emittedDuring m.toBaseManager
            (m.watchJobs clock (.ok (jobs, qmeta))).1.toBaseManager).map Event.body
          = (if m.firstRun then []
             else (jobs.filter (fun j => decide (m.lastIndex < j.ModifyIndex))).map
               (fun j => (EventTypeJob, Payload.job j)))
      ∧ (m.watchJobs clock (.ok (jobs, qmeta))).1.lastIndex
          = (jobs.map (fun j => j.ModifyIndex)).foldl max m.lastIndex
      ∧ (m.watchJobs clock (.ok (jobs, qmeta))).1.firstRun = false)
    ∧ (∀ (clock : Nat → Int) (sinks : List Sink) (a b c d : String)
        (q₁ q₂ : Option api.QueryMeta),
      ∃ m₀ : JobManager, NewJobManager none sinks = .ok m₀
        ∧ emittedDuring m₀.toBaseManager
            (m₀.watchJobs clock (.ok ([⟨a, 5⟩, ⟨b, 7⟩], q₁))).1.toBaseManager = []
        ∧ (m₀.watchJobs clock (.ok ([⟨a, 5⟩, ⟨b, 7⟩], q₁))).1.lastIndex = 7
        ∧ (emittedDuring (m₀.watchJobs clock (.ok ([⟨a, 5⟩, ⟨b, 7⟩], q₁))).1.toBaseManager
            (((m₀.watchJobs clock (.ok ([⟨a, 5⟩, ⟨b, 7⟩], q₁))).1).watchJobs clock
              (.ok ([⟨c, 7⟩, ⟨d, 9⟩], q₂))).1.toBaseManager).map Event.body
            = [("job", Payload.job ⟨d, 9⟩)]
        ∧ (((m₀.watchJobs clock (.ok ([⟨a, 5⟩, ⟨b, 7⟩], q₁))).1).watchJobs clock
              (.ok ([⟨c, 7⟩, ⟨d, 9⟩], q₂))).1.lastIndex = 9) := by
  refine ⟨watchJobs_ok_spec, ?_⟩
  intro clock sinks a b c d q₁ q₂
  refine ⟨_, rfl, ?_⟩
  generalize hm₀ : ({ toBaseManager :=
    { sinks := sinks, eventType := EventTypeJob, stopChan := false, lastIndex := 0, logger := [],
      firstRun := true, lastCallTime := zeroTime, rateLimit := 0, emitted := [],
      sinkWrites := [] } } : JobManager) = m₀
  have hf₀ : m₀.firstRun = true := by rw [← hm₀]
  have hl₀ : m₀.lastIndex = 0 := by rw [← hm₀]
  obtain ⟨_, e₁, l₁, f₁⟩ := watchJobs_ok_spec clock m₀ [⟨a, 5⟩, ⟨b, 7⟩] q₁
  generalize (m₀.watchJobs clock (.ok ([⟨a, 5⟩, ⟨b, 7⟩], q₁))).1 = m₁ at e₁ l₁ f₁ ⊢
  obtain ⟨_, e₂, l₂, _⟩ := watchJobs_ok_spec clock m₁ [⟨c, 7⟩, ⟨d, 9⟩] q₂
  rw [hf₀] at e₁
  rw [hl₀] at l₁
  have l₁' : m₁.lastIndex = 7 := by rw [l₁]; simp
  rw [f₁, l₁'] at e₂
  rw [l₁'] at l₂
  refine ⟨by simpa using e₁, l₁', ?_, ?_⟩
  · rw [e₂]; simp [EventTypeJob]
  · rw [l₂]; simp

/-- C2. First-cycle suppression. For each of the five managers (allocation,
evaluation, node, job, deployment), a poll cycle executed while `firstRun` is
true passes no envelope to `WriteEvent`, whatever the query returns (any
records and task events, any meta value, or an error). -/
theorem C2_first_cycle_suppression (clock : Nat → Int)
    (am : AllocationManager) (em : EvaluationManager) (nm : NodeManager) (jm : JobManager)
    (dm : DeploymentManager)
    (qa : QueryResult api.AllocationListStub) (qe : QueryResult api.Evaluation)
    (qn : QueryResult api.NodeListStub) (qj : QueryResult api.JobListStub)
    (qd : QueryResult api.Deployment)
    (ha : am.firstRun = true) (he : em.firstRun = true) (hn : nm.firstRun = true)
    (hj : jm.firstRun = true) (hd : dm.firstRun = true) :
    emittedDuring am.toBaseManager (am.watchAllocations clock qa).1.toBaseManager = []
    ∧ emittedDuring em.toBaseManager (em.watchEvaluations clock qe).1.toBaseManager = []
    ∧ emittedDuring nm.toBaseManager (nm.watchNodes clock qn).1.toBaseManager = []
    ∧ emittedDuring jm.toBaseManager (jm.watchJobs clock qj).1.toBaseManager = []
    ∧ emittedDuring dm.toBaseManager (dm.watchDeployments clock qd).1.toBaseManager = [] := by
  refine ⟨?_, ?_, ?_, ?_, ?_⟩
  · rcases qa with err | ⟨rs, qmeta⟩
    · exact emittedDuring_self _
    · have h := (watchAllocations_ok_spec clock am rs qmeta).2.1
      rw [ha] at h
      simpa using h
  · rcases qe with err | ⟨rs, qmeta⟩
    · exact emittedDuring_self _
    · have h := (watchEvaluations_ok_spec clock em rs qmeta).2.1
      rw [he] at h
      simpa using h
  · rcases qn with err | ⟨rs, qmeta⟩
    · exact emittedDuring_self _
    · have h := (watchNodes_ok_spec clock nm rs qmeta).2.1
      rw [hn] at h
      simpa using h
  · rcases qj with err | ⟨rs, qmeta⟩
    · exact emittedDuring_self _
    · have h := (watchJobs_ok_spec clock jm rs qmeta).2.1
      rw [hj] at h
      simpa using h
  · rcases qd with err | ⟨rs, qmeta⟩
    · exact emittedDuring_self _
    · have h := (watchDeployments_ok_spec clock dm rs qmeta).2.1
      rw [hd] at h
      simpa using h

/-- C2 at the managers built by the constructors, each given a non-empty query
result. -/
theorem C2_first_cycle_suppression_witness :
    (exampleAllocationManager.firstRun = true ∧ exampleEvaluationManager.firstRun = true
      ∧ exampleNodeManager.firstRun = true ∧ exampleJobManager.firstRun = true
      ∧ exampleDeploymentManager.firstRun = true)
    ∧ (emittedDuring exampleAllocationManager.toBaseManager
          (exampleAllocationManager.watchAllocations exampleClock
            exampleAllocations).1.toBaseManager = []
      ∧ emittedDuring exampleEvaluationManager.toBaseManager
          (exampleEvaluationManager.watchEvaluations exampleClock
            exampleEvaluations).1.toBaseManager = []
      ∧ emittedDuring exampleNodeManager.toBaseManager
          (exampleNodeManager.watchNodes exampleClock exampleNodes).1.toBaseManager = []
      ∧ emittedDuring exampleJobManager.toBaseManager
          (exampleJobManager.watchJobs exampleClock exampleJobs).1.toBaseManager = []
      ∧ emittedDuring exampleDeploymentManager.toBaseManager
          (exampleDeploymentManager.watchDeployments exampleClock
            exampleDeployments).1.toBaseManager = []) :=
  ⟨⟨rfl, rfl, rfl, rfl, rfl⟩,
    C2_first_cycle_suppression exampleClock exampleAllocationManager exampleEvaluationManager
      exampleNodeManager exampleJobManager exampleDeploymentManager exampleAllocations
      exampleEvaluations exampleNodes exampleJobs exampleDeployments rfl rfl rfl rfl rfl⟩

/-- C3. Allocation manager poll cycle (`watchAllocations`). For every state and
every successfully returned allocation list, the envelopes passed to
`WriteEvent` are none when `firstRun` is true and otherwise, in scan order,
one envelope of type "task" for each task event of the result whose `Time` is
greater than or equal to `lastSeenTime` as it was at the start of the cycle (an
event at the watermark is emitted), and nothing else: no envelope is written
for an allocation record itself. Afterwards `lastSeenTime` is the maximum of
its pre-cycle value and the largest event time of the whole result, and
`firstRun` is false. -/
theorem C3_watchAllocations_cycle (clock : Nat → Int) (m : AllocationManager)
    (allocations : List api.AllocationListStub) (qmeta : Option api.QueryMeta) :
    (m.watchAllocations clock (.ok (allocations, qmeta))).2 = none
    ∧ (emittedDuring m.toBaseManager
          (m.watchAllocations clock (.ok (allocations, qmeta))).1.toBaseManager).map Event.body
        = (if m.firstRun then []
           else ((resultTaskEvents allocations).filter
              (fun x => decide (m.lastSeenTime ≤ x.2.2.2.Time))).map taskEnvelope)
    ∧ (∀ e ∈ emittedDuring m.toBaseManager
          (m.watchAllocations clock (.ok (allocations, qmeta))).1.toBaseManager, e.Typ = "task")
    ∧ (emittedDuring m.toBaseManager
          (m.watchAllocations clock (.ok (allocations, qmeta))).1.toBaseManager).length
        = (if m.firstRun then 0
           else ((resultTaskEvents allocations).filter
              (fun x => decide (m.lastSeenTime ≤ x.2.2.2.Time))).length)
    ∧ (m.watchAllocations clock (.ok (allocations, qmeta))).1.lastSeenTime
        = ((resultTaskEvents allocations).map (fun x => x.2.2.2.Time)).foldl max m.lastSeenTime
    ∧ (m.watchAllocations clock (.ok (allocations, qmeta))).1.firstRun = false := by
  obtain ⟨h1, h2, h3, _, h5⟩ := watchAllocations_ok_spec clock m allocations qmeta
  refine ⟨h1, h2, ?_, ?_, h3, h5⟩
  · intro e he
    have hmem : e.body ∈ (emittedDuring m.toBaseManager
        (m.watchAllocations clock (.ok (allocations, qmeta))).1.toBaseManager).map Event.body :=
      List.mem_map_of_mem _ he
    rw [h2] at hmem
    cases hf : m.firstRun
    · rw [hf] at hmem
      simp only [Bool.false_eq_true, if_false, List.mem_map] at hmem
      obtain ⟨x, _, hx⟩ := hmem
      have : e.Typ = (taskEnvelope x).1 := by rw [hx]; rfl
      exact this
    · rw [hf] at hmem
      simp at hmem
  · have hlen := congrArg List.length h2
    rw [List.length_map] at hlen
    rw [hlen]
    cases m.firstRun <;> simp

/-- C4. Monotonicity. For every manager and every poll cycle, whether the
query succeeds or fails, `lastIndex` after the cycle is at least `lastIndex`
before it, and for the allocation manager the same holds for `lastSeenTime`;
hence along any sequence of poll cycles the value after a longer run is at
least the value after any shorter prefix of it. -/
theorem C4_watermarks_monotone (clock : Nat → Int) :
    (∀ (m : AllocationManager) (q : QueryResult api.AllocationListStub),
        m.lastIndex ≤ (m.watchAllocations clock q).1.lastIndex
        ∧ m.lastSeenTime ≤ (m.watchAllocations clock q).1.lastSeenTime)
    ∧ (∀ (m : EvaluationManager) (q : QueryResult api.Evaluation),
        m.lastIndex ≤ (m.watchEvaluations clock q).1.lastIndex)
    ∧ (∀ (m : NodeManager) (q : QueryResult api.NodeListStub),
        m.lastIndex ≤ (m.watchNodes clock q).1.lastIndex)
    ∧ (∀ (m : JobManager) (q : QueryResult api.JobListStub),
        m.lastIndex ≤ (m.watchJobs clock q).1.lastIndex)
    ∧ (∀ (m : DeploymentManager) (q : QueryResult api.Deployment),
        m.lastIndex ≤ (m.watchDeployments clock q).1.lastIndex)
    ∧ (∀ (m : AllocationManager) (qs₁ qs₂ : List (QueryResult api.AllocationListStub)),
        (pollCycles (AllocationManager.watchAllocations clock) m qs₁).lastIndex
          ≤ (pollCycles (AllocationManager.watchAllocations clock) m (qs₁ ++ qs₂)).lastIndex
        ∧ (pollCycles (AllocationManager.watchAllocations clock) m qs₁).lastSeenTime
          ≤ (pollCycles (AllocationManager.watchAllocations clock) m (qs₁ ++ qs₂)).lastSeenTime)
    ∧ (∀ (m : EvaluationManager) (qs₁ qs₂ : List (QueryResult api.Evaluation)),
        (pollCycles (EvaluationManager.watchEvaluations clock) m qs₁).lastIndex
          ≤ (pollCycles (EvaluationManager.watchEvaluations clock) m (qs₁ ++ qs₂)).lastIndex)
    ∧ (∀ (m : NodeManager) (qs₁ qs₂ : List (QueryResult api.NodeListStub)),
        (pollCycles (NodeManager.watchNodes clock) m qs₁).lastIndex
          ≤ (pollCycles (NodeManager.watchNodes clock) m (qs₁ ++ qs₂)).lastIndex)
    ∧ (∀ (m : JobManager) (qs₁ qs₂ : List (QueryResult api.JobListStub)),
        (pollCycles (JobManager.watchJobs clock) m qs₁).lastIndex
          ≤ (pollCycles (JobManager.watchJobs clock) m (qs₁ ++ qs₂)).lastIndex)
    ∧ (∀ (m : DeploymentManager) (qs₁ qs₂ : List (QueryResult api.Deployment)),
        (pollCycles (DeploymentManager.watchDeployments clock) m qs₁).lastIndex
          ≤ (pollCycles (DeploymentManager.watchDeployments clock) m (qs₁ ++ qs₂)).lastIndex) := by
  refine ⟨fun m q => ⟨watchAllocations_lastIndex_mono clock m q,
      watchAllocations_lastSeenTime_mono clock m q⟩,
    watchEvaluations_lastIndex_mono clock, watchNodes_lastIndex_mono clock,
    watchJobs_lastIndex_mono clock, watchDeployments_lastIndex_mono clock, ?_, ?_, ?_, ?_, ?_⟩
  · intro m qs₁ qs₂
    exact ⟨pollCycles_mono _ (fun m => m.lastIndex) (watchAllocations_lastIndex_mono clock) m _ _,
      pollCycles_mono _ (fun m => m.lastSeenTime) (watchAllocations_lastSeenTime_mono clock)
        m _ _⟩
  · intro m qs₁ qs₂
    exact pollCycles_mono _ (fun m => m.lastIndex) (watchEvaluations_lastIndex_mono clock) m _ _
  · intro m qs₁ qs₂
    exact pollCycles_mono _ (fun m => m.lastIndex) (watchNodes_lastIndex_mono clock) m _ _
  · intro m qs₁ qs₂
    exact pollCycles_mono _ (fun m => m.lastIndex) (watchJobs_lastIndex_mono clock) m _ _
  · intro m qs₁ qs₂
    exact pollCycles_mono _ (fun m => m.lastIndex) (watchDeployments_lastIndex_mono clock) m _ _

/-- C5, as stated, fails. Replaying a result on the node manager emits the
record again when the query reported no meta value, or a meta index below the
record; replaying a result on the allocation manager emits again the task
event whose time equals the watermark. -/
theorem C5_replay_counterexample :
    emittedDuring
        (exampleNodeManager.watchNodes exampleClock (.ok ([⟨"n1", 5⟩], none))).1.toBaseManager
        (((exampleNodeManager.watchNodes exampleClock (.ok ([⟨"n1", 5⟩], none))).1).watchNodes
          exampleClock (.ok ([⟨"n1", 5⟩], none))).1.toBaseManager ≠ []
    ∧ emittedDuring
        (exampleNodeManager.watchNodes exampleClock
          (.ok ([⟨"n1", 5⟩], some ⟨3⟩))).1.toBaseManager
        (((exampleNodeManager.watchNodes exampleClock
          (.ok ([⟨"n1", 5⟩], some ⟨3⟩))).1).watchNodes
          exampleClock (.ok ([⟨"n1", 5⟩], some ⟨3⟩))).1.toBaseManager ≠ []
    ∧ (emittedDuring
        (exampleAllocationManager.watchAllocations exampleClock
          exampleAllocations).1.toBaseManager
        (((exampleAllocationManager.watchAllocations exampleClock
          exampleAllocations).1).watchAllocations exampleClock
          exampleAllocations).1.toBaseManager).map Event.body
      = [taskEnvelope (exampleAllocation, "redis", exampleTaskState, ⟨"Started", 10⟩)] := by
  decide

/-- C5, amended. Run a poll cycle on a query result and then a second cycle on
the identical result. For the job manager the second cycle emits no envelope,
for every state and every result. For the node, evaluation and deployment
managers the second cycle emits no envelope when the query reported a meta
value whose `LastIndex` is at least the `ModifyIndex` of every returned
record. For the allocation manager every envelope of the second cycle is a
task envelope whose event time is at least the `lastSeenTime` reached by the
first cycle: no task event older than that watermark is emitted again. -/
theorem C5_replay_amended (clock : Nat → Int)
    (jm : JobManager) (qj : QueryResult api.JobListStub)
    (nm : NodeManager) (ns : List api.NodeListStub) (mn : api.QueryMeta)
    (em : EvaluationManager) (es : List api.Evaluation) (me : api.QueryMeta)
    (dm : DeploymentManager) (ds : List api.Deployment) (md : api.QueryMeta)
    (am : AllocationManager) (qa : QueryResult api.AllocationListStub)
    (hn : ∀ r ∈ ns, r.ModifyIndex ≤ mn.LastIndex)
    (he : ∀ r ∈ es, r.ModifyIndex ≤ me.LastIndex)
    (hd : ∀ r ∈ ds, r.ModifyIndex ≤ md.LastIndex) :
    emittedDuring (jm.watchJobs clock qj).1.toBaseManager
        (((jm.watchJobs clock qj).1).watchJobs clock qj).1.toBaseManager = []
    ∧ emittedDuring (nm.watchNodes clock (.ok (ns, some mn))).1.toBaseManager
        (((nm.watchNodes clock (.ok (ns, some mn))).1).watchNodes clock
          (.ok (ns, some mn))).1.toBaseManager = []
    ∧ emittedDuring (em.watchEvaluations clock (.ok (es, some me))).1.toBaseManager
        (((em.watchEvaluations clock (.ok (es, some me))).1).watchEvaluations clock
          (.ok (es, some me))).1.toBaseManager = []
    ∧ emittedDuring (dm.watchDeployments clock (.ok (ds, some md))).1.toBaseManager
        (((dm.watchDeployments clock (.ok (ds, some md))).1).watchDeployments clock
          (.ok (ds, some md))).1.toBaseManager = []
    ∧ (∀ e ∈ emittedDuring (am.watchAllocations clock qa).1.toBaseManager
          (((am.watchAllocations clock qa).1).watchAllocations clock qa).1.toBaseManager,
        ∃ te : TaskEvent, e.Typ = "task" ∧ e.Data = Payload.task te
          ∧ (am.watchAllocations clock qa).1.lastSeenTime ≤ te.TaskEvent.Time) := by
  refine ⟨?_, ?_, ?_, ?_, ?_⟩
  · rcases qj with err | ⟨jobs, qmeta⟩
    · exact emittedDuring_self _
    · obtain ⟨_, _, l₁, f₁⟩ := watchJobs_ok_spec clock jm jobs qmeta
      have h := (watchJobs_ok_spec clock (jm.watchJobs clock (.ok (jobs, qmeta))).1 jobs
        qmeta).2.1
      rw [f₁, l₁] at h
      simp only [Bool.false_eq_true, if_false] at h
      rw [filter_map_eq_nil_of_forall] at h
      · simpa using h
      · intro a ha
        have : a.ModifyIndex ≤ (jobs.map (fun j => j.ModifyIndex)).foldl max jm.lastIndex :=
          mem_le_foldl_max _ _ _ (List.mem_map_of_mem _ ha)
        simpa using this
  · obtain ⟨_, _, l₁, f₁⟩ := watchNodes_ok_spec clock nm ns (some mn)
    have h := (watchNodes_ok_spec clock (nm.watchNodes clock (.ok (ns, some mn))).1 ns
      (some mn)).2.1
    rw [f₁, l₁] at h
    simp only [Bool.false_eq_true, if_false] at h
    rw [filter_map_eq_nil_of_forall] at h
    · simpa using h
    · intro a ha
      have : a.ModifyIndex ≤ max nm.lastIndex mn.LastIndex :=
        le_trans (hn a ha) (le_max_right _ _)
      have hnot : ¬ max nm.lastIndex mn.LastIndex < a.ModifyIndex := not_lt.mpr this
      simp [hnot]
  · obtain ⟨_, _, l₁, f₁⟩ := watchEvaluations_ok_spec clock em es (some me)
    have h := (watchEvaluations_ok_spec clock (em.watchEvaluations clock (.ok (es, some me))).1
      es (some me)).2.1
    rw [f₁, l₁] at h
    simp only [Bool.false_eq_true, if_false] at h
    rw [filter_map_eq_nil_of_forall] at h
    · simpa using h
    · intro a ha
      have : a.ModifyIndex ≤ max em.lastIndex me.LastIndex :=
        le_trans (he a ha) (le_max_right _ _)
      have hnot : ¬ max em.lastIndex me.LastIndex < a.ModifyIndex := not_lt.mpr this
      simp [hnot]
  · obtain ⟨_, _, l₁, f₁⟩ := watchDeployments_ok_spec clock dm ds (some md)
    have h := (watchDeployments_ok_spec clock (dm.watchDeployments clock (.ok (ds, some md))).1
      ds (some md)).2.1
    rw [f₁, l₁] at h
    simp only [Bool.false_eq_true, if_false] at h
    rw [filter_map_eq_nil_of_forall] at h
    · simpa using h
    · intro a ha
      have : a.ModifyIndex ≤ max dm.lastIndex md.LastIndex :=
        le_trans (hd a ha) (le_max_right _ _)
      have hnot : ¬ max dm.lastIndex md.LastIndex < a.ModifyIndex := not_lt.mpr this
      simp [hnot]
  · rcases qa with err | ⟨allocs, qmeta⟩
    · intro e he
      have hnil : emittedDuring (am.watchAllocations clock (.error err)).1.toBaseManager
          (((am.watchAllocations clock (.error err)).1).watchAllocations clock
            (.error err)).1.toBaseManager = [] := emittedDuring_self _
      rw [hnil] at he
      cases he
    · intro e he
      obtain ⟨_, _, _, _, f₁⟩ := watchAllocations_ok_spec clock am allocs qmeta
      have h := (watchAllocations_ok_spec clock (am.watchAllocations clock
        (.ok (allocs, qmeta))).1 allocs qmeta).2.1
      rw [f₁] at h
      simp only [Bool.false_eq_true, if_false] at h
      have hmem := List.mem_map_of_mem Event.body he
      rw [h, List.mem_map] at hmem
      obtain ⟨x, hx, hbody⟩ := hmem
      have hx' := (List.mem_filter.mp hx).2
      have hT : (am.watchAllocations clock (.ok (allocs, qmeta))).1.lastSeenTime
          ≤ x.2.2.2.Time := of_decide_eq_true hx'
      exact ⟨_, (congrArg Prod.fst hbody).symm, (congrArg Prod.snd hbody).symm, hT⟩

/-- C5, amended, at the example managers and results whose meta index is 7. -/
theorem C5_replay_amended_witness :
    ((∀ r ∈ [(⟨"n1", 5⟩ : api.NodeListStub), ⟨"n2", 7⟩], r.ModifyIndex ≤ 7)
      ∧ (∀ r ∈ [(⟨"e1", 5, 4⟩ : api.Evaluation), ⟨"e2", 7, 0⟩], r.ModifyIndex ≤ 7)
      ∧ (∀ r ∈ [(⟨"d1", 5⟩ : api.Deployment), ⟨"d2", 7⟩], r.ModifyIndex ≤ 7))
    ∧ emittedDuring (exampleJobManager.watchJobs exampleClock exampleJobs).1.toBaseManager
        (((exampleJobManager.watchJobs exampleClock exampleJobs).1).watchJobs exampleClock
          exampleJobs).1.toBaseManager = []
    ∧ emittedDuring (exampleNodeManager.watchNodes exampleClock exampleNodes).1.toBaseManager
        (((exampleNodeManager.watchNodes exampleClock exampleNodes).1).watchNodes exampleClock
          exampleNodes).1.toBaseManager = []
    ∧ emittedDuring
        (exampleEvaluationManager.watchEvaluations exampleClock
          exampleEvaluations).1.toBaseManager
        (((exampleEvaluationManager.watchEvaluations exampleClock
          exampleEvaluations).1).watchEvaluations exampleClock
          exampleEvaluations).1.toBaseManager = []
    ∧ emittedDuring
        (exampleDeploymentManager.watchDeployments exampleClock
          exampleDeployments).1.toBaseManager
        (((exampleDeploymentManager.watchDeployments exampleClock
          exampleDeployments).1).watchDeployments exampleClock
          exampleDeployments).1.toBaseManager = [] :=
  have h := C5_replay_amended exampleClock exampleJobManager exampleJobs
    exampleNodeManager [⟨"n1", 5⟩, ⟨"n2", 7⟩] ⟨7⟩
    exampleEvaluationManager [⟨"e1", 5, 4⟩, ⟨"e2", 7, 0⟩] ⟨7⟩
    exampleDeploymentManager [⟨"d1", 5⟩, ⟨"d2", 7⟩] ⟨7⟩
    exampleAllocationManager exampleAllocations (by decide) (by decide) (by decide)
  ⟨⟨by decide, by decide, by decide⟩, h.1, h.2.1, h.2.2.1, h.2.2.2.1⟩

/-- C6. At-least-once fan-out. For every envelope and every list of registered
sinks, `WriteEvent` calls `Write` exactly once on each sink, in registration
order, whatever errors those calls return, and returns nil. In particular,
with two sinks of which the first always fails, the second still receives the
write and `WriteEvent` returns nil. -/
theorem C6_WriteEvent_fanout :
    (∀ (m : BaseManager) (event : Event),
      (m.WriteEvent event).2 = none
      ∧ (m.WriteEvent event).1.sinkWrites
          = m.sinkWrites ++ (List.range m.sinks.length).map (fun i => (i, event))
      ∧ (m.WriteEvent event).1.sinks = m.sinks.map (fun s => (s.Write event).1)
      ∧ (m.WriteEvent event).1.sinks.map (fun s => s.received)
          = m.sinks.map (fun s => s.received ++ [event]))
    ∧ (∀ (m : BaseManager) (s₁ s₂ : Sink) (err : String) (event : Event),
      (BaseManager.WriteEvent
          { m with sinks := [{ s₁ with writeErr := fun _ _ => some err }, s₂] } event).2 = none
      ∧ (BaseManager.WriteEvent
          { m with sinks := [{ s₁ with writeErr := fun _ _ => some err }, s₂] }
            event).1.sinks.map (fun s => s.received)
          = [s₁.received ++ [event], s₂.received ++ [event]]
      ∧ (BaseManager.WriteEvent
          { m with sinks := [{ s₁ with writeErr := fun _ _ => some err }, s₂] }
            event).1.sinkWrites
          = m.sinkWrites ++ [(0, event), (1, event)]) := by
  have general : ∀ (m : BaseManager) (event : Event),
      (m.WriteEvent event).2 = none
      ∧ (m.WriteEvent event).1.sinkWrites
          = m.sinkWrites ++ (List.range m.sinks.length).map (fun i => (i, event))
      ∧ (m.WriteEvent event).1.sinks = m.sinks.map (fun s => (s.Write event).1)
      ∧ (m.WriteEvent event).1.sinks.map (fun s => s.received)
          = m.sinks.map (fun s => s.received ++ [event]) := by
    intro m event
    obtain ⟨h1, h2⟩ := WriteEvent_foldl_calls event m.sinks
      ({ m with emitted := m.emitted ++ [event] }, [])
    have hs : (m.WriteEvent event).1.sinks = m.sinks.map (fun s => (s.Write event).1) := by
      simp only [BaseManager.WriteEvent]
      rw [h2]
      simp
    refine ⟨rfl, ?_, hs, ?_⟩
    · simp only [BaseManager.WriteEvent]
      rw [h1]
      simp [List.range_eq_range']
    · rw [hs, List.map_map]
      rfl
  refine ⟨general, ?_⟩
  intro m s₁ s₂ err event
  obtain ⟨g1, g2, _, g4⟩ := general
    { m with sinks := [{ s₁ with writeErr := fun _ _ => some err }, s₂] } event
  refine ⟨g1, ?_, ?_⟩
  · rw [g4]; rfl
  · rw [g2]; rfl

/-- C7, on the code. `Agent.Stop` cancels the context and closes every sink but
closes no manager's stop channel, and the watcher loop tests only the stop
channel: for the agent with one job manager, after `Stop` has returned (context
cancelled, each sink closed once) the stop channel of the manager is still
open, and the next iteration of its watcher loop, given the cancelled context,
calls the poll function. -/
theorem C7_Stop_leaves_watcher_polling :
    exampleAgent.Stop.1.ctx = true
    ∧ exampleAgent.Stop.1.sinks.map (fun s => s.closeCalls) = [1, 1]
    ∧ exampleAgent.Stop.1.managers.map (fun m => m.base.stopChan) = [false]
    ∧ (match exampleAgent.Stop.1.managers with
       | [EventManager.job jm] =>
         (runWatcherWithRateLimit.iteration jm exampleAgent.Stop.1.ctx (exampleClock 0)
            (JobManager.runJobWatcher.watchFunc exampleClock exampleJobs)).calledWatchFunc
           = true
       | _ => False) := by
  refine ⟨by decide, by decide, by decide, ?_⟩
  show (runWatcherWithRateLimit.iteration exampleJobManager true (exampleClock 0)
    (JobManager.runJobWatcher.watchFunc exampleClock exampleJobs)).calledWatchFunc = true
  decide

/-- C8, as stated, fails. For the node, evaluation and deployment managers a
successful cycle that returns one record with `ModifyIndex` 5 and no meta
value leaves `lastIndex` at 0, and with meta `LastIndex` 9 sets it to 9;
neither is the maximum of 0 and 5. -/
theorem C8_lastIndex_counterexample :
    (exampleNodeManager.watchNodes exampleClock (.ok ([⟨"n1", 5⟩], none))).1.lastIndex
        ≠ ([(⟨"n1", 5⟩ : api.NodeListStub)].map (fun r => r.ModifyIndex)).foldl max
            exampleNodeManager.lastIndex
    ∧ (exampleNodeManager.watchNodes exampleClock (.ok ([⟨"n1", 5⟩], some ⟨9⟩))).1.lastIndex
        ≠ ([(⟨"n1", 5⟩ : api.NodeListStub)].map (fun r => r.ModifyIndex)).foldl max
            exampleNodeManager.lastIndex
    ∧ (exampleEvaluationManager.watchEvaluations exampleClock
          (.ok ([⟨"e1", 5, 4⟩], none))).1.lastIndex
        ≠ ([(⟨"e1", 5, 4⟩ : api.Evaluation)].map (fun r => r.ModifyIndex)).foldl max
            exampleEvaluationManager.lastIndex
    ∧ (exampleDeploymentManager.watchDeployments exampleClock
          (.ok ([⟨"d1", 5⟩], none))).1.lastIndex
        ≠ ([(⟨"d1", 5⟩ : api.Deployment)].map (fun r => r.ModifyIndex)).foldl max
            exampleDeploymentManager.lastIndex := by
  decide

/-- C8, amended. For the node, evaluation and deployment managers, after any
poll cycle whose query succeeds (the first cycle included), `lastIndex` is the
maximum of its pre-cycle value and the `LastIndex` of the reported meta value,
and is unchanged when the reported meta value is nil; the `ModifyIndex` of the
returned records plays no part. -/
theorem C8_lastIndex_amended (clock : Nat → Int) :
    (∀ (m : NodeManager) (rs : List api.NodeListStub) (qmeta : Option api.QueryMeta),
      (m.watchNodes clock (.ok (rs, qmeta))).1.lastIndex
        = (match qmeta with
           | some mt => max m.lastIndex mt.LastIndex
           | none => m.lastIndex))
    ∧ (∀ (m : EvaluationManager) (rs : List api.Evaluation) (qmeta : Option api.QueryMeta),
      (m.watchEvaluations clock (.ok (rs, qmeta))).1.lastIndex
        = (match qmeta with
           | some mt => max m.lastIndex mt.LastIndex
           | none => m.lastIndex))
    ∧ (∀ (m : DeploymentManager) (rs : List api.Deployment) (qmeta : Option api.QueryMeta),
      (m.watchDeployments clock (.ok (rs, qmeta))).1.lastIndex
        = (match qmeta with
           | some mt => max m.lastIndex mt.LastIndex
           | none => m.lastIndex)) :=
  ⟨fun m rs qmeta => (watchNodes_ok_spec clock m rs qmeta).2.2.1,
    fun m rs qmeta => (watchEvaluations_ok_spec clock m rs qmeta).2.2.1,
    fun m rs qmeta => (watchDeployments_ok_spec clock m rs qmeta).2.2.1⟩

/-- C9. Index filter of the node and deployment managers. In a poll cycle with
`firstRun` false, a returned record produces an envelope if and only if its
`ModifyIndex` is strictly greater than `lastIndex` as it was at the start of
the cycle (a record whose `ModifyIndex` equals `lastIndex` is not emitted); the
envelopes emitted are exactly those records, in query-result order, each with
type "node", respectively "deployment". -/
theorem C9_index_filter_node_deployment (clock : Nat → Int)
    (nm : NodeManager) (ns : List api.NodeListStub) (qn : Option api.QueryMeta)
    (dm : DeploymentManager) (ds : List api.Deployment) (qd : Option api.QueryMeta)
    (hn : nm.firstRun = false) (hd : dm.firstRun = false) :
    (emittedDuring nm.toBaseManager
        (nm.watchNodes clock (.ok (ns, qn))).1.toBaseManager).map Event.body
      = (ns.filter (fun r => decide (nm.lastIndex < r.ModifyIndex))).map
          (fun r => ("node", Payload.node r))
    ∧ (∀ r : api.NodeListStub,
        ("node", Payload.node r) ∈ (emittedDuring nm.toBaseManager
            (nm.watchNodes clock (.ok (ns, qn))).1.toBaseManager).map Event.body
          ↔ r ∈ ns ∧ nm.lastIndex < r.ModifyIndex)
    ∧ (emittedDuring dm.toBaseManager
        (dm.watchDeployments clock (.ok (ds, qd))).1.toBaseManager).map Event.body
      = (ds.filter (fun r => decide (dm.lastIndex < r.ModifyIndex))).map
          (fun r => ("deployment", Payload.deployment r))
    ∧ (∀ r : api.Deployment,
        ("deployment", Payload.deployment r) ∈ (emittedDuring dm.toBaseManager
            (dm.watchDeployments clock (.ok (ds, qd))).1.toBaseManager).map Event.body
          ↔ r ∈ ds ∧ dm.lastIndex < r.ModifyIndex) := by
  have h1 := (watchNodes_ok_spec clock nm ns qn).2.1
  have h2 := (watchDeployments_ok_spec clock dm ds qd).2.1
  rw [hn] at h1
  rw [hd] at h2
  simp only [Bool.false_eq_true, if_false] at h1 h2
  refine ⟨h1, ?_, h2, ?_⟩
  · intro r
    rw [h1]
    simp [List.mem_map, List.mem_filter, EventTypeNode]
  · intro r
    rw [h2]
    simp [List.mem_map, List.mem_filter, EventTypeDeployment]

/-- C9 at managers with `lastIndex` 5 and records with indices 5 and 7: only the
record with index 7 is emitted. -/
theorem C9_index_filter_node_deployment_witness :
    (({ exampleNodeManager with firstRun := false, lastIndex := 5 } : NodeManager).firstRun
        = false
      ∧ ({ exampleDeploymentManager with firstRun := false, lastIndex := 5 } :
          DeploymentManager).firstRun = false)
    ∧ (emittedDuring
        ({ exampleNodeManager with firstRun := false, lastIndex := 5 } :
          NodeManager).toBaseManager
        (NodeManager.watchNodes exampleClock
          { exampleNodeManager with firstRun := false, lastIndex := 5 }
          (.ok ([⟨"n1", 5⟩, ⟨"n2", 7⟩], some ⟨7⟩))).1.toBaseManager).map Event.body
      = [("node", Payload.node ⟨"n2", 7⟩)]
    ∧ (emittedDuring
        ({ exampleDeploymentManager with firstRun := false, lastIndex := 5 } :
          DeploymentManager).toBaseManager
        (DeploymentManager.watchDeployments exampleClock
          { exampleDeploymentManager with firstRun := false, lastIndex := 5 }
          (.ok ([⟨"d1", 5⟩, ⟨"d2", 7⟩], some ⟨7⟩))).1.toBaseManager).map Event.body
      = [("deployment", Payload.deployment ⟨"d2", 7⟩)] :=
  have h := C9_index_filter_node_deployment exampleClock
    { exampleNodeManager with firstRun := false, lastIndex := 5 } [⟨"n1", 5⟩, ⟨"n2", 7⟩]
    (some ⟨7⟩)
    { exampleDeploymentManager with firstRun := false, lastIndex := 5 } [⟨"d1", 5⟩, ⟨"d2", 7⟩]
    (some ⟨7⟩) rfl rfl
  ⟨⟨rfl, rfl⟩, h.1, h.2.2.1⟩

/-- C10, as stated, fails. With `firstRun` false and `lastIndex` 5, a returned
evaluation with `ModifyIndex` 7 and `SnapshotIndex` 0 has a `ModifyIndex`
strictly greater than `lastIndex` and yet produces no envelope. -/
theorem C10_evaluation_filter_counterexample :
    ({ exampleEvaluationManager with firstRun := false, lastIndex := 5 } :
        EvaluationManager).firstRun = false
    ∧ ({ exampleEvaluationManager with firstRun := false, lastIndex := 5 } :
        EvaluationManager).lastIndex < (⟨"e2", 7, 0⟩ : api.Evaluation).ModifyIndex
    ∧ emittedDuring
        ({ exampleEvaluationManager with firstRun := false, lastIndex := 5 } :
          EvaluationManager).toBaseManager
        (EvaluationManager.watchEvaluations exampleClock
          { exampleEvaluationManager with firstRun := false, lastIndex := 5 }
          (.ok ([⟨"e2", 7, 0⟩], some ⟨7⟩))).1.toBaseManager = [] := by
  decide

/-- C10, amended. Index filter of the evaluation manager. In a poll cycle with
`firstRun` false, a returned evaluation produces an envelope if and only if
its `ModifyIndex` is strictly greater than `lastIndex` as it was at the start
of the cycle and its `SnapshotIndex` is not 0; the envelopes emitted are
exactly those evaluations, in query-result order, each with type
"evaluation". -/
theorem C10_evaluation_filter_amended (clock : Nat → Int)
    (m : EvaluationManager) (es : List api.Evaluation) (qmeta : Option api.QueryMeta)
    (hf : m.firstRun = false) :
    (emittedDuring m.toBaseManager
        (m.watchEvaluations clock (.ok (es, qmeta))).1.toBaseManager).map Event.body
      = (es.filter (fun r =>
          decide (m.lastIndex < r.ModifyIndex) && decide (r.SnapshotIndex ≠ 0))).map
          (fun r => ("evaluation", Payload.evaluation r))
    ∧ (∀ r : api.Evaluation,
        ("evaluation", Payload.evaluation r) ∈ (emittedDuring m.toBaseManager
            (m.watchEvaluations clock (.ok (es, qmeta))).1.toBaseManager).map Event.body
          ↔ r ∈ es ∧ m.lastIndex < r.ModifyIndex ∧ r.SnapshotIndex ≠ 0) := by
  have h1 := (watchEvaluations_ok_spec clock m es qmeta).2.1
  rw [hf] at h1
  simp only [Bool.false_eq_true, if_false] at h1
  refine ⟨h1, ?_⟩
  intro r
  rw [h1]
  simp [List.mem_map, List.mem_filter, EventTypeEvaluation]

/-- C10, amended, at a manager with `lastIndex` 4 and the example evaluations:
the one with `SnapshotIndex` 0 is skipped. -/
theorem C10_evaluation_filter_amended_witness :
    ({ exampleEvaluationManager with firstRun := false, lastIndex := 4 } :
        EvaluationManager).firstRun = false
    ∧ (emittedDuring
        ({ exampleEvaluationManager with firstRun := false, lastIndex := 4 } :
          EvaluationManager).toBaseManager
        (EvaluationManager.watchEvaluations exampleClock
          { exampleEvaluationManager with firstRun := false, lastIndex := 4 }
          exampleEvaluations).1.toBaseManager).map Event.body
      = [("evaluation", Payload.evaluation ⟨"e1", 5, 4⟩)] :=
  ⟨rfl, (C10_evaluation_filter_amended exampleClock
    { exampleEvaluationManager with firstRun := false, lastIndex := 4 }
    [⟨"e1", 5, 4⟩, ⟨"e2", 7, 0⟩] (some ⟨7⟩) rfl).1⟩

/-- C12. `Config.Validate` returns nil if and only if `NomadAddr` is non-empty,
`Sinks` is non-empty, every entry of `Sinks` is "stdout" or "file", `Path` of
the file configuration is non-empty if some entry of `Sinks` is "file", and
every entry of `EventTypes` is one of "allocation", "evaluation", "node",
"job", "deployment", "task". The access token and the rate limit never affect
the result, and an empty path is accepted when no file sink is configured. -/
theorem C12_Validate_iff :
    (∀ c : Config,
      c.Validate = none
        ↔ c.NomadAddr ≠ "" ∧ c.Sinks ≠ []
          ∧ (∀ s ∈ c.Sinks, s = "stdout" ∨ s = "file")
          ∧ ("file" ∈ c.Sinks → c.FileConfig.Path ≠ "")
          ∧ (∀ t ∈ c.EventTypes, t = "allocation" ∨ t = "evaluation" ∨ t = "node" ∨ t = "job"
              ∨ t = "deployment" ∨ t = "task"))
    ∧ (∀ (c : Config) (token : String) (rateLimit : Int),
        Config.Validate { c with NomadToken := token, RateLimit := rateLimit } = c.Validate)
    ∧ (∀ (addr token : String) (rateLimit : Int) (eventTypes : List String),
        addr ≠ "" → (∀ t ∈ eventTypes, validEventTypes t = true) →
        Config.Validate
          { NomadAddr := addr, NomadToken := token, Sinks := ["stdout"],
            EventTypes := eventTypes, RateLimit := rateLimit, FileConfig := { Path := "" } }
          = none) := by
  have main := Validate_none_iff
  refine ⟨main, ?_, ?_⟩
  · intro c token rateLimit
    unfold Config.Validate
    rw [Validate_sinks_congr { c with NomadToken := token, RateLimit := rateLimit } c rfl]
  · intro addr token rateLimit eventTypes haddr hev
    rw [main]
    refine ⟨haddr, by simp, by simp, by simp, ?_⟩
    intro t ht
    exact (validEventTypes_iff t).mp (hev t ht)

/-- C19, as stated, fails. With sink and client construction succeeding, the
event-type list ["bogus"] yields no manager list: `New` returns the error
"unknown event type: bogus". -/
theorem C19_New_managers_counterexample :
    (∃ sinks, New.sinks exampleEnv { exampleConfig with EventTypes := ["bogus"] }
        ["stdout", "file"] [] = .ok sinks)
    ∧ exampleEnv.NewClient "http://localhost:4646" "" = none
    ∧ (∀ a : Agent, New exampleEnv { exampleConfig with EventTypes := ["bogus"] } ≠ .ok a)
    ∧ (match New exampleEnv { exampleConfig with EventTypes := ["bogus"] } with
       | .error err => err.Error = "unknown event type: bogus"
       | .ok _ => False) := by
  have h : New exampleEnv { exampleConfig with EventTypes := ["bogus"] }
      = .error (.unknownEventType "bogus") := rfl
  refine ⟨⟨_, rfl⟩, rfl, ?_, ?_⟩
  · intro a ha
    rw [h] at ha
    cases ha
  · rw [h]
    decide

/-- C19, amended. Manager construction in `New`, assuming that sink and client
construction succeed. If every entry of the effective event-type list is one
of the six known types, `New` returns an agent whose manager list has exactly
one manager per entry of the effective list, in list order, where the effective
list is `config.EventTypes` if non-empty and otherwise the six types
allocation, evaluation, node, job, deployment, task (so six managers). The
entries "allocation" and "task" each produce an allocation manager of their own
whose `GetEventType` is "allocation" and whose rate limit is
`config.RateLimit`; evaluation, node, job and deployment managers get rate
limit 0 and report their own event type. If some entry of the effective list is
not a known type, `New` returns no agent but the error "unknown event type: "
followed by the first such entry. -/
theorem C19_New_managers_amended (env : NewEnv) (c : Config) (sinks : List Sink)
    (hs : New.sinks env c c.Sinks [] = .ok sinks)
    (hc : env.NewClient c.NomadAddr c.NomadToken = none) :
    ((∀ t ∈ New.eventTypes c, validEventTypes t = true) →
      ∃ a : Agent, New env c = .ok a
        ∧ a.sinks = sinks
        ∧ List.Forall₂ (managerMatches c) (New.eventTypes c) a.managers
        ∧ a.managers.length = (New.eventTypes c).length)
    ∧ New.eventTypes c
        = (if c.EventTypes = [] then
            ["allocation", "evaluation", "node", "job", "deployment", "task"]
           else c.EventTypes)
    ∧ ((∃ t ∈ New.eventTypes c, validEventTypes t = false) →
      ∃ pre t post, New.eventTypes c = pre ++ t :: post
        ∧ (∀ x ∈ pre, validEventTypes x = true)
        ∧ validEventTypes t = false
        ∧ New env c = .error (.unknownEventType t)
        ∧ (NewError.unknownEventType t).Error = "unknown event type: " ++ t
        ∧ (∀ a : Agent, New env c ≠ .ok a)) := by
  refine ⟨?_, ?_, ?_⟩
  · intro hk
    obtain ⟨ms, hms, hall⟩ := New_managers_ok env c sinks (New.eventTypes c) hc hk []
    refine ⟨{ managers := ms, sinks := sinks, ctx := false, logger := [] }, ?_, rfl, hall,
      hall.length_eq.symm⟩
    unfold New
    rw [hs]
    simp only
    rw [hms]
    rfl
  · unfold New.eventTypes
    by_cases he : c.EventTypes = []
    · simp [he, EventTypeAllocation, EventTypeEvaluation, EventTypeNode, EventTypeJob,
        EventTypeDeployment, EventTypeTask]
    · have : c.EventTypes.length ≠ 0 := by simpa using he
      simp [he, this]
  · intro hbad
    obtain ⟨pre, t, post, hl, hpre, hv, herr⟩ :=
      New_managers_unknown_first env c sinks (New.eventTypes c) hc hbad []
    have hnew : New env c = .error (.unknownEventType t) :=
      New_of_managers_error env c sinks _ hs herr
    refine ⟨pre, t, post, hl, hpre, hv, hnew, rfl, ?_⟩
    intro a ha
    rw [hnew] at ha
    cases ha

/-- C19, amended, at the example configuration (event types "job", "task"), at
the same configuration with an empty event-type list (six managers), and with
the event types "job", "bogus", "nope" (the error names "bogus"). -/
theorem C19_New_managers_amended_witness :
    (New.sinks exampleEnv exampleConfig exampleConfig.Sinks [] = .ok [okSink, okSink]
      ∧ exampleEnv.NewClient exampleConfig.NomadAddr exampleConfig.NomadToken = none
      ∧ (∀ t ∈ New.eventTypes exampleConfig, validEventTypes t = true))
    ∧ (∃ a : Agent, New exampleEnv exampleConfig = .ok a
        ∧ a.managers.map (fun m => (m.base.GetEventType, m.base.rateLimit))
            = [("job", 0), ("allocation", 5000000000)])
    ∧ (∃ a : Agent, New exampleEnv { exampleConfig with EventTypes := [] } = .ok a
        ∧ a.managers.length = 6)
    ∧ (∃ t, New exampleEnv { exampleConfig with EventTypes := ["job", "bogus", "nope"] }
          = .error (.unknownEventType t)
        ∧ (NewError.unknownEventType t).Error = "unknown event type: " ++ t)
    ∧ New exampleEnv { exampleConfig with EventTypes := ["job", "bogus", "nope"] }
        = .error (.unknownEventType "bogus") :=
  have h₂ := (C19_New_managers_amended exampleEnv { exampleConfig with EventTypes := [] }
    [okSink, okSink] rfl rfl).1 (by decide)
  have h₃ := (C19_New_managers_amended exampleEnv
    { exampleConfig with EventTypes := ["job", "bogus", "nope"] }
    [okSink, okSink] rfl rfl).2.2 ⟨"bogus", by decide, by decide⟩
  ⟨⟨rfl, rfl, by decide⟩,
    ⟨_, rfl, by decide⟩,
    h₂.elim fun a ha => ⟨a, ha.1, ha.2.2.2⟩,
    h₃.elim fun _ h => h.elim fun t h => h.elim fun _ h => ⟨t, h.2.2.2.1, h.2.2.2.2.1⟩,
    rfl⟩

/-- C20. Validate/New consistency. For every configuration on which `Validate`
returns nil, `New` never takes the default branch of its sink-type switch or of
its event-type switch: it cannot fail with "unknown sink type" or "unknown
event type". Conversely, for every configuration whose `Sinks` contain a
string other than "stdout" and "file", or whose `EventTypes` contain a string
outside the six known types, both `Validate` and `New` return an error; and
when no construction fails earlier, the error of `New` is the one of the
default branch, for an unknown entry of the list. -/
theorem C20_Validate_New_consistent (env : NewEnv) (c : Config) :
    (c.Validate = none →
      ∀ s : String, New env c ≠ .error (.unknownSinkType s)
        ∧ New env c ≠ .error (.unknownEventType s))
    ∧ ((∃ s ∈ c.Sinks, s ≠ "stdout" ∧ s ≠ "file") →
        c.Validate ≠ none ∧ ∃ err, New env c = .error err)
    ∧ ((∃ t ∈ c.EventTypes, validEventTypes t = false) →
        c.Validate ≠ none ∧ ∃ err, New env c = .error err)
    ∧ ((∀ p, ∃ sink, env.NewFileSink p = .ok sink) →
        (∃ s ∈ c.Sinks, s ≠ "stdout" ∧ s ≠ "file") →
        ∃ s ∈ c.Sinks, (s ≠ "stdout" ∧ s ≠ "file")
          ∧ New env c = .error (.unknownSinkType s))
    ∧ ((∀ p, ∃ sink, env.NewFileSink p = .ok sink) →
        env.NewClient c.NomadAddr c.NomadToken = none →
        (∀ s ∈ c.Sinks, s = "stdout" ∨ s = "file") →
        (∃ t ∈ c.EventTypes, validEventTypes t = false) →
        ∃ t ∈ c.EventTypes, validEventTypes t = false
          ∧ New env c = .error (.unknownEventType t)) := by
  have hbad : ∀ t : String, validEventTypes t = false →
      ¬ (t = "allocation" ∨ t = "evaluation" ∨ t = "node" ∨ t = "job" ∨ t = "deployment"
        ∨ t = "task") := by
    intro t ht hv
    rw [(validEventTypes_iff t).mpr hv] at ht
    cases ht
  refine ⟨?_, ?_, ?_, ?_, ?_⟩
  · intro hv s
    obtain ⟨_, _, hsinks, _, hev⟩ := (Validate_none_iff c).mp hv
    have hev' : ∀ t ∈ New.eventTypes c, validEventTypes t = true :=
      New_eventTypes_valid c (fun t ht => (validEventTypes_iff t).mpr (hev t ht))
    cases h1 : New.sinks env c c.Sinks [] with
    | error err =>
      rw [New_of_sinks_error env c err h1]
      constructor
      · intro heq
        have : err = .unknownSinkType s := by simpa using heq
        exact New_sinks_known env c c.Sinks hsinks [] s (by rw [h1, this])
      · intro heq
        have : err = .unknownEventType s := by simpa using heq
        exact New_sinks_not_event env c c.Sinks [] s (by rw [h1, this])
    | ok sinks =>
      cases h2 : New.managers env c sinks (New.eventTypes c) [] with
      | error err =>
        rw [New_of_managers_error env c sinks err h1 h2]
        constructor
        · intro heq
          have : err = .unknownSinkType s := by simpa using heq
          rw [this] at h2
          obtain ⟨t, _, hm⟩ := New_managers_error_source env c sinks _ [] _ h2
          exact New_manager_not_sink env c sinks t s hm
        · intro heq
          have : err = .unknownEventType s := by simpa using heq
          exact New_managers_known env c sinks _ hev' [] s (by rw [h2, this])
      | ok managers =>
        rw [New_of_ok env c sinks managers h1 h2]
        exact ⟨by simp, by simp⟩
  · intro hs
    refine ⟨?_, ?_⟩
    · intro hv
      obtain ⟨_, _, hsinks, _, _⟩ := (Validate_none_iff c).mp hv
      obtain ⟨s, hmem, h1, h2⟩ := hs
      rcases hsinks s hmem with h | h
      · exact h1 h
      · exact h2 h
    · obtain ⟨err, herr⟩ := New_sinks_unknown env c c.Sinks hs []
      exact ⟨err, New_of_sinks_error env c err herr⟩
  · intro ht
    refine ⟨?_, ?_⟩
    · intro hv
      obtain ⟨_, _, _, _, hev⟩ := (Validate_none_iff c).mp hv
      obtain ⟨t, hmem, hbad'⟩ := ht
      exact hbad t hbad' (hev t hmem)
    · have hne : c.EventTypes.length ≠ 0 := by
        obtain ⟨t, hmem, _⟩ := ht
        intro h0
        rw [List.length_eq_zero.mp h0] at hmem
        cases hmem
      have heff : New.eventTypes c = c.EventTypes := by simp [New.eventTypes, hne]
      cases h1 : New.sinks env c c.Sinks [] with
      | error err => exact ⟨err, New_of_sinks_error env c err h1⟩
      | ok sinks =>
        obtain ⟨err, herr⟩ := New_managers_unknown env c sinks c.EventTypes ht []
        rw [← heff] at herr
        exact ⟨err, New_of_managers_error env c sinks err h1 herr⟩
  · intro hfile hs
    obtain ⟨s, hmem, hne, herr⟩ := New_sinks_unknown_default env c c.Sinks hfile hs []
    exact ⟨s, hmem, hne, New_of_sinks_error env c _ herr⟩
  · intro hfile hc hsinks ht
    have hne : c.EventTypes.length ≠ 0 := by
      obtain ⟨t, hmem, _⟩ := ht
      intro h0
      rw [List.length_eq_zero.mp h0] at hmem
      cases hmem
    have heff : New.eventTypes c = c.EventTypes := by simp [New.eventTypes, hne]
    obtain ⟨sinks, hsk⟩ := New_sinks_ok env c c.Sinks hfile hsinks []
    obtain ⟨t, hmem, hbad', herr⟩ :=
      New_managers_unknown_default env c sinks c.EventTypes hc ht []
    rw [← heff] at herr
    exact ⟨t, hmem, hbad', New_of_managers_error env c sinks _ hsk herr⟩

/-- C11. Rate limiting. Take `runWatcherWithRateLimit` on a freshly built
manager (stop channel open, `lastCallTime` the zero time) with rate limit
`R >= 0`, any number of iterations, under a monotone clock that is not before
the Unix epoch and on which `Sleep(d)` advances the clock by at least `d`, the
calls of `watchFunc` taking any time, also none. Then the clock readings taken
before any two consecutive calls of `watchFunc` differ by at least `R`;
`lastCallTime` is the reading taken before the last call (an iteration that
calls `watchFunc` stores the reading taken before the call, whatever time the
call takes); with `R = 0` the loop never performs a rate-limit sleep; and no
rate-limit sleep comes before the first call. -/
theorem C11_rate_limit {μ : Type} [Manager μ] [LawfulManager μ] (env : WatcherEnv μ)
    (ctx : Bool) (fuel i : Nat) (t : Int) (m : μ)
    (hw : ∀ k, PreservesLoopControl (env.watchFunc k))
    (hopen : (Manager.base m).stopChan = false)
    (hfresh : (Manager.base m).lastCallTime = zeroTime)
    (ht : 0 ≤ t)
    (hR0 : 0 ≤ (Manager.base m).rateLimit)
    (hRmax : (Manager.base m).rateLimit ≤ maxDuration) :
    List.Chain' (fun a b => a + (Manager.base m).rateLimit ≤ b)
        (pollReadings (runWatcherWithRateLimit env ctx fuel i t m).trace)
    ∧ (Manager.base (runWatcherWithRateLimit env ctx fuel i t m).m).lastCallTime
        = (pollReadings (runWatcherWithRateLimit env ctx fuel i t m).trace).getLast?.getD zeroTime
    ∧ (∀ (m₀ m' : μ) (now : Int) (w : Bool → μ → μ × Option String) (err : Option String)
          (backoff : Option Int), PreservesLoopControl w →
        runWatcherWithRateLimit.iteration m₀ ctx now w = .polled m' err backoff →
        (Manager.base m').lastCallTime = now)
    ∧ ((Manager.base m).rateLimit = 0 →
        ∀ e ∈ (runWatcherWithRateLimit env ctx fuel i t m).trace, e.isRateLimitSleep = false)
    ∧ (∀ e, (runWatcherWithRateLimit env ctx fuel i t m).trace.head? = some e →
        e.isRateLimitSleep = false) := by
  have spec := run_spec env ctx hw (Manager.base m).rateLimit fuel i t m hopen rfl
  refine ⟨?_, ?_, ?_, ?_, ?_⟩
  · have hchain : List.Chain (fun a b => a + (Manager.base m).rateLimit ≤ b)
        (Manager.base m).lastCallTime
        (pollReadings (runWatcherWithRateLimit env ctx fuel i t m).trace) :=
      List.Chain.imp (fun a b hab => le_sub_of_le_timeSub b a _ hR0 hab) spec.chain
    have hchain' : List.Chain' (fun a b => a + (Manager.base m).rateLimit ≤ b)
        ((Manager.base m).lastCallTime
          :: pollReadings (runWatcherWithRateLimit env ctx fuel i t m).trace) := hchain
    exact hchain'.tail
  · rw [← hfresh]
    exact spec.lastCallTime
  · intro m₀ m' now w err backoff hwp hit
    exact (iteration_polled_lastCallTime m₀ ctx now w hwp m' err backoff hit).1
  · intro hzero
    refine spec.noSleep hzero ?_
    rw [hfresh]
    have : zeroTime ≤ 0 := by decide
    omega
  · exact run_first_step env ctx hw fuel i t m hopen hfresh ht hRmax

/-- C11 at the example loop of an allocation manager with rate limit 5 seconds
whose polls take no time: the polls happen at clock readings 5 seconds apart,
with a rate-limit sleep of 5 seconds after each successful poll. -/
theorem C11_rate_limit_witness :
    ((∀ k, PreservesLoopControl (exampleWatcherEnv.watchFunc k))
      ∧ exampleRateLimitedManager.stopChan = false
      ∧ exampleRateLimitedManager.lastCallTime = zeroTime
      ∧ (0 : Int) ≤ exampleClock 0
      ∧ 0 ≤ exampleRateLimitedManager.rateLimit
      ∧ exampleRateLimitedManager.rateLimit ≤ maxDuration)
    ∧ pollReadings (runWatcherWithRateLimit exampleWatcherEnv true 8 0 (exampleClock 0)
          exampleRateLimitedManager).trace
        = [1700000000000000000, 1700000005000000000, 1700000010000000000]
    ∧ List.Chain' (fun a b => a + 5000000000 ≤ b)
        (pollReadings (runWatcherWithRateLimit exampleWatcherEnv true 8 0 (exampleClock 0)
          exampleRateLimitedManager).trace)
    ∧ (runWatcherWithRateLimit exampleWatcherEnv true 8 0 (exampleClock 0)
          exampleRateLimitedManager).m.lastCallTime = 1700000010000000000 :=
  have h := C11_rate_limit exampleWatcherEnv true 8 0 (exampleClock 0)
    exampleRateLimitedManager exampleWatcherEnv_preserves rfl rfl (by decide) (by decide)
    (by decide)
  ⟨⟨exampleWatcherEnv_preserves, rfl, rfl, by decide, by decide, by decide⟩,
    by decide, h.1, by decide⟩

/-- C18. Watcher loop error tolerance. Take `runWatcherWithRateLimit` on a
manager whose stop channel is open, for every sequence of poll outcomes
(success or error) and any number of iterations. The function has returned
exactly when one of the iterations begun found the stop channel closed at its
boundary; it then returned in the first such iteration, the `return` being its
last step; otherwise every iteration ran and the loop goes on, so a poll error
never terminates it. After each poll error the loop sleeps 5 seconds before
the next iteration, and it makes no such sleep after a successful poll. -/
theorem C18_loop_error_tolerance {μ : Type} [Manager μ] [LawfulManager μ]
    (env : WatcherEnv μ) (ctx : Bool) (fuel i : Nat) (t : Int) (m : μ)
    (hw : ∀ k, PreservesLoopControl (env.watchFunc k))
    (hopen : (Manager.base m).stopChan = false) :
    ((runWatcherWithRateLimit env ctx fuel i t m).returned = true
        ↔ ∃ j, j < fuel ∧ env.stopClosed (i + j) = true)
    ∧ ((runWatcherWithRateLimit env ctx fuel i t m).returned = false →
        (runWatcherWithRateLimit env ctx fuel i t m).iterations = fuel
        ∧ LoopEvent.returned ∉ (runWatcherWithRateLimit env ctx fuel i t m).trace)
    ∧ ((runWatcherWithRateLimit env ctx fuel i t m).returned = true →
        1 ≤ (runWatcherWithRateLimit env ctx fuel i t m).iterations
        ∧ (runWatcherWithRateLimit env ctx fuel i t m).iterations ≤ fuel
        ∧ env.stopClosed
            (i + ((runWatcherWithRateLimit env ctx fuel i t m).iterations - 1)) = true
        ∧ (∀ k, k + 1 < (runWatcherWithRateLimit env ctx fuel i t m).iterations →
            env.stopClosed (i + k) = false)
        ∧ (runWatcherWithRateLimit env ctx fuel i t m).trace.getLast?
            = some LoopEvent.returned)
    ∧ backoffAfterErrorsOnly (runWatcherWithRateLimit env ctx fuel i t m).trace = true
    ∧ (∀ (m₀ m' : μ) (now : Int) (w : Bool → μ → μ × Option String) (err : Option String)
          (backoff : Option Int), PreservesLoopControl w →
        runWatcherWithRateLimit.iteration m₀ ctx now w = .polled m' err backoff →
        backoff = if err.isSome then some (5 * Second) else none) := by
  have spec := run_spec env ctx hw (Manager.base m).rateLimit fuel i t m hopen rfl
  refine ⟨spec.returned_iff, spec.running, spec.returned_first, spec.backoff, ?_⟩
  intro m₀ m' now w err backoff hwp hit
  exact (iteration_polled_lastCallTime m₀ ctx now w hwp m' err backoff hit).2

/-- C18 at the example loop, whose third iteration polls with an error and
whose stop channel is closed from iteration 5 on: after 3 iterations the loop
is still running, the failed poll being followed by the 5 second sleep; given
8 iterations it returns in iteration 5 (the sixth), not before. -/
theorem C18_loop_error_tolerance_witness :
    ((∀ k, PreservesLoopControl (exampleWatcherEnv.watchFunc k))
      ∧ exampleRateLimitedManager.stopChan = false)
    ∧ (runWatcherWithRateLimit exampleWatcherEnv true 3 0 (exampleClock 0)
          exampleRateLimitedManager).trace
        = [.poll 1700000000000000000 none,
           .rateLimitSleep 1700000000000000000 5000000000,
           .poll 1700000005000000000 (some "failed to get allocations: connection refused"),
           .backoffSleep 5000000000]
    ∧ (runWatcherWithRateLimit exampleWatcherEnv true 3 0 (exampleClock 0)
          exampleRateLimitedManager).returned = false
    ∧ ((runWatcherWithRateLimit exampleWatcherEnv true 8 0 (exampleClock 0)
          exampleRateLimitedManager).returned = true
        ↔ ∃ j, j < 8 ∧ exampleWatcherEnv.stopClosed (0 + j) = true)
    ∧ (runWatcherWithRateLimit exampleWatcherEnv true 8 0 (exampleClock 0)
          exampleRateLimitedManager).iterations = 6 :=
  have h := C18_loop_error_tolerance exampleWatcherEnv true 8 0 (exampleClock 0)
    exampleRateLimitedManager exampleWatcherEnv_preserves rfl
  ⟨⟨exampleWatcherEnv_preserves, rfl⟩, by decide, by decide, h.1, by decide⟩

/-- C15. Deferred watermark commit in the allocation manager. Within one poll
cycle every allocation is filtered against the `lastSeenTime` held at the
start of the cycle: for every state and every returned allocation list,
running the cycle on any permutation of that list emits the same multiset of
task envelopes (type and payload) and ends with the same `lastSeenTime`. -/
theorem C15_permutation_invariance (clock : Nat → Int) (m : AllocationManager)
    (allocations allocations' : List api.AllocationListStub) (qmeta : Option api.QueryMeta)
    (hperm : allocations.Perm allocations') :
    ((emittedDuring m.toBaseManager
        (m.watchAllocations clock (.ok (allocations, qmeta))).1.toBaseManager).map
        Event.body).Perm
      ((emittedDuring m.toBaseManager
        (m.watchAllocations clock (.ok (allocations', qmeta))).1.toBaseManager).map Event.body)
    ∧ (m.watchAllocations clock (.ok (allocations, qmeta))).1.lastSeenTime
        = (m.watchAllocations clock (.ok (allocations', qmeta))).1.lastSeenTime := by
  obtain ⟨_, e₁, t₁, _⟩ := watchAllocations_ok_spec clock m allocations qmeta
  obtain ⟨_, e₂, t₂, _⟩ := watchAllocations_ok_spec clock m allocations' qmeta
  have hp := resultTaskEvents_perm allocations allocations' hperm
  refine ⟨?_, ?_⟩
  · rw [e₁, e₂]
    cases m.firstRun
    · simp only [Bool.false_eq_true, if_false]
      exact (hp.filter _).map _
    · simp
  · rw [t₁, t₂]
    exact foldl_max_perm _ _ (hp.map _) _

/-- C15 at a manager with watermark 10 and two allocations in either order:
the same three task envelopes are emitted, in a different order, and
`lastSeenTime` ends at 30 both times. -/
theorem C15_permutation_invariance_witness :
    [exampleAllocation, exampleAllocation2].Perm [exampleAllocation2, exampleAllocation]
    ∧ ((emittedDuring exampleSeenManager.toBaseManager
        (exampleSeenManager.watchAllocations exampleClock
          (.ok ([exampleAllocation, exampleAllocation2], none))).1.toBaseManager).map
        Event.body).Perm
      ((emittedDuring exampleSeenManager.toBaseManager
        (exampleSeenManager.watchAllocations exampleClock
          (.ok ([exampleAllocation2, exampleAllocation], none))).1.toBaseManager).map
        Event.body)
    ∧ (exampleSeenManager.watchAllocations exampleClock
          (.ok ([exampleAllocation, exampleAllocation2], none))).1.lastSeenTime = 30
    ∧ (exampleSeenManager.watchAllocations exampleClock
          (.ok ([exampleAllocation2, exampleAllocation], none))).1.lastSeenTime = 30
    ∧ (emittedDuring exampleSeenManager.toBaseManager
        (exampleSeenManager.watchAllocations exampleClock
          (.ok ([exampleAllocation, exampleAllocation2], none))).1.toBaseManager).length = 3 :=
  have h := C15_permutation_invariance exampleClock exampleSeenManager
    [exampleAllocation, exampleAllocation2] [exampleAllocation2, exampleAllocation] none
    (List.Perm.swap _ _ _)
  ⟨List.Perm.swap _ _ _, h.1, by decide, by decide, by decide⟩

/-- C16, as stated, fails. With `firstRun` false and `lastIndex` 5, a job list
with indices 9, 7 (in this order) is emitted as 9 then 7; with watermark 10, the
task events of `exampleAllocation2`, with times 30, 20 (in this order), are
emitted as 30 then 20. -/
theorem C16_emission_order_counterexample :
    (emittedDuring
        ({ exampleJobManager with firstRun := false, lastIndex := 5 } :
          JobManager).toBaseManager
        (JobManager.watchJobs exampleClock
          { exampleJobManager with firstRun := false, lastIndex := 5 }
          (.ok ([⟨"web", 9⟩, ⟨"db", 7⟩], some ⟨9⟩))).1.toBaseManager).map Event.body
      = [("job", Payload.job ⟨"web", 9⟩), ("job", Payload.job ⟨"db", 7⟩)]
    ∧ ¬ ((⟨"web", 9⟩ : api.JobListStub).ModifyIndex ≤ (⟨"db", 7⟩ : api.JobListStub).ModifyIndex)
    ∧ (emittedDuring exampleSeenManager.toBaseManager
        (exampleSeenManager.watchAllocations exampleClock
          (.ok ([exampleAllocation2], none))).1.toBaseManager).map Event.body
      = [taskEnvelope (exampleAllocation2, "redis", exampleTaskState2, ⟨"Terminated", 30⟩),
         taskEnvelope (exampleAllocation2, "redis", exampleTaskState2, ⟨"Restarting", 20⟩)]
    ∧ ¬ ((⟨"Terminated", 30⟩ : api.TaskEvent).Time ≤ (⟨"Restarting", 20⟩ : api.TaskEvent).Time)
    := by
  decide

/-- C16, amended. Within one manager, for every poll cycle and every query
result, the envelopes emitted in the cycle appear in query-result order: they
are the envelopes of a subsequence of the returned records (for the allocation
manager, of the task events in the order in which allocations, tasks and events
are scanned). Hence they are in non-decreasing `ModifyIndex` order, respectively
event-time order, whenever the query result itself is. -/
theorem C16_emission_order_amended (clock : Nat → Int) :
    (∀ (m : JobManager) (rs : List api.JobListStub) (qmeta : Option api.QueryMeta),
      ∃ es : List api.JobListStub, es.Sublist rs
        ∧ (emittedDuring m.toBaseManager
            (m.watchJobs clock (.ok (rs, qmeta))).1.toBaseManager).map Event.body
          = es.map (fun r => ("job", Payload.job r))
        ∧ (rs.Pairwise (fun a b => a.ModifyIndex ≤ b.ModifyIndex) →
            es.Pairwise (fun a b => a.ModifyIndex ≤ b.ModifyIndex)))
    ∧ (∀ (m : NodeManager) (rs : List api.NodeListStub) (qmeta : Option api.QueryMeta),
      ∃ es : List api.NodeListStub, es.Sublist rs
        ∧ (emittedDuring m.toBaseManager
            (m.watchNodes clock (.ok (rs, qmeta))).1.toBaseManager).map Event.body
          = es.map (fun r => ("node", Payload.node r))
        ∧ (rs.Pairwise (fun a b => a.ModifyIndex ≤ b.ModifyIndex) →
            es.Pairwise (fun a b => a.ModifyIndex ≤ b.ModifyIndex)))
    ∧ (∀ (m : EvaluationManager) (rs : List api.Evaluation) (qmeta : Option api.QueryMeta),
      ∃ es : List api.Evaluation, es.Sublist rs
        ∧ (emittedDuring m.toBaseManager
            (m.watchEvaluations clock (.ok (rs, qmeta))).1.toBaseManager).map Event.body
          = es.map (fun r => ("evaluation", Payload.evaluation r))
        ∧ (rs.Pairwise (fun a b => a.ModifyIndex ≤ b.ModifyIndex) →
            es.Pairwise (fun a b => a.ModifyIndex ≤ b.ModifyIndex)))
    ∧ (∀ (m : DeploymentManager) (rs : List api.Deployment) (qmeta : Option api.QueryMeta),
      ∃ es : List api.Deployment, es.Sublist rs
        ∧ (emittedDuring m.toBaseManager
            (m.watchDeployments clock (.ok (rs, qmeta))).1.toBaseManager).map Event.body
          = es.map (fun r => ("deployment", Payload.deployment r))
        ∧ (rs.Pairwise (fun a b => a.ModifyIndex ≤ b.ModifyIndex) →
            es.Pairwise (fun a b => a.ModifyIndex ≤ b.ModifyIndex)))
    ∧ (∀ (m : AllocationManager) (rs : List api.AllocationListStub)
        (qmeta : Option api.QueryMeta),
      ∃ es : List (api.AllocationListStub × String × api.TaskState × api.TaskEvent),
        es.Sublist (resultTaskEvents rs)
        ∧ (emittedDuring m.toBaseManager
            (m.watchAllocations clock (.ok (rs, qmeta))).1.toBaseManager).map Event.body
          = es.map taskEnvelope
        ∧ ((resultTaskEvents rs).Pairwise (fun a b => a.2.2.2.Time ≤ b.2.2.2.Time) →
            es.Pairwise (fun a b => a.2.2.2.Time ≤ b.2.2.2.Time))) := by
  refine ⟨?_, ?_, ?_, ?_, ?_⟩
  · intro m rs qmeta
    have h := (watchJobs_ok_spec clock m rs qmeta).2.1
    cases hf : m.firstRun
    · rw [hf] at h
      exact ⟨_, List.filter_sublist _, h, fun hs => hs.sublist (List.filter_sublist _)⟩
    · rw [hf] at h
      exact ⟨[], List.nil_sublist _, h, fun _ => List.Pairwise.nil⟩
  · intro m rs qmeta
    have h := (watchNodes_ok_spec clock m rs qmeta).2.1
    cases hf : m.firstRun
    · rw [hf] at h
      exact ⟨_, List.filter_sublist _, h, fun hs => hs.sublist (List.filter_sublist _)⟩
    · rw [hf] at h
      exact ⟨[], List.nil_sublist _, h, fun _ => List.Pairwise.nil⟩
  · intro m rs qmeta
    have h := (watchEvaluations_ok_spec clock m rs qmeta).2.1
    cases hf : m.firstRun
    · rw [hf] at h
      exact ⟨_, List.filter_sublist _, h, fun hs => hs.sublist (List.filter_sublist _)⟩
    · rw [hf] at h
      exact ⟨[], List.nil_sublist _, h, fun _ => List.Pairwise.nil⟩
  · intro m rs qmeta
    have h := (watchDeployments_ok_spec clock m rs qmeta).2.1
    cases hf : m.firstRun
    · rw [hf] at h
      exact ⟨_, List.filter_sublist _, h, fun hs => hs.sublist (List.filter_sublist _)⟩
    · rw [hf] at h
      exact ⟨[], List.nil_sublist _, h, fun _ => List.Pairwise.nil⟩
  · intro m rs qmeta
    have h := (watchAllocations_ok_spec clock m rs qmeta).2.1
    cases hf : m.firstRun
    · rw [hf] at h
      exact ⟨_, List.filter_sublist _, h, fun hs => hs.sublist (List.filter_sublist _)⟩
    · rw [hf] at h
      exact ⟨[], List.nil_sublist _, h, fun _ => List.Pairwise.nil⟩

/-- C17. The `firstRun` lifecycle. Every manager is constructed with `firstRun`
true and `lastIndex` 0 (and `lastSeenTime` 0); a poll cycle whose query returns
an error returns an error, emits no envelope and leaves the manager, hence
`firstRun`, `lastIndex` and `lastSeenTime`, unchanged; every poll cycle whose
query succeeds ends with `firstRun` false; and no operation (a poll cycle,
`WriteEvent`, `markFirstRunComplete`, `Stop`) sets `firstRun` back to true. -/
theorem C17_firstRun_lifecycle (clock : Nat → Int) :
    (∀ (sinks : List Sink) (rateLimit : Int),
      (∃ m, NewAllocationManager none sinks rateLimit = .ok m ∧ m.firstRun = true
          ∧ m.lastIndex = 0 ∧ m.lastSeenTime = 0)
      ∧ (∃ m, NewEvaluationManager none sinks = .ok m ∧ m.firstRun = true ∧ m.lastIndex = 0)
      ∧ (∃ m, NewNodeManager none sinks = .ok m ∧ m.firstRun = true ∧ m.lastIndex = 0)
      ∧ (∃ m, NewJobManager none sinks = .ok m ∧ m.firstRun = true ∧ m.lastIndex = 0)
      ∧ (∃ m, NewDeploymentManager none sinks = .ok m ∧ m.firstRun = true ∧ m.lastIndex = 0))
    ∧ (∀ (err : String),
      (∀ m : AllocationManager, m.watchAllocations clock (.error err)
          = (m, some ("failed to get allocations: " ++ err)))
      ∧ (∀ m : EvaluationManager, m.watchEvaluations clock (.error err)
          = (m, some ("failed to get evaluations: " ++ err)))
      ∧ (∀ m : NodeManager, m.watchNodes clock (.error err)
          = (m, some ("failed to get nodes: " ++ err)))
      ∧ (∀ m : JobManager, m.watchJobs clock (.error err)
          = (m, some ("failed to get jobs: " ++ err)))
      ∧ (∀ m : DeploymentManager, m.watchDeployments clock (.error err)
          = (m, some ("failed to get deployments: " ++ err))))
    ∧ (∀ (m : BaseManager), emittedDuring m m = [])
    ∧ ((∀ (m : AllocationManager) rs qmeta,
          (m.watchAllocations clock (.ok (rs, qmeta))).1.firstRun = false
          ∧ (m.watchAllocations clock (.ok (rs, qmeta))).2 = none)
      ∧ (∀ (m : EvaluationManager) rs qmeta,
          (m.watchEvaluations clock (.ok (rs, qmeta))).1.firstRun = false
          ∧ (m.watchEvaluations clock (.ok (rs, qmeta))).2 = none)
      ∧ (∀ (m : NodeManager) rs qmeta,
          (m.watchNodes clock (.ok (rs, qmeta))).1.firstRun = false
          ∧ (m.watchNodes clock (.ok (rs, qmeta))).2 = none)
      ∧ (∀ (m : JobManager) rs qmeta,
          (m.watchJobs clock (.ok (rs, qmeta))).1.firstRun = false
          ∧ (m.watchJobs clock (.ok (rs, qmeta))).2 = none)
      ∧ (∀ (m : DeploymentManager) rs qmeta,
          (m.watchDeployments clock (.ok (rs, qmeta))).1.firstRun = false
          ∧ (m.watchDeployments clock (.ok (rs, qmeta))).2 = none))
    ∧ ((∀ (m : AllocationManager) q, m.firstRun = false →
          (m.watchAllocations clock q).1.firstRun = false)
      ∧ (∀ (m : EvaluationManager) q, m.firstRun = false →
          (m.watchEvaluations clock q).1.firstRun = false)
      ∧ (∀ (m : NodeManager) q, m.firstRun = false → (m.watchNodes clock q).1.firstRun = false)
      ∧ (∀ (m : JobManager) q, m.firstRun = false → (m.watchJobs clock q).1.firstRun = false)
      ∧ (∀ (m : DeploymentManager) q, m.firstRun = false →
          (m.watchDeployments clock q).1.firstRun = false)
      ∧ (∀ (m : BaseManager) (event : Event), m.firstRun = false →
          (m.WriteEvent event).1.firstRun = false)
      ∧ (∀ (m : BaseManager), m.firstRun = false → m.markFirstRunComplete.firstRun = false)
      ∧ (∀ (m : BaseManager), m.firstRun = false → m.Stop.1.firstRun = false)) := by
  refine ⟨?_, ?_, emittedDuring_self, ?_, ?_⟩
  · intro sinks rateLimit
    exact ⟨⟨_, rfl, rfl, rfl, rfl⟩, ⟨_, rfl, rfl, rfl⟩, ⟨_, rfl, rfl, rfl⟩, ⟨_, rfl, rfl, rfl⟩,
      ⟨_, rfl, rfl, rfl⟩⟩
  · intro err
    exact ⟨fun _ => rfl, fun _ => rfl, fun _ => rfl, fun _ => rfl, fun _ => rfl⟩
  · refine ⟨?_, ?_, ?_, ?_, ?_⟩
    · intro m rs qmeta
      obtain ⟨h1, _, _, _, h5⟩ := watchAllocations_ok_spec clock m rs qmeta
      exact ⟨h5, h1⟩
    · intro m rs qmeta
      obtain ⟨h1, _, _, h4⟩ := watchEvaluations_ok_spec clock m rs qmeta
      exact ⟨h4, h1⟩
    · intro m rs qmeta
      obtain ⟨h1, _, _, h4⟩ := watchNodes_ok_spec clock m rs qmeta
      exact ⟨h4, h1⟩
    · intro m rs qmeta
      obtain ⟨h1, _, _, h4⟩ := watchJobs_ok_spec clock m rs qmeta
      exact ⟨h4, h1⟩
    · intro m rs qmeta
      obtain ⟨h1, _, _, h4⟩ := watchDeployments_ok_spec clock m rs qmeta
      exact ⟨h4, h1⟩
  · refine ⟨?_, ?_, ?_, ?_, ?_, ?_, ?_, ?_⟩
    · intro m q hf
      rcases q with err | ⟨rs, qmeta⟩
      · exact hf
      · exact (watchAllocations_ok_spec clock m rs qmeta).2.2.2.2
    · intro m q hf
      rcases q with err | ⟨rs, qmeta⟩
      · exact hf
      · exact (watchEvaluations_ok_spec clock m rs qmeta).2.2.2
    · intro m q hf
      rcases q with err | ⟨rs, qmeta⟩
      · exact hf
      · exact (watchNodes_ok_spec clock m rs qmeta).2.2.2
    · intro m q hf
      rcases q with err | ⟨rs, qmeta⟩
      · exact hf
      · exact (watchJobs_ok_spec clock m rs qmeta).2.2.2
    · intro m q hf
      rcases q with err | ⟨rs, qmeta⟩
      · exact hf
      · exact (watchDeployments_ok_spec clock m rs qmeta).2.2.2
    · intro m event hf
      rw [WriteEvent_firstRun]; exact hf
    · intro m _
      exact (markFirstRunComplete_spec m).1
    · intro m hf
      exact hf

/-- C13, as stated, fails. The payload of the event is JSON-encodable, but the
time of the event, a time in UTC, is the first instant of the year 10000, which
has no RFC 3339 rendering: `ToJSON` returns an error, the one for a year out of
range. So does the last second of the year 9999 in UTC when the zone of the
time is one hour east of UTC, though not when the zone is UTC. -/
theorem C13_wire_format_counterexample :
    exampleEncoder.marshal (Payload.job ⟨"web", 5⟩)
        = .ok "\x7b\"message\":\"hello world\"\x7d"
    ∧ exampleEncoder.zoneOffset
          { Time := 253402300800 * 1000000000, Typ := "test", Data := .job ⟨"web", 5⟩ } = 0
    ∧ Event.ToJSON exampleEncoder
          { Time := 253402300800 * 1000000000, Typ := "test", Data := .job ⟨"web", 5⟩ }
        = .error (exampleEncoder.timeError .yearOutOfRange)
    ∧ (∀ text : String, Event.ToJSON exampleEncoder
          { Time := 253402300800 * 1000000000, Typ := "test", Data := .job ⟨"web", 5⟩ }
        ≠ .ok text)
    ∧ Event.ToJSON (exampleZoneEncoder 3600)
          { Time := 253402300799 * 1000000000, Typ := "test", Data := .job ⟨"web", 5⟩ }
        = .error (exampleEncoder.timeError .yearOutOfRange)
    ∧ Event.ToJSON exampleEncoder
          { Time := 253402300799 * 1000000000, Typ := "test", Data := .job ⟨"web", 5⟩ }
        = .ok ("\x7b\"time\":\"9999-12-31T23:59:59Z\",\"type\":\"test\","
            ++ "\"data\":\x7b\"message\":\"hello world\"\x7d\x7d") := by
  have h : Event.ToJSON exampleEncoder
      { Time := 253402300800 * 1000000000, Typ := "test", Data := .job ⟨"web", 5⟩ }
      = .error (exampleEncoder.timeError .yearOutOfRange) := rfl
  refine ⟨rfl, rfl, h, ?_, rfl, rfl⟩
  intro text ht
  rw [h] at ht
  cases ht

/-- C13, amended. Event wire format. Take an event whose payload is
JSON-encodable, with `wall` the reading of its time on the wall clock of the
zone of the time (the instant plus the offset of the zone).
(1) `ToJSON` succeeds if and only if `wall` lies in the years 0000 to 9999 and
the offset is less than 24 hours.
(2) It then yields a single JSON object with exactly the three members "time",
"type" and "data", in that order. "time" is the RFC 3339 rendering of the time
in its zone: the date `y-m-d` and the time of day `hh:mm:ss` with the
nanoseconds `ns` that the calendar gives for `wall`, followed by the zone. "type"
is the JSON string of the type of the event and "data" is the JSON encoding of
the payload.
(3) For a `wall` outside the years 0000 to 9999 `ToJSON` returns the error for
a year out of range, and for a `wall` inside them with an offset of 24 hours or
more the error for a zone hour out of range.
(4) The output contains no raw line feed.
(5) The JSON string of the type is the type itself between double quotes when no
character of it is a control character, a double quote, a backslash, `<`, `>`,
`&`, U+2028 or U+2029.
(6) The fields of the timestamp are decimal numerals of fixed width.
(7) In particular the time 2022-01-01T00:00:00Z, the type "test" and a payload
encoded as the object with the member "message" give the line of the tests. -/
theorem C13_wire_format_amended (enc : DataEncoder) (e : Event) (data : String)
    (hdata : enc.marshal e.Data = .ok data) :
    ((∃ text, e.ToJSON enc = .ok text)
        ↔ (rfc3339Min ≤ e.Time + enc.zoneOffset e * 1000000000
            ∧ e.Time + enc.zoneOffset e * 1000000000 < rfc3339Max)
          ∧ (-86400 < enc.zoneOffset e ∧ enc.zoneOffset e < 86400))
    ∧ (rfc3339Min ≤ e.Time + enc.zoneOffset e * 1000000000 →
        e.Time + enc.zoneOffset e * 1000000000 < rfc3339Max →
        (-86400 < enc.zoneOffset e ∧ enc.zoneOffset e < 86400) →
        ∃ y m d hh mm ss ns : Nat,
          y ≤ 9999 ∧ 1 ≤ m ∧ m ≤ 12 ∧ 1 ≤ d ∧ d ≤ daysInMonth y m
          ∧ hh < 24 ∧ mm < 60 ∧ ss < 60 ∧ ns < 1000000000
          ∧ unixNano y m d hh mm ss ns = e.Time + enc.zoneOffset e * 1000000000
          ∧ e.ToJSON enc
            = .ok (String.mk ("\x7b\"time\":".toList ++ [dquote]
                ++ rfc3339Text y m d hh mm ss ns (enc.zoneOffset e) ++ [dquote]
                ++ ",\"type\":".toList ++ jsonString e.Typ
                ++ ",\"data\":".toList ++ data.toList ++ "\x7d".toList)))
    ∧ ((e.Time + enc.zoneOffset e * 1000000000 < rfc3339Min
          ∨ rfc3339Max ≤ e.Time + enc.zoneOffset e * 1000000000) →
        e.ToJSON enc = .error (enc.timeError .yearOutOfRange))
    ∧ (rfc3339Min ≤ e.Time + enc.zoneOffset e * 1000000000 →
        e.Time + enc.zoneOffset e * 1000000000 < rfc3339Max →
        (enc.zoneOffset e ≤ -86400 ∨ 86400 ≤ enc.zoneOffset e) →
        e.ToJSON enc = .error (enc.timeError .zoneHourOutOfRange))
    ∧ (∀ text : String, e.ToJSON enc = .ok text → newline ∉ text.toList)
    ∧ ((∀ c ∈ e.Typ.toList, 32 ≤ c.toNat ∧ c ≠ dquote ∧ c ≠ backslash ∧ c ≠ '<' ∧ c ≠ '>'
          ∧ c ≠ '&' ∧ c.toNat ≠ 8232 ∧ c.toNat ≠ 8233) →
        jsonString e.Typ = [dquote] ++ e.Typ.toList ++ [dquote])
    ∧ (∀ width n : Nat, (padDigits width n).length = width
        ∧ decimalValue (padDigits width n) = n % 10 ^ width)
    ∧ (e.Time = 1640995200 * 1000000000 → enc.zoneOffset e = 0 → e.Typ = "test" →
        data = "\x7b\"message\":\"hello world\"\x7d" →
        e.ToJSON enc
          = .ok ("\x7b\"time\":\"2022-01-01T00:00:00Z\",\"type\":\"test\","
              ++ "\"data\":\x7b\"message\":\"hello world\"\x7d\x7d")) := by
  refine ⟨?_, ?_, ?_, ?_, fun text h => ToJSON_no_newline enc e text h, ?_,
    fun width n => ⟨padDigits_length width n, decimalValue_padDigits width n⟩, ?_⟩
  · constructor
    · rintro ⟨text, ht⟩
      obtain ⟨time, _, htime, _, _⟩ := ToJSON_ok_inv enc e text ht
      exact (formatRFC3339_ok_iff _ _).mp ⟨time, htime⟩
    · intro h
      obtain ⟨time, htime⟩ := (formatRFC3339_ok_iff _ _).mpr h
      exact ⟨_, ToJSON_of_ok enc e time data htime hdata⟩
  · intro h0 h1 hz
    obtain ⟨y, m, d, hh, mm, ss, ns, a1, a2, a3, a4, a5, a6, a7, a8, a9, a10, hf⟩ :=
      formatRFC3339_spec e.Time (enc.zoneOffset e) h0 h1 hz
    exact ⟨y, m, d, hh, mm, ss, ns, a1, a2, a3, a4, a5, a6, a7, a8, a9, a10,
      ToJSON_of_ok enc e _ data hf hdata⟩
  · intro h
    exact ToJSON_of_time_error enc e _ (formatRFC3339_year_error _ _ h)
  · intro h0 h1 hz
    exact ToJSON_of_time_error enc e _ (formatRFC3339_zone_error _ _ h0 h1 hz)
  · intro h
    exact jsonString_plain e.Typ (fun c hc => (escapeChar_plain_iff c).mpr (h c hc))
  · intro h1 h2 h3 h4
    have ht' : formatRFC3339 e.Time (enc.zoneOffset e) = .ok "2022-01-01T00:00:00Z".toList := by
      rw [h1, h2]; rfl
    rw [ToJSON_of_ok enc e _ data ht' hdata, h3, h4]
    rfl

/-- C13, amended, at the event of the tests, and the lines of events whose
times are in other zones, in a leap year, with a fraction of a second, and whose
type needs escaping. -/
theorem C13_wire_format_amended_witness :
    exampleEncoder.marshal exampleEvent.Data = .ok "\x7b\"message\":\"hello world\"\x7d"
    ∧ exampleEvent.ToJSON exampleEncoder
        = .ok ("\x7b\"time\":\"2022-01-01T00:00:00Z\",\"type\":\"test\","
            ++ "\"data\":\x7b\"message\":\"hello world\"\x7d\x7d")
    ∧ (∀ text : String, exampleEvent.ToJSON exampleEncoder = .ok text →
        newline ∉ text.toList)
    ∧ (∃ text, exampleEvent.ToJSON exampleEncoder = .ok text)
    ∧ Event.ToJSON (exampleZoneEncoder 19800)
          { Time := 1709231399500000000, Typ := "task", Data := .job ⟨"web", 5⟩ }
        = .ok ("\x7b\"time\":\"2024-02-29T23:59:59.5+05:30\",\"type\":\"task\","
            ++ "\"data\":\x7b\"message\":\"hello world\"\x7d\x7d")
    ∧ Event.ToJSON (exampleZoneEncoder (-18000))
          { Time := 946684800 * 1000000000, Typ := "node", Data := .job ⟨"web", 5⟩ }
        = .ok ("\x7b\"time\":\"1999-12-31T19:00:00-05:00\",\"type\":\"node\","
            ++ "\"data\":\x7b\"message\":\"hello world\"\x7d\x7d")
    ∧ Event.ToJSON exampleEncoder
          { Time := 1688474096000001000, Typ := "a\"b\\c<d>&\n\t", Data := .job ⟨"web", 5⟩ }
        = .ok ("\x7b\"time\":\"2023-07-04T12:34:56.000001Z\","
            ++ "\"type\":\"a\\\"b\\\\c\\u003cd\\u003e\\u0026\\n\\t\","
            ++ "\"data\":\x7b\"message\":\"hello world\"\x7d\x7d")
    ∧ jsonString (String.mk [Char.ofNat 8, Char.ofNat 12, Char.ofNat 13, Char.ofNat 1,
          Char.ofNat 8232, Char.ofNat 127])
        = "\"\\b\\f\\r\\u0001\\u2028".toList ++ [Char.ofNat 127, dquote]
    ∧ Event.ToJSON (exampleZoneEncoder 86400) exampleEvent
        = .error (exampleEncoder.timeError .zoneHourOutOfRange) :=
  have h := C13_wire_format_amended exampleEncoder exampleEvent
    "\x7b\"message\":\"hello world\"\x7d" rfl
  ⟨rfl, h.2.2.2.2.2.2.2 rfl rfl rfl rfl, h.2.2.2.2.1,
    h.1.mpr ⟨⟨by decide, by decide⟩, by decide, by decide⟩, rfl, rfl, rfl, rfl, rfl⟩

/-- C14 (file sink append). With a file as the sequence of its bytes:
(1) a sink made by `NewFileSink` holds the file of the path, open for
appending, and the call leaves an existing file, and every other path, as it
was, creating a missing file empty;
(2) a successful `FileSink.Write` of `e` to a sink open for appending whose
file has the content `c` leaves the content `c ++ ToJSON(e) ++ "\n"` and every
other path as it was, and the sink stays open for appending on the same path;
(3) writing `e1` then `e2`, both with success, to a sink made by `NewFileSink`
on a path without a file (or with an empty one) leaves
`ToJSON(e1) ++ "\n" ++ ToJSON(e2) ++ "\n"`, which is exactly two lines: the
JSON of `e1`, then the JSON of `e2`. -/
theorem C14_file_sink_append (enc : DataEncoder) :
    (∀ (openErr : Option String) (fs fs' : FileSystem) (path : String) (s : FileSink),
      NewFileSink openErr fs path = .ok (s, fs') →
        (∃ f, s.file = some f ∧ f.path = path ∧ f.append = true ∧ f.closed = false)
        ∧ (∀ c, fs path = some c → fs' = fs)
        ∧ (fs path = none → fs' path = some "")
        ∧ (∀ p, p ≠ path → fs' p = fs p))
    ∧ (∀ (fault : WriteFault) (fs : FileSystem) (s : FileSink) (e : Event) (f : File)
        (c : String),
      s.file = some f → f.append = true → fs f.path = some c →
      (FileSink.Write enc fault fs s e).2.2 = none →
        ∃ json, e.ToJSON enc = .ok json
          ∧ (FileSink.Write enc fault fs s e).2.1 f.path = some (c ++ json ++ "\n")
          ∧ (∀ p, p ≠ f.path → (FileSink.Write enc fault fs s e).2.1 p = fs p)
          ∧ (∃ f', (FileSink.Write enc fault fs s e).1.file = some f'
              ∧ f'.path = f.path ∧ f'.append = true))
    ∧ (∀ (openErr : Option String) (fault1 fault2 : WriteFault) (fs fs0 : FileSystem)
        (path : String) (s0 : FileSink) (e1 e2 : Event),
      (fs path = none ∨ fs path = some "") →
      NewFileSink openErr fs path = .ok (s0, fs0) →
      (FileSink.Write enc fault1 fs0 s0 e1).2.2 = none →
      (FileSink.Write enc fault2 (FileSink.Write enc fault1 fs0 s0 e1).2.1
        (FileSink.Write enc fault1 fs0 s0 e1).1 e2).2.2 = none →
        ∃ j1 j2, e1.ToJSON enc = .ok j1 ∧ e2.ToJSON enc = .ok j2
          ∧ (FileSink.Write enc fault2 (FileSink.Write enc fault1 fs0 s0 e1).2.1
              (FileSink.Write enc fault1 fs0 s0 e1).1 e2).2.1 path
            = some (j1 ++ "\n" ++ j2 ++ "\n")
          ∧ splitLines (j1 ++ "\n" ++ j2 ++ "\n") = [j1, j2]) := by
  refine ⟨?_, ?_, ?_⟩
  · intro openErr fs fs' path s h
    obtain ⟨_, hs, hfs⟩ := NewFileSink_ok_inv openErr fs fs' path s h
    refine ⟨⟨_, hs, rfl, rfl, rfl⟩, ?_, ?_, ?_⟩
    · intro c hc
      rw [hfs, hc]
    · intro hn
      rw [hfs, hn]
      exact FileSystem_set_same _ _ _
    · intro p hp
      rw [hfs]
      cases fs path with
      | none => exact FileSystem_set_other _ _ _ _ hp
      | some c => rfl
  · intro fault fs s e f c hs ha hc h
    obtain ⟨json, hj, hw⟩ := FileSink_Write_ok_inv enc fault fs s e f c hs ha hc h
    refine ⟨json, hj, ?_, ?_, ?_⟩
    · rw [hw, String.append_assoc]
      exact FileSystem_set_same _ _ _
    · intro p hp
      rw [hw]
      exact FileSystem_set_other _ _ _ _ hp
    · rw [hw]
      exact ⟨_, rfl, rfl, ha⟩
  · intro openErr fault1 fault2 fs fs0 path s0 e1 e2 hfresh hnew h1 h2
    obtain ⟨_, hs, hfs⟩ := NewFileSink_ok_inv openErr fs fs0 path s0 hnew
    have h0 : fs0 path = some "" := by
      rw [hfs]
      rcases hfresh with hn | he
      · rw [hn]
        exact FileSystem_set_same _ _ _
      · rw [he]
        exact he
    obtain ⟨j1, hj1, hw1⟩ :=
      FileSink_Write_ok_inv enc fault1 fs0 s0 e1 _ "" hs rfl h0 h1
    rw [hw1] at h2 ⊢
    obtain ⟨j2, hj2, hw2⟩ :=
      FileSink_Write_ok_inv enc fault2 _ _ e2 _ ("" ++ (j1 ++ "\n")) rfl rfl
        (FileSystem_set_same _ _ _) h2
    refine ⟨j1, j2, hj1, hj2, ?_, ?_⟩
    · rw [hw2]
      show FileSystem.set _ path _ path = _
      rw [FileSystem_set_same]
      simp [String.append_assoc]
    · exact splitLines_two j1 j2 (ToJSON_no_newline enc e1 j1 hj1)
        (ToJSON_no_newline enc e2 j2 hj2)

/-- C14 at the two example events, written to a new file "events.log": the
file holds the two JSON lines, in the order of the writes. -/
theorem C14_file_sink_append_witness :
    emptyFileSystem "events.log" = none
    ∧ (FileSink.Write exampleEncoder noFault
        (FileSink.Write exampleEncoder noFault (emptyFileSystem.set "events.log" "")
          { file := some { path := "events.log", append := true, offset := 0,
                           closed := false } } exampleEvent).2.1
        (FileSink.Write exampleEncoder noFault (emptyFileSystem.set "events.log" "")
          { file := some { path := "events.log", append := true, offset := 0,
                           closed := false } } exampleEvent).1 exampleEvent2).2.1
          "events.log"
      = some ("\x7b\"time\":\"2022-01-01T00:00:00Z\",\"type\":\"test\","
          ++ "\"data\":\x7b\"message\":\"hello world\"\x7d\x7d" ++ "\n"
          ++ ("\x7b\"time\":\"2022-01-01T00:00:01Z\",\"type\":\"job\","
          ++ "\"data\":\x7b\"message\":\"hello world\"\x7d\x7d") ++ "\n")
    ∧ splitLines ("\x7b\"time\":\"2022-01-01T00:00:00Z\",\"type\":\"test\","
          ++ "\"data\":\x7b\"message\":\"hello world\"\x7d\x7d" ++ "\n"
          ++ ("\x7b\"time\":\"2022-01-01T00:00:01Z\",\"type\":\"job\","
          ++ "\"data\":\x7b\"message\":\"hello world\"\x7d\x7d") ++ "\n")
      = ["\x7b\"time\":\"2022-01-01T00:00:00Z\",\"type\":\"test\","
          ++ "\"data\":\x7b\"message\":\"hello world\"\x7d\x7d",
         "\x7b\"time\":\"2022-01-01T00:00:01Z\",\"type\":\"job\","
          ++ "\"data\":\x7b\"message\":\"hello world\"\x7d\x7d"] := by
  obtain ⟨j1, j2, h1, h2, hc, hl⟩ :=
    (C14_file_sink_append exampleEncoder).2.2 none noFault noFault emptyFileSystem
      (emptyFileSystem.set "events.log" "") "events.log"
      { file := some { path := "events.log", append := true, offset := 0, closed := false } }
      exampleEvent exampleEvent2 (Or.inl rfl) rfl rfl rfl
  have e1 : j1 = "\x7b\"time\":\"2022-01-01T00:00:00Z\",\"type\":\"test\","
      ++ "\"data\":\x7b\"message\":\"hello world\"\x7d\x7d" :=
    (Except.ok.inj h1).symm
  have e2 : j2 = "\x7b\"time\":\"2022-01-01T00:00:01Z\",\"type\":\"job\","
      ++ "\"data\":\x7b\"message\":\"hello world\"\x7d\x7d" :=
    (Except.ok.inj h2).symm
  rw [e1, e2] at hc hl
  exact ⟨rfl, hc, hl⟩

end NomadEventLogger
